import Mathlib

/-! The program fsearch: name matcher, attribute filters, rendering and entry selection.

A shallow embedding of `src/search.c` and `src/config.c`.

* C strings are lists of character codes (the bytes before the terminating NUL).
* `int` fields are `Int` values; conversions to other C types are explicit.
* The one-bit flags of `fsearch_cfg_t` are `Bool`s (only their truth value is read).
* The libc routines used by the program (`tolower`, `strcmp`, `strncmp`, `strstr`,
  `strtok_r`, `atol`, `atoi`, `snprintf` with the formats used) are modelled by their
  C-locale behaviour on such lists.
-/

namespace FSearch

/-! ## C strings and libc -/

/-- A C string: the character codes before the terminating NUL. -/
abbrev CStr := List Nat

/-- The character codes of a string literal. -/
def cstr (s : String) : CStr := s.toList.map Char.toNat

/-- The libc `tolower` in the C locale: only `A`..`Z` change. -/
def tolower (c : Nat) : Nat := if 65 ≤ c ∧ c ≤ 90 then c + 32 else c

/-- The test `strcmp(a, b) == 0`. -/
def strcmp_eq (a b : CStr) : Bool := a == b

/-- The test `strncmp(a, b, n) == 0`: the first `n` characters agree, the
comparison ending early where both strings end. -/
def strncmp_eq : CStr → CStr → Nat → Bool
  | _, _, 0 => true
  | [], [], _ + 1 => true
  | a :: as, b :: bs, n + 1 => a == b && strncmp_eq as bs n
  | [], _ :: _, _ + 1 => false
  | _ :: _, [], _ + 1 => false

/-- The libc `strstr`: the tail of `haystack` that starts at the first
occurrence of `needle`, or `none` for `NULL`. -/
def strstr : CStr → CStr → Option CStr
  | [], needle => if needle.isEmpty then some [] else none
  | h :: t, needle =>
    if needle.isPrefixOf (h :: t) then some (h :: t) else strstr t needle

/-- The libc `strtok_r` on the text still to be scanned (`str` on the first
call, `*saveptr` afterwards): leading delimiters are skipped; when nothing is left
the result is `NULL`; otherwise the token runs up to the next delimiter, which is
overwritten by NUL, and the scan resumes after it. Returns the token and the new
`*saveptr`. -/
def strtok_r (str delim : CStr) : Option CStr × CStr :=
  match str.dropWhile (fun c => delim.contains c) with
  | [] => (none, [])
  | c :: s =>
    (some ((c :: s).takeWhile (fun x => !delim.contains x)),
     ((c :: s).dropWhile (fun x => !delim.contains x)).drop 1)

/-! ## Configuration (src/config.h) -/

/-- FSEARCH_PERM_LEN of config.h. -/
def FSEARCH_PERM_LEN : Nat := 9

/-- The search configuration `fsearch_cfg_t` of config.h. The `interrupted` pointer
refers to a flag outside the structure and is not a field here. -/
structure fsearch_cfg_t where
  last_directory : CStr
  directory : CStr
  file_name : CStr
  output : CStr
  exec_name : CStr
  permissions : Int
  link_count : Int
  file_types : Int
  file_size : Int
  criteria : Int
  indentation : Int
  recursive : Bool
  use_regex : Bool
  is_found : Bool
  verbose : Bool
deriving DecidableEq, Repr

/-- The function `fsearch_config_init` of config.c. -/
def fsearch_config_init (pname : CStr) : fsearch_cfg_t :=
  { exec_name := pname
    last_directory := []
    file_name := []
    output := []
    directory := cstr "./"
    permissions := 0
    file_types := 0
    link_count := -1
    file_size := -1
    indentation := 0
    recursive := false
    use_regex := false
    is_found := false
    criteria := 0
    verbose := false }

/-- The function `fsearch_get_filename` of config.c: stores the lowercased argument,
cut at `sizeof(pcfg->file_name)` characters (`name_max`, the platform NAME_MAX), and
returns 1 when the stored name contains `+`, 0 otherwise. For an argument of `name_max`
characters or more the terminator is written just past the buffer; the model keeps the
`name_max` characters stored. -/
def fsearch_get_filename (name_max : Nat) (pcfg : fsearch_cfg_t) (optarg : CStr) :
    fsearch_cfg_t × Int :=
  let length := min optarg.length name_max
  let pcfg := { pcfg with file_name := (optarg.take length).map tolower }
  (pcfg, if (strstr pcfg.file_name (cstr "+")).isSome then 1 else 0)

/-! ## Name matcher (src/search.c) -/

/-- The `while (token != NULL)` loop of `fsearch_check_name`. `fuel` bounds the
number of iterations; `none` means the bound was reached. -/
def fsearch_check_name_loop : Nat → Option CStr → CStr → CStr → Option Bool
  | 0, _, _, _ => none
  | _ + 1, none, _, _ => some true
  | fuel + 1, some token, offset, saveptr =>
    let token_len := token.length
    if !strncmp_eq offset token token_len then some false
    else
      let offset := offset.drop (token_len - 1)
      let skip_char := offset.headD 0
      let offset := offset.dropWhile (fun c => c == skip_char)
      let next := strtok_r saveptr (cstr "+")
      fsearch_check_name_loop fuel next.1 offset next.2

/-- The function `fsearch_check_name` of search.c. The loop gets one iteration per
character of the pattern plus one, which it never exceeds
(see `fsearch_check_name_loop_total`). -/
def fsearch_check_name (pcfg : fsearch_cfg_t) (entry : CStr) : Bool :=
  let name_len := pcfg.file_name.length
  if name_len = 0 then true
  else
    let entry_name := entry.map tolower
    if !pcfg.use_regex then strcmp_eq pcfg.file_name entry_name
    else
      match strtok_r pcfg.file_name (cstr "+") with
      | (none, _) => false
      | (some token, saveptr) =>
        match strstr entry_name token with
        | none => false
        | some offset =>
          (fsearch_check_name_loop (name_len + 1) (some token) offset saveptr).getD false

/-! ## Integer conversions and number parsing -/

/-- Conversion of an integer value to `int` (32 bits, two's complement, wrapping). -/
def to_int (x : Int) : Int := (x + 2147483648) % 4294967296 - 2147483648

/-- Conversion of an integer value to `unsigned int` (32 bits). -/
def to_unsigned (x : Int) : Nat := (x % 4294967296).toNat

/-- Conversion of an integer value to `size_t` (64 bits), as the usual arithmetic
conversions do to an `int` compared with a `size_t` or an `nlink_t`. -/
def to_size_t (x : Int) : Nat := (x % 18446744073709551616).toNat

/-- The operator `&` on two `int` values (two's complement). -/
def int_and (a b : Int) : Int := to_int ((to_unsigned a &&& to_unsigned b : Nat) : Int)

/-- The libc `isspace` in the C locale. -/
def isspace (c : Nat) : Bool := c == 32 || (9 ≤ c && c ≤ 13)

/-- The value of the leading decimal digits of a string, continuing from `acc`. -/
def atol_digits : CStr → Nat → Nat
  | [], acc => acc
  | c :: cs, acc => if 48 ≤ c ∧ c ≤ 57 then atol_digits cs (acc * 10 + (c - 48)) else acc

/-- LONG_MAX for a 64-bit `long`. -/
def LONG_MAX : Int := 9223372036854775807

/-- LONG_MIN for a 64-bit `long`. -/
def LONG_MIN : Int := -9223372036854775808

/-- The libc `atol` (that is `strtol(nptr, NULL, 10)`): white space is skipped, an
optional sign is read, then decimal digits; a value outside `long` saturates. -/
def atol (nptr : CStr) : Int :=
  match nptr.dropWhile isspace with
  | 45 :: cs => max LONG_MIN (-(atol_digits cs 0 : Int))
  | 43 :: cs => min LONG_MAX (atol_digits cs 0 : Int)
  | cs => min LONG_MAX (atol_digits cs 0 : Int)

/-- The libc `atoi`: the `long` of `atol` converted to `int`. -/
def atoi (nptr : CStr) : Int := to_int (atol nptr)

/-- The text printed by the conversion `%d`. -/
def fmt_d (n : Int) : CStr :=
  if n < 0 then 45 :: (Nat.toDigits 10 n.natAbs).map Char.toNat
  else (Nat.toDigits 10 n.natAbs).map Char.toNat

/-- The buffer left by `snprintf(output, size, ...)` when the formatted text is
`text`: at most `size - 1` characters are kept; with `size = 0` nothing is written. -/
def snprintf (output : CStr) (size : Nat) (text : CStr) : CStr :=
  if size = 0 then output else text.take (size - 1)

/-! ## File types and permissions in the configuration (src/config.c) -/

/-- The flag `fsearch_regular_file` of `fsearch_type_e`. -/
def fsearch_regular_file : Int := 1
/-- The flag `fsearch_block_device` of `fsearch_type_e`. -/
def fsearch_block_device : Int := 2
/-- The flag `fsearch_char_device` of `fsearch_type_e`. -/
def fsearch_char_device : Int := 4
/-- The flag `fsearch_directory` of `fsearch_type_e`. -/
def fsearch_directory : Int := 8
/-- The flag `fsearch_symlink` of `fsearch_type_e`. -/
def fsearch_symlink : Int := 16
/-- The flag `fsearch_socket` of `fsearch_type_e`. -/
def fsearch_socket : Int := 32
/-- The flag `fsearch_pipe` of `fsearch_type_e`. -/
def fsearch_pipe : Int := 64

/-- The operator `|` on two non-negative `int` values. -/
def int_or (a b : Int) : Int := to_int ((to_unsigned a ||| to_unsigned b : Nat) : Int)

/-- The loop of `fsearch_get_ftypes` of config.c over the characters still to be
read, `ntypes` being the flags gathered so far; `-1` for an invalid type letter. -/
def fsearch_get_ftypes_loop : CStr → Int → Int
  | [], ntypes => ntypes
  | c :: cs, ntypes =>
    if c = 'b'.toNat then fsearch_get_ftypes_loop cs (int_or ntypes fsearch_block_device)
    else if c = 'c'.toNat then fsearch_get_ftypes_loop cs (int_or ntypes fsearch_char_device)
    else if c = 'd'.toNat then fsearch_get_ftypes_loop cs (int_or ntypes fsearch_directory)
    else if c = 'f'.toNat then fsearch_get_ftypes_loop cs (int_or ntypes fsearch_regular_file)
    else if c = 'l'.toNat then fsearch_get_ftypes_loop cs (int_or ntypes fsearch_symlink)
    else if c = 'p'.toNat then fsearch_get_ftypes_loop cs (int_or ntypes fsearch_pipe)
    else if c = 's'.toNat then fsearch_get_ftypes_loop cs (int_or ntypes fsearch_socket)
    else -1

/-- The function `fsearch_get_ftypes` of config.c (the message on the error stream
is not modelled). -/
def fsearch_get_ftypes (ctypes : CStr) : Int := fsearch_get_ftypes_loop ctypes 0

/-- The function `fsearch_get_part_perm` of config.c on the three characters at
`part`; reading at the end of the string yields the NUL. -/
def fsearch_get_part_perm (part : CStr) : Int :=
  let p0 : Option Int :=
    if part.getD 0 0 = 'r'.toNat then some 4
    else if part.getD 0 0 ≠ '-'.toNat then none else some 0
  match p0 with
  | none => -1
  | some a =>
    let p1 : Option Int :=
      if part.getD 1 0 = 'w'.toNat then some (a + 2)
      else if part.getD 1 0 ≠ '-'.toNat then none else some a
    match p1 with
    | none => -1
    | some b =>
      if part.getD 2 0 = 'x'.toNat then b + 1
      else if part.getD 2 0 ≠ '-'.toNat then -1 else b

/-- The function `fsearch_get_permissions` of config.c (the messages on the error
stream are not modelled). -/
def fsearch_get_permissions (chmod : CStr) : Int :=
  let len := chmod.length
  if len ≠ FSEARCH_PERM_LEN then -1
  else
    let owner := fsearch_get_part_perm chmod
    let group := fsearch_get_part_perm (chmod.drop 3)
    let others := fsearch_get_part_perm (chmod.drop 6)
    if owner < 0 ∨ group < 0 ∨ others < 0 then -1
    else
      let buff := snprintf [] (FSEARCH_PERM_LEN + 1) (fmt_d owner ++ fmt_d group ++ fmt_d others)
      atoi buff

/-- The case `f` of the option switch of `fsearch_parse_args`: `use_regex` receives
the result of `fsearch_get_filename` and the criteria counter is incremented. -/
def fsearch_parse_opt_f (name_max : Nat) (pcfg : fsearch_cfg_t) (optarg : CStr) :
    fsearch_cfg_t :=
  let r := fsearch_get_filename name_max pcfg optarg
  { r.1 with use_regex := r.2 != 0, criteria := r.1.criteria + 1 }

/-- One pass of the option loop of `fsearch_parse_args` of config.c, for the option
character `opt` returned by `getopt` with its argument `optarg`; `none` is the
`return 0` of the cases `h` and default. `name_max` and `path_max` are the sizes of
the `file_name` and path buffers (NAME_MAX and PATH_MAX of the platform). -/
def fsearch_parse_opt (name_max path_max : Nat) (pcfg : fsearch_cfg_t) (opt : Nat)
    (optarg : CStr) : Option fsearch_cfg_t :=
  if opt = 'i'.toNat then some { pcfg with indentation := to_int (atol optarg) }
  else if opt = 'b'.toNat then
    some { pcfg with file_size := to_int (atol optarg), criteria := pcfg.criteria + 1 }
  else if opt = 'l'.toNat then
    some { pcfg with link_count := to_int (atol optarg), criteria := pcfg.criteria + 1 }
  else if opt = 'd'.toNat then
    some { pcfg with directory := snprintf pcfg.directory path_max optarg,
                     criteria := pcfg.criteria + 1 }
  else if opt = 'o'.toNat then
    some { pcfg with output := snprintf pcfg.output path_max optarg }
  else if opt = 't'.toNat then
    some { pcfg with file_types := fsearch_get_ftypes optarg, criteria := pcfg.criteria + 1 }
  else if opt = 'p'.toNat then
    some { pcfg with permissions := fsearch_get_permissions optarg,
                     criteria := pcfg.criteria + 1 }
  else if opt = 'f'.toNat then some (fsearch_parse_opt_f name_max pcfg optarg)
  else if opt = 'r'.toNat then some { pcfg with recursive := true }
  else if opt = 'v'.toNat then some { pcfg with verbose := true }
  else none

/-! ## Attribute filters (src/search.c) -/

/-- The function `fsearch_check_size` of search.c; `size` is a `size_t`. -/
def fsearch_check_size (pcfg : fsearch_cfg_t) (size : Nat) : Bool :=
  if pcfg.file_size < 0 then true
  else if to_size_t pcfg.file_size = size then true else false

/-- The function `fsearch_check_links` of search.c; `links` is an `nlink_t`. -/
def fsearch_check_links (pcfg : fsearch_cfg_t) (links : Nat) : Bool :=
  if pcfg.link_count < 0 then true
  else if to_size_t pcfg.link_count = links then true else false

/-- S_IFMT of sys/stat.h. -/
def S_IFMT : Nat := 0o170000
/-- S_IFSOCK of sys/stat.h. -/
def S_IFSOCK : Nat := 0o140000
/-- S_IFLNK of sys/stat.h. -/
def S_IFLNK : Nat := 0o120000
/-- S_IFREG of sys/stat.h. -/
def S_IFREG : Nat := 0o100000
/-- S_IFBLK of sys/stat.h. -/
def S_IFBLK : Nat := 0o060000
/-- S_IFDIR of sys/stat.h. -/
def S_IFDIR : Nat := 0o040000
/-- S_IFCHR of sys/stat.h. -/
def S_IFCHR : Nat := 0o020000
/-- S_IFIFO of sys/stat.h. -/
def S_IFIFO : Nat := 0o010000

/-- The function `fsearch_get_type` of search.c; `mode` is a `mode_t`. -/
def fsearch_get_type (mode : Nat) : Nat :=
  if mode &&& S_IFMT = S_IFBLK then 'b'.toNat
  else if mode &&& S_IFMT = S_IFCHR then 'c'.toNat
  else if mode &&& S_IFMT = S_IFDIR then 'd'.toNat
  else if mode &&& S_IFMT = S_IFIFO then 'p'.toNat
  else if mode &&& S_IFMT = S_IFLNK then 'l'.toNat
  else if mode &&& S_IFMT = S_IFREG then 'f'.toNat
  else if mode &&& S_IFMT = S_IFSOCK then 's'.toNat
  else 'u'.toNat

/-- The macro FSEARCH_CHECK_FL of search.c. -/
def FSEARCH_CHECK_FL (types flag : Int) : Bool := int_and types flag == flag

/-- The function `fsearch_check_type` of search.c. -/
def fsearch_check_type (pcfg : fsearch_cfg_t) (mode : Nat) : Bool :=
  if pcfg.file_types = 0 then true
  else
    let type := fsearch_get_type mode
    if type = 'b'.toNat then FSEARCH_CHECK_FL pcfg.file_types fsearch_block_device
    else if type = 'c'.toNat then FSEARCH_CHECK_FL pcfg.file_types fsearch_char_device
    else if type = 'd'.toNat then FSEARCH_CHECK_FL pcfg.file_types fsearch_directory
    else if type = 'p'.toNat then FSEARCH_CHECK_FL pcfg.file_types fsearch_pipe
    else if type = 'l'.toNat then FSEARCH_CHECK_FL pcfg.file_types fsearch_symlink
    else if type = 'f'.toNat then FSEARCH_CHECK_FL pcfg.file_types fsearch_regular_file
    else if type = 's'.toNat then FSEARCH_CHECK_FL pcfg.file_types fsearch_socket
    else false

/-- S_IRUSR of sys/stat.h. -/
def S_IRUSR : Nat := 0o400
/-- S_IWUSR of sys/stat.h. -/
def S_IWUSR : Nat := 0o200
/-- S_IXUSR of sys/stat.h. -/
def S_IXUSR : Nat := 0o100
/-- S_IRGRP of sys/stat.h. -/
def S_IRGRP : Nat := 0o040
/-- S_IWGRP of sys/stat.h. -/
def S_IWGRP : Nat := 0o020
/-- S_IXGRP of sys/stat.h. -/
def S_IXGRP : Nat := 0o010
/-- S_IROTH of sys/stat.h. -/
def S_IROTH : Nat := 0o004
/-- S_IWOTH of sys/stat.h. -/
def S_IWOTH : Nat := 0o002
/-- S_IXOTH of sys/stat.h. -/
def S_IXOTH : Nat := 0o001

/-- The C test `(mode & flag) ? a : b` selects `a` when the masked value is not zero. -/
def has_flag (mode flag : Nat) : Bool := mode &&& flag != 0

/-- The function `fsearch_get_chmod` of search.c: the buffer after the call. -/
def fsearch_get_chmod (output : CStr) (size : Nat) (mode : Nat) : CStr :=
  let owner : Int := (if has_flag mode S_IRUSR then 4 else 0)
    + (if has_flag mode S_IWUSR then 2 else 0) + (if has_flag mode S_IXUSR then 1 else 0)
  let group : Int := (if has_flag mode S_IRGRP then 4 else 0)
    + (if has_flag mode S_IWGRP then 2 else 0) + (if has_flag mode S_IXGRP then 1 else 0)
  let others : Int := (if has_flag mode S_IROTH then 4 else 0)
    + (if has_flag mode S_IWOTH then 2 else 0) + (if has_flag mode S_IXOTH then 1 else 0)
  snprintf output size (fmt_d owner ++ fmt_d group ++ fmt_d others)

/-- The function `fsearch_get_chmodstr` of search.c: the buffer after the call and
the returned length; a buffer shorter than ten bytes is left as it is. -/
def fsearch_get_chmodstr (output : CStr) (size : Nat) (mode : Nat) : CStr × Int :=
  if size < FSEARCH_PERM_LEN + 1 then (output, 0)
  else
    ([ if has_flag mode S_IRUSR then 'r'.toNat else '-'.toNat,
       if has_flag mode S_IWUSR then 'w'.toNat else '-'.toNat,
       if has_flag mode S_IXUSR then 'x'.toNat else '-'.toNat,
       if has_flag mode S_IRGRP then 'r'.toNat else '-'.toNat,
       if has_flag mode S_IWGRP then 'w'.toNat else '-'.toNat,
       if has_flag mode S_IXGRP then 'x'.toNat else '-'.toNat,
       if has_flag mode S_IROTH then 'r'.toNat else '-'.toNat,
       if has_flag mode S_IWOTH then 'w'.toNat else '-'.toNat,
       if has_flag mode S_IXOTH then 'x'.toNat else '-'.toNat ],
     FSEARCH_PERM_LEN)

/-- The function `fsearch_check_permissions` of search.c. -/
def fsearch_check_permissions (pcfg : fsearch_cfg_t) (mode : Nat) : Bool :=
  if pcfg.permissions = 0 then true
  else
    let buff := fsearch_get_chmod [] (FSEARCH_PERM_LEN + 1) mode
    if atoi buff = pcfg.permissions then true else false

/-! ## Rendering (src/search.c) -/

/-- The fields of `struct stat` that the program reads. `st_size` is the size as
`fsearch_check_size` and `%ld` receive it (sizes are not negative). -/
structure stat_t where
  st_mode : Nat
  st_nlink : Nat
  st_size : Nat
  st_uid : Nat
  st_gid : Nat
  st_atime : Int

/-- The libc lookups used for the verbose block: `getpwuid` and `getgrgid` give the
name of the entry found, if any, and `ctime` gives the text of a time. -/
structure libc_env where
  getpwuid : Nat → Option CStr
  getgrgid : Nat → Option CStr
  ctime : Int → CStr

/-- FSEARCH_INFO_LEN of config.h. -/
def FSEARCH_INFO_LEN : Nat := 128
/-- FSEARCH_TIME_LEN of config.h. -/
def FSEARCH_TIME_LEN : Nat := 12
/-- FSEARCH_SIZE_LEN of config.h. -/
def FSEARCH_SIZE_LEN : Nat := 10

/-- FSEARCH_STR_BOLD of search.c: escape, `[1m`. -/
def FSEARCH_STR_BOLD : CStr := [27, 91, 49, 109]
/-- FSEARCH_STR_RESET of search.c: escape, `[0m`. -/
def FSEARCH_STR_RESET : CStr := [27, 91, 48, 109]

/-- The text printed by the conversion `%lu`. -/
def fmt_lu (n : Nat) : CStr := (Nat.toDigits 10 n).map Char.toNat

/-- The text printed by the conversion `%.10ld` for a value that is not negative:
at least ten digits, zeros in front. -/
def fmt_10ld (n : Nat) : CStr :=
  List.replicate (10 - (fmt_lu n).length) 48 ++ fmt_lu n

/-- Addition of an `int` to a `size_t` (`depth += pcfg->indentation`): the `int` is
converted to `size_t` and the sum wraps at 64 bits. -/
def size_t_add (a : Nat) (b : Int) : Nat := (a + to_size_t b) % 18446744073709551616

/-- The macro S_ISDIR of sys/stat.h. -/
def S_ISDIR (mode : Nat) : Bool := mode &&& S_IFMT == S_IFDIR

/-- The loop of `fsearch_get_depth` of search.c. `fuel` bounds the number of
iterations; `none` means the bound was reached. -/
def fsearch_get_depth_loop (pcfg : fsearch_cfg_t) :
    Nat → Option CStr → CStr → Option CStr → CStr → Nat → Option Nat
  | 0, _, _, _, _, _ => none
  | fuel + 1, some foundptr, saveptr_found, some lastptr, saveptr_last, depth =>
    if !strcmp_eq foundptr lastptr then some depth
    else
      let depth := size_t_add depth pcfg.indentation
      let f := strtok_r saveptr_found (cstr "/")
      let l := strtok_r saveptr_last (cstr "/")
      fsearch_get_depth_loop pcfg fuel f.1 f.2 l.1 l.2 depth
  | _ + 1, _, _, _, _, depth => some depth

/-- The function `fsearch_get_depth` of search.c. The loop gets one iteration per
character of the path plus one, which it never exceeds (see `fsearch_get_depth_total`). -/
def fsearch_get_depth (pcfg : fsearch_cfg_t) (path : CStr) : Nat :=
  let f := strtok_r path (cstr "/")
  let l := strtok_r pcfg.last_directory (cstr "/")
  (fsearch_get_depth_loop pcfg (path.length + 1) f.1 f.2 l.1 l.2 0).getD 0

/-- The function `fsearch_get_info` of search.c: the buffer after the call, for a
buffer of `size` bytes. -/
def fsearch_get_info (env : libc_env) (pcfg : fsearch_cfg_t) (pstat : stat_t) (output : CStr)
    (size : Nat) : CStr :=
  if !pcfg.verbose then []
  else
    let chmod := (fsearch_get_chmodstr [] (FSEARCH_PERM_LEN + 1) pstat.st_mode).1
    let type := fsearch_get_type pstat.st_mode
    let uname := (env.getpwuid pstat.st_uid).getD []
    let gname := (env.getgrgid pstat.st_gid).getD []
    let ptime := env.ctime pstat.st_atime
    let stime := (ptime.drop 4).take FSEARCH_TIME_LEN
    let sizebuf := snprintf [] (FSEARCH_SIZE_LEN + 1) (fmt_10ld pstat.st_size)
    let sizebuf := List.replicate (sizebuf.takeWhile (fun c => c == '0'.toNat)).length ' '.toNat
      ++ sizebuf.dropWhile (fun c => c == '0'.toNat)
    let type := if type = 'f'.toNat then '-'.toNat else type
    snprintf output size
      ([type] ++ chmod ++ cstr "  " ++ fmt_lu pstat.st_nlink ++ cstr "  " ++ uname
        ++ cstr "  " ++ gname ++ cstr "  " ++ sizebuf ++ cstr " [" ++ stime ++ cstr "] ")

/-- The function `fsearch_printf` of search.c: the line written to the standard
output (without its newline) for the formatted text `text`; the same line is appended
to the output file when one is configured and opens. `line_max` is LINE_MAX. -/
def fsearch_printf (line_max : Nat) (text : CStr) : CStr := snprintf [] line_max text

/-- The `while (ptr != NULL)` loop of `fsearch_display_path` of search.c: the lines
printed. `fuel` bounds the number of iterations; `none` means the bound was reached. -/
def fsearch_display_path_loop (line_max : Nat) (pcfg : fsearch_cfg_t) (match_depth : Nat) :
    Nat → Option CStr → CStr → Nat → Option (List CStr)
  | 0, _, _, _ => none
  | _ + 1, none, _, _ => some []
  | fuel + 1, some ptr, saveptr, tabs =>
    if (match_depth = 0 ∧ tabs ≠ 0) ∨ (match_depth ≠ 0 ∧ tabs ≥ match_depth) then
      let suffix := List.replicate tabs '-'.toNat
      let next := strtok_r saveptr (cstr "/")
      let line :=
        if pcfg.criteria = 0 ∨ next.1.isSome then
          fsearch_printf line_max (cstr "|" ++ suffix ++ ptr)
        else
          fsearch_printf line_max
            (cstr "|" ++ suffix ++ FSEARCH_STR_BOLD ++ ptr ++ FSEARCH_STR_RESET)
      (fsearch_display_path_loop line_max pcfg match_depth fuel next.1 next.2
        (size_t_add tabs pcfg.indentation)).map (fun rest => line :: rest)
    else
      let lines := if match_depth = 0 then [fsearch_printf line_max ptr] else []
      let next := strtok_r saveptr (cstr "/")
      (fsearch_display_path_loop line_max pcfg match_depth fuel next.1 next.2
        (size_t_add tabs pcfg.indentation)).map (fun rest => lines ++ rest)

/-- The function `fsearch_display_path` of search.c: the lines printed. The loop gets
one iteration per character of the path plus one, which it never exceeds
(see `fsearch_display_path_total`). -/
def fsearch_display_path (env : libc_env) (line_max : Nat) (pcfg : fsearch_cfg_t)
    (pstat : stat_t) (path : CStr) : List CStr :=
  if pcfg.indentation = 0 then
    let sinfo := fsearch_get_info env pcfg pstat [] (FSEARCH_INFO_LEN + 1)
    [fsearch_printf line_max (sinfo ++ path)]
  else
    let match_depth := fsearch_get_depth pcfg path
    let first := strtok_r path (cstr "/")
    (fsearch_display_path_loop line_max pcfg match_depth (path.length + 1) first.1 first.2
      0).getD []

/-! ## Selection of an entry (src/search.c) -/

/-- The selection block of the loop of `fsearch_search_files` of search.c, for an
entry `d_name` of the directory `pdirectory` with joined path `path` and metadata
`statbuf`: when the five filters pass, the path is displayed, the entry is marked as
found and the last directory is updated. Returns the configuration after the block and
the lines printed. `path_max` is PATH_MAX, the size of `last_directory`. -/
def fsearch_search_files_select (env : libc_env) (path_max line_max : Nat)
    (pcfg : fsearch_cfg_t) (pdirectory path d_name : CStr) (statbuf : stat_t) :
    fsearch_cfg_t × List CStr :=
  if fsearch_check_name pcfg d_name &&
      fsearch_check_size pcfg statbuf.st_size &&
      fsearch_check_type pcfg statbuf.st_mode &&
      fsearch_check_links pcfg statbuf.st_nlink &&
      fsearch_check_permissions pcfg statbuf.st_mode then
    let lines := fsearch_display_path env line_max pcfg statbuf path
    let pcfg := { pcfg with is_found := true }
    if S_ISDIR statbuf.st_mode then
      ({ pcfg with last_directory := snprintf pcfg.last_directory path_max path }, lines)
    else
      ({ pcfg with last_directory := snprintf pcfg.last_directory path_max pdirectory }, lines)
  else (pcfg, [])

/-! ## Traversal (src/search.c, src/fsearch.c) -/

/-- What `readdir` yields for an open directory, entry after entry, `nil` being the
NULL that ends the enumeration. Each entry comes with the answers of the system for
the path joined from the directory and the entry name: the result of `lstat` (the
metadata, or the text of the error), and the result of `opendir` (`opendir_errno` is
the text of the error when the directory cannot be opened, otherwise `entries` is
what the opened directory yields). -/
inductive dirent_list where
  | nil : dirent_list
  | cons (d_name : CStr) (lstat : Except CStr stat_t) (opendir_errno : Option CStr)
      (entries : dirent_list) (rest : dirent_list) : dirent_list

/-- The state that the walk threads: the configuration, the lines written to the
standard output and to the error stream, the text of `strerror(errno)`, and the number
of reads of the interruption flag made so far. -/
structure walk_state where
  pcfg : fsearch_cfg_t
  out : List CStr
  err : List CStr
  errno : CStr
  clock : Nat

/-- The function `fsearch_log_error` of search.c: the line added to the error stream. -/
def fsearch_log_error (w : walk_state) (path : CStr) : walk_state :=
  { w with err := w.err ++ [w.pcfg.exec_name ++ cstr ": '" ++ path ++ cstr "': " ++ w.errno] }

/-- The `while` loop of `fsearch_search_files` of search.c over what `readdir` yields.
`interrupted k` is the value of the interruption flag at its read number `k`; the flag
is read only when `readdir` has returned an entry. The recursive call of
`fsearch_search_files` on a subdirectory is written out in place: it fails with -1
when the subdirectory cannot be opened and otherwise runs this loop on its entries.
The name of an opened directory is not empty, so `pdirectory[dir_len-1]` is its last
character; for the empty name, which `opendir` never accepts, the slash is added. -/
def fsearch_search_files_loop (env : libc_env) (path_max line_max : Nat)
    (interrupted : Nat → Bool) : walk_state → CStr → dirent_list → walk_state
  | w, _, .nil => w
  | w, pdirectory, .cons d_name lstat opendir_errno entries rest =>
    if interrupted w.clock then { w with clock := w.clock + 1 }
    else
      let w := { w with clock := w.clock + 1 }
      if strcmp_eq (cstr ".") d_name || strcmp_eq (cstr "..") d_name then
        fsearch_search_files_loop env path_max line_max interrupted w pdirectory rest
      else
        let slash := if pdirectory.getLast? ≠ some '/'.toNat then cstr "/" else []
        let path := snprintf [] path_max (pdirectory ++ slash ++ d_name)
        match lstat with
        | .error e =>
          let w := fsearch_log_error { w with errno := e } path
          fsearch_search_files_loop env path_max line_max interrupted w pdirectory rest
        | .ok statbuf =>
          let sel := fsearch_search_files_select env path_max line_max w.pcfg pdirectory path
            d_name statbuf
          let w := { w with pcfg := sel.1, out := w.out ++ sel.2 }
          let w :=
            if w.pcfg.recursive && S_ISDIR statbuf.st_mode then
              match opendir_errno with
              | some e => fsearch_log_error { w with errno := e } pdirectory
              | none =>
                fsearch_search_files_loop env path_max line_max interrupted w path entries
            else w
          fsearch_search_files_loop env path_max line_max interrupted w pdirectory rest

/-- The function `fsearch_search_files` of search.c, `pdir` being the result of
`opendir(pdirectory)`: the state after the call and the returned status. -/
def fsearch_search_files (env : libc_env) (path_max line_max : Nat)
    (interrupted : Nat → Bool) (w : walk_state) (pdirectory : CStr)
    (pdir : Except CStr dirent_list) : walk_state × Int :=
  match pdir with
  | .error e => ({ w with errno := e }, -1)
  | .ok entries =>
    (fsearch_search_files_loop env path_max line_max interrupted w pdirectory entries, 1)

/-- The option loop and the final validation of `fsearch_parse_args` of config.c:
`opts` lists what the successive calls of `getopt` return (the option character and
its argument). Returns the configuration and the status (0 on failure, else 1). -/
def fsearch_parse_args_loop (name_max path_max : Nat) :
    fsearch_cfg_t → List (Nat × CStr) → fsearch_cfg_t × Int
  | pcfg, [] => (pcfg, if pcfg.permissions < 0 ∨ pcfg.file_types < 0 then 0 else 1)
  | pcfg, (opt, optarg) :: opts =>
    match fsearch_parse_opt name_max path_max pcfg opt optarg with
    | none => (pcfg, 0)
    | some pcfg => fsearch_parse_args_loop name_max path_max pcfg opts

/-- The function `fsearch_parse_args` of config.c, `argv0` being `argv[0]`. -/
def fsearch_parse_args (name_max path_max : Nat) (argv0 : CStr) (opts : List (Nat × CStr)) :
    fsearch_cfg_t × Int :=
  fsearch_parse_args_loop name_max path_max (fsearch_config_init argv0) opts

/-- The function `main` of fsearch.c: the exit status and the final state. `opendir`
gives the result of opening the target directory. The text of `fsearch_print_usage`
and the message of the signal handler are not modelled. -/
def main (env : libc_env) (name_max path_max line_max : Nat) (interrupted : Nat → Bool)
    (opendir : CStr → Except CStr dirent_list) (argv0 : CStr) (opts : List (Nat × CStr)) :
    Int × walk_state :=
  let parsed := fsearch_parse_args name_max path_max argv0 opts
  let w : walk_state := { pcfg := parsed.1, out := [], err := [], errno := [], clock := 0 }
  if parsed.2 = 0 then (1, w)
  else
    let r := fsearch_search_files env path_max line_max interrupted w w.pcfg.directory
      (opendir w.pcfg.directory)
    if r.2 < 0 then (1, fsearch_log_error r.1 r.1.pcfg.directory)
    else if !r.1.pcfg.is_found then (1, { r.1 with out := r.1.out ++ [cstr "No file found"] })
    else (0, r.1)

/-! ## Specification-side notions -/

/-- The tokens of a text for the delimiter `d`: the non-empty pieces between the
occurrences of `d`, in order. -/
def tokens (d : Nat) (s : CStr) : List CStr := (s.splitOn d).filter (fun t => !t.isEmpty)

/-- The non-empty pieces of a pattern between its `+` signs, in order. -/
def pattern_tokens (p : CStr) : List CStr := tokens 43 p

/-- Where the matcher stands after a token confirmed at `offset`: past the token and
past every further copy of the last character of the token. -/
def after_token (offset token : CStr) : CStr :=
  (offset.drop (token.length - 1)).dropWhile
    (fun c => c == (offset.drop (token.length - 1)).headD 0)

/-- The tokens are confirmed one after the other from `offset`. -/
def match_tokens : List CStr → CStr → Bool
  | [], _ => true
  | t :: ts, offset => t.isPrefixOf offset && match_tokens ts (after_token offset t)

/-- The configuration used in the examples: the option `-f` with the given argument,
parsed on a fresh configuration with the NAME_MAX of Linux. -/
def cfg_of_pattern (a : String) : fsearch_cfg_t :=
  fsearch_parse_opt_f 255 (fsearch_config_init (cstr "fsearch")) (cstr a)

/-- The seven supported kinds: the format bits of the mode, the type letter, and the
number of the bit of the kind in the type mask (`fsearch_type_e`). -/
def type_kinds : List (Nat × Nat × Nat) :=
  [ (S_IFBLK, 'b'.toNat, 1), (S_IFCHR, 'c'.toNat, 2), (S_IFDIR, 'd'.toNat, 3),
    (S_IFIFO, 'p'.toNat, 6), (S_IFLNK, 'l'.toNat, 4), (S_IFREG, 'f'.toNat, 0),
    (S_IFSOCK, 's'.toNat, 5) ]

/-- The value of one `rwx` group computed from three permission bits. -/
def perm_digit (r w x : Bool) : Int :=
  (if r then 4 else 0) + (if w then 2 else 0) + (if x then 1 else 0)

/-- The text of one `rwx` group for three permission bits. -/
def perm_part (r w x : Bool) : CStr :=
  [ if r then 'r'.toNat else '-'.toNat, if w then 'w'.toNat else '-'.toNat,
    if x then 'x'.toNat else '-'.toNat ]

/-- A well-formed permission string: nine characters, each the letter of its position
in `rwxrwxrwx` or `-`. -/
def perm_well_formed (s : CStr) : Prop :=
  s.length = 9 ∧
    ∀ i, i < 9 → (s.getD i 0 = (cstr "rwxrwxrwx").getD i 0 ∨ s.getD i 0 = '-'.toNat)

instance (s : CStr) : Decidable (perm_well_formed s) := by
  unfold perm_well_formed; infer_instance

/-- The libc lookups of the examples: no user and no group is found, and every time
prints as the start of the epoch. -/
def example_env : libc_env :=
  { getpwuid := fun _ => none
    getgrgid := fun _ => none
    ctime := fun _ => cstr "Thu Jan  1 00:00:00 1970\n" }

/-- The range of an `int`. -/
def int_range (x : Int) : Prop := -2147483648 ≤ x ∧ x ≤ 2147483647

instance (x : Int) : Decidable (int_range x) := by
  unfold int_range; infer_instance

/-- The conjunction of the five filter predicates on an entry with the given name and
metadata, the size and link-count predicates being worded on the configured values. -/
def all_five_filters (pcfg : fsearch_cfg_t) (d_name : CStr) (statbuf : stat_t) : Prop :=
  fsearch_check_name pcfg d_name = true ∧
  (pcfg.file_size < 0 ∨ pcfg.file_size = (statbuf.st_size : Int)) ∧
  (pcfg.link_count < 0 ∨ pcfg.link_count = (statbuf.st_nlink : Int)) ∧
  fsearch_check_type pcfg statbuf.st_mode = true ∧
  fsearch_check_permissions pcfg statbuf.st_mode = true

instance (pcfg : fsearch_cfg_t) (d_name : CStr) (statbuf : stat_t) :
    Decidable (all_five_filters pcfg d_name statbuf) := by
  unfold all_five_filters; infer_instance

/-- The path that the loop of `fsearch_search_files` joins for the entry `d_name` of
`pdirectory`: one slash is added unless the directory ends with one, and the text is
cut to the `path_max` bytes of the buffer. -/
def entry_path (path_max : Nat) (pdirectory d_name : CStr) : CStr :=
  snprintf [] path_max
    (pdirectory ++ (if pdirectory.getLast? ≠ some '/'.toNat then cstr "/" else []) ++ d_name)

/-- The entry name is `.` or `..`. -/
def is_dot (d_name : CStr) : Bool :=
  strcmp_eq (cstr ".") d_name || strcmp_eq (cstr "..") d_name

/-- The state after the selection block for an entry: one more read of the flag, the
configuration and the lines of the block. -/
def after_select (env : libc_env) (path_max line_max : Nat) (w : walk_state)
    (pdirectory d_name : CStr) (statbuf : stat_t) : walk_state :=
  { w with
    clock := w.clock + 1
    pcfg := (fsearch_search_files_select env path_max line_max w.pcfg pdirectory
      (entry_path path_max pdirectory d_name) d_name statbuf).1
    out := w.out ++ (fsearch_search_files_select env path_max line_max w.pcfg pdirectory
      (entry_path path_max pdirectory d_name) d_name statbuf).2 }

/-- The metadata of a regular file of the examples. -/
def example_file : stat_t := ⟨0o100644, 1, 0, 0, 0, 0⟩

/-- The metadata of a directory of the examples. -/
def example_dir : stat_t := ⟨0o040755, 2, 4096, 0, 0, 0⟩

/-- The metadata of a symbolic link of the examples. -/
def example_link : stat_t := ⟨0o120777, 1, 1, 0, 0, 0⟩

/-- A last entry of a directory that is a regular file (it does not open as a
directory). -/
def file_entry (d_name : String) (rest : dirent_list) : dirent_list :=
  .cons (cstr d_name) (.ok example_file) (some (cstr "Not a directory")) .nil rest

/-- The directory of the examples: `.`, `..` and the directory `a`, which holds `.`,
`..` and the regular file `b`. -/
def example_tree : dirent_list :=
  .cons (cstr ".") (.ok example_dir) none .nil <|
  .cons (cstr "..") (.ok example_dir) none .nil <|
  .cons (cstr "a") (.ok example_dir) none
    (.cons (cstr ".") (.ok example_dir) none .nil <|
      .cons (cstr "..") (.ok example_dir) none .nil <| file_entry "b" .nil) .nil

/-- A directory with a symbolic link `l` to a directory that holds the file `x`, and
a directory `d` that holds the file `x`. -/
def example_tree_link : dirent_list :=
  .cons (cstr "l") (.ok example_link) none (file_entry "x" .nil) <|
  .cons (cstr "d") (.ok example_dir) none (file_entry "x" .nil) .nil

/-- The state in which `main` starts the walk for the given options (parsed with the
limits of Linux). -/
def example_state (opts : List (Nat × CStr)) : walk_state :=
  { pcfg := (fsearch_parse_args 255 4096 (cstr "fsearch") opts).1
    out := [], err := [], errno := [], clock := 0 }

/-- A directory whose first entry is the directory `d`, which cannot be opened, and
whose second entry is the regular file `f`. -/
def example_tree_unopenable : dirent_list :=
  .cons (cstr "d") (.ok example_dir) (some (cstr "Permission denied")) .nil <|
  file_entry "f" .nil

/-- The five filters of the selection block all pass for an entry. -/
def passes_filters (pcfg : fsearch_cfg_t) (d_name : CStr) (statbuf : stat_t) : Bool :=
  fsearch_check_name pcfg d_name &&
    fsearch_check_size pcfg statbuf.st_size &&
    fsearch_check_type pcfg statbuf.st_mode &&
    fsearch_check_links pcfg statbuf.st_nlink &&
    fsearch_check_permissions pcfg statbuf.st_mode

/-- The entries that a walk visits, in order, with their metadata, and the number of
reads of the flag at its end, for a walk that starts at read number `clock`: an entry
is visited when the flag is clear at its check, its name is neither `.` nor `..` and
its metadata can be read; the entries of a subdirectory follow it when recursion is
enabled and the subdirectory opens. -/
def visited (recursive : Bool) (interrupted : Nat → Bool) :
    Nat → dirent_list → List (CStr × stat_t) × Nat
  | clock, .nil => ([], clock)
  | clock, .cons d_name lstat opendir_errno entries rest =>
    if interrupted clock then ([], clock + 1)
    else if is_dot d_name then visited recursive interrupted (clock + 1) rest
    else
      match lstat with
      | .error _ => visited recursive interrupted (clock + 1) rest
      | .ok statbuf =>
        let inner :=
          if recursive && S_ISDIR statbuf.st_mode && opendir_errno.isNone then
            visited recursive interrupted (clock + 1) entries
          else ([], clock + 1)
        let later := visited recursive interrupted inner.2 rest
        ((d_name, statbuf) :: inner.1 ++ later.1, later.2)

/-- The second configuration differs from the first at most in the found mark and
the last directory. -/
def same_criteria (a b : fsearch_cfg_t) : Prop :=
  b = { a with is_found := b.is_found, last_directory := b.last_directory }

/-- Some entry visited by the walk of the directory `t` passes all five filters. -/
def some_visited_passes (pcfg : fsearch_cfg_t) (interrupted : Nat → Bool)
    (t : dirent_list) : Bool :=
  (visited pcfg.recursive interrupted 0 t).1.any (fun x => passes_filters pcfg x.1 x.2)

/-- The directory holds no entry other than `.` and `..`. -/
def only_dots : dirent_list → Bool
  | .nil => true
  | .cons d_name _ _ _ rest => is_dot d_name && only_dots rest

/-- The directory and the entry name joined with exactly one slash between them: no
slash is added when the directory already ends with one. -/
def join_path (pdirectory d_name : CStr) : CStr :=
  if pdirectory.getLast? = some '/'.toNat then pdirectory ++ d_name
  else pdirectory ++ cstr "/" ++ d_name

/-- The metadata of the entry was read and is that of a directory. -/
def is_directory (lstat : Except CStr stat_t) : Bool :=
  match lstat with
  | .ok statbuf => S_ISDIR statbuf.st_mode
  | .error _ => false

/-- The joined paths of the entries of the directory `pdirectory` in the order of the
enumeration, `.` and `..` left out; with `recursive`, the paths of the entries of a
subdirectory follow the path of the subdirectory (depth-first pre-order). -/
def preorder (recursive : Bool) : CStr → dirent_list → List CStr
  | _, .nil => []
  | pdirectory, .cons d_name lstat _ entries rest =>
    if is_dot d_name then preorder recursive pdirectory rest
    else
      join_path pdirectory d_name ::
        ((if recursive && is_directory lstat then
            preorder recursive (join_path pdirectory d_name) entries
          else []) ++ preorder recursive pdirectory rest)

/-- The joined paths of the direct entries of the directory, `.` and `..` left out. -/
def direct_entries (pdirectory : CStr) : dirent_list → List CStr
  | .nil => []
  | .cons d_name _ _ _ rest =>
    if is_dot d_name then direct_entries pdirectory rest
    else join_path pdirectory d_name :: direct_entries pdirectory rest

/-- Every entry of the tree other than `.` and `..` has metadata that can be read, and
every directory among them opens and holds entries of which the same is true. -/
def walkable : dirent_list → Bool
  | .nil => true
  | .cons d_name lstat opendir_errno entries rest =>
    (is_dot d_name ||
      match lstat with
      | .error _ => false
      | .ok statbuf =>
        !S_ISDIR statbuf.st_mode || (opendir_errno.isNone && walkable entries)) &&
    walkable rest

/-- No filter is configured, and the output is flat and not verbose. -/
def flat_no_filters (pcfg : fsearch_cfg_t) : Prop :=
  pcfg.file_name = [] ∧ pcfg.file_size < 0 ∧ pcfg.link_count < 0 ∧ pcfg.file_types = 0 ∧
  pcfg.permissions = 0 ∧ pcfg.indentation = 0 ∧ pcfg.verbose = false

instance (pcfg : fsearch_cfg_t) : Decidable (flat_no_filters pcfg) := by
  unfold flat_no_filters; infer_instance

/-- The line of a component printed in the tree: a bar, `tabs` dashes and the
component, between the bold and the reset markup when `bold`; the line is cut at
LINE_MAX as `fsearch_printf` does. -/
def tree_line (line_max tabs : Nat) (bold : Bool) (c : CStr) : CStr :=
  fsearch_printf line_max
    (if bold then
      cstr "|" ++ List.replicate tabs '-'.toNat ++ FSEARCH_STR_BOLD ++ c ++ FSEARCH_STR_RESET
    else cstr "|" ++ List.replicate tabs '-'.toNat ++ c)

/-- The lines of the tree for the components still to print, the first of them at the
running depth `tabs`: a component at or beyond the match depth gets a tree line, in bold
when a criterion is configured and it is the last one; a component before it gets a
plain line holding the component alone when the match depth is zero, and no line
otherwise. -/
def tree_lines (line_max : Nat) (pcfg : fsearch_cfg_t) (match_depth : Nat) :
    List CStr → Nat → List CStr
  | [], _ => []
  | c :: cs, tabs =>
    (if (match_depth = 0 ∧ tabs ≠ 0) ∨ (match_depth ≠ 0 ∧ tabs ≥ match_depth) then
      [tree_line line_max tabs (decide (pcfg.criteria ≠ 0 ∧ cs = [])) c]
    else if match_depth = 0 then [fsearch_printf line_max c]
    else []) ++
    tree_lines line_max pcfg match_depth cs (size_t_add tabs pcfg.indentation)

/-- The lines of the tree for the components of a path, by the index of the
component, for the indentation unit `u`: the component of index `k` has a line when
`k * u` reaches the match depth; the line of the component of index 0 holds the
component alone, and the line of every other component is its tree line with `k * u`
dashes, in bold when a criterion is configured and the component is the last one. -/
def tree_lines_indexed (line_max : Nat) (pcfg : fsearch_cfg_t) (match_depth u n : Nat)
    (components : List (Nat × CStr)) : List CStr :=
  (components.filter (fun x => decide (match_depth ≤ x.1 * u))).map (fun x =>
    if x.1 = 0 then fsearch_printf line_max x.2
    else tree_line line_max (x.1 * u) (decide (pcfg.criteria ≠ 0 ∧ x.1 + 1 = n)) x.2)

/-- The component between the bold and the reset markup when `bold`, and bare
otherwise. -/
def emphasis (bold : Bool) (c : CStr) : CStr :=
  if bold then FSEARCH_STR_BOLD ++ c ++ FSEARCH_STR_RESET else c

/-- The configuration of the examples for the given options, with the given last
directory. -/
def example_cfg (opts : List (Nat × CStr)) (last_directory : String) : fsearch_cfg_t :=
  { (fsearch_parse_args 255 4096 (cstr "fsearch") opts).1 with
    last_directory := cstr last_directory }

/-- A root directory that holds the regular file `etc` only. -/
def example_tree_root : dirent_list := file_entry "etc" .nil

/-- The options whose case in the switch of `fsearch_parse_args` increments the
criteria counter: the five filter options `-f`, `-b`, `-l`, `-t`, `-p`, and `-d`. -/
def counted_option (opt : Nat) : Bool :=
  opt = 'f'.toNat || opt = 'b'.toNat || opt = 'l'.toNat || opt = 't'.toNat ||
    opt = 'p'.toNat || opt = 'd'.toNat

/-- The five filter options `-f`, `-b`, `-l`, `-t`, `-p`. -/
def filter_option (opt : Nat) : Bool :=
  opt = 'f'.toNat || opt = 'b'.toNat || opt = 'l'.toNat || opt = 't'.toNat ||
    opt = 'p'.toNat

/-- The length of the longest common prefix of two lists of components: the number
of leading positions at which the two lists hold the same component. -/
def common_prefix_length : List CStr → List CStr → Nat
  | a :: as, b :: bs => if a = b then common_prefix_length as bs + 1 else 0
  | _, _ => 0

/-- The text is `t1 r1 t2 r2 ... tn v` for the tokens `t1 .. tn`: every `r_i` is a run
(possibly empty) of copies of the last character of `t_i`, the token `t_(i+1)` does not
begin with that character, and `v` is any text. -/
def token_chain : List CStr → CStr → Prop
  | [], _ => True
  | [t], s => ∃ v : CStr, s = t ++ v
  | t :: t2 :: ts, s =>
    ∃ (k : Nat) (rest : CStr),
      s = t ++ List.replicate k (t.getLastD 0) ++ rest ∧
      t2.head? ≠ t.getLast? ∧ token_chain (t2 :: ts) rest

/-- The text `s` is `u` followed by `o`, where `o` starts with the first occurrence of
`t` in `s`: `t` starts `o` and starts at no earlier position of `s`. -/
def first_occurrence (t s u o : CStr) : Prop :=
  s = u ++ o ∧ t <+: o ∧ ∀ i, i < u.length → ¬ t <+: s.drop i

/-! ## Lemmas on the libc models -/

theorem cstr_plus : cstr "+" = [43] := by decide

theorem strncmp_eq_isPrefixOf (tok off : CStr) :
    strncmp_eq off tok tok.length = tok.isPrefixOf off := by
  induction tok generalizing off with
  | nil => cases off <;> simp [strncmp_eq]
  | cons b bs ih =>
    cases off with
    | nil => simp [strncmp_eq]
    | cons a as =>
      simp only [List.length_cons, strncmp_eq, List.isPrefixOf, ih]
      rw [Bool.beq_comm]

theorem cstr_slash : cstr "/" = [47] := by decide

theorem strtok_r_single_eq (d : Nat) (s : CStr) :
    strtok_r s [d] =
      match s.dropWhile (fun c => c == d) with
      | [] => (none, [])
      | c :: r =>
        (some ((c :: r).takeWhile (fun x => x != d)),
         ((c :: r).dropWhile (fun x => x != d)).drop 1) := by
  have h1 : (fun c : Nat => [d].contains c) = (fun c => c == d) := by
    funext c; by_cases h : c = d <;> simp [h]
  have h2 : (fun x : Nat => !([d].contains x)) = (fun x => x != d) := by
    funext c; by_cases h : c = d <;> simp [h]
  unfold strtok_r
  rw [h1, h2]

theorem tokens_nil (d : Nat) : tokens d [] = [] := by
  simp [tokens]

theorem tokens_delim_cons (d : Nat) (s : CStr) : tokens d (d :: s) = tokens d s := by
  simp [tokens, List.splitOn]

/-- A text either has no delimiter `d`, or splits at its first `d`. -/
theorem split_at_delim (d : Nat) (s : CStr) :
    (s.dropWhile (fun x => x != d) = [] ∧ s.takeWhile (fun x => x != d) = s
        ∧ ∀ x ∈ s, x ≠ d) ∨
    (∃ r, s.dropWhile (fun x => x != d) = d :: r
        ∧ s = s.takeWhile (fun x => x != d) ++ d :: r
        ∧ ∀ x ∈ s.takeWhile (fun x => x != d), x ≠ d) := by
  induction s with
  | nil => left; simp
  | cons c s ih =>
    by_cases hc : c = d
    · right; exact ⟨s, by simp [hc], by simp [hc], by simp [hc]⟩
    · rcases ih with ⟨h1, h2, h3⟩ | ⟨r, h1, h2, h3⟩
      · left
        refine ⟨by simp [hc, h1], by simp [hc, h2], ?_⟩
        intro x hx
        rcases List.mem_cons.1 hx with rfl | hx
        · exact hc
        · exact h3 x hx
      · right
        refine ⟨r, by simp [hc, h1], ?_, ?_⟩
        · have : (c != d) = true := by simp [hc]
          rw [List.takeWhile_cons, this]
          simp only [if_true, List.cons_append]
          rw [← h2]
        · intro x hx
          have : (c != d) = true := by simp [hc]
          rw [List.takeWhile_cons, this] at hx
          simp only [if_true] at hx
          rcases List.mem_cons.1 hx with rfl | hx
          · exact hc
          · exact h3 x hx

/-- The tokens of a text that starts with a character other than the delimiter. -/
theorem tokens_cons_ne (d c : Nat) (s : CStr) (hc : c ≠ d) :
    tokens d (c :: s) =
      (c :: s).takeWhile (fun x => x != d)
        :: tokens d (((c :: s).dropWhile (fun x => x != d)).drop 1) := by
  have hc1 : (c != d) = true := by simp [hc]
  rcases split_at_delim d s with ⟨h1, h2, h3⟩ | ⟨r, h1, h2, h3⟩
  · have hall : ∀ x ∈ c :: s, ¬ ((fun y => y == d) x = true) := by
      intro x hx
      rcases List.mem_cons.1 hx with rfl | hx
      · simpa using hc
      · simpa using h3 x hx
    have hsp : (c :: s).splitOn d = [c :: s] := List.splitOnP_eq_single _ _ hall
    rw [List.takeWhile_cons, List.dropWhile_cons, hc1]
    simp only [if_true, h1, h2, List.drop_nil]
    simp [tokens, hsp]
  · have hall : ∀ x ∈ c :: s.takeWhile (fun x => x != d), ¬ ((fun y => y == d) x = true) := by
      intro x hx
      rcases List.mem_cons.1 hx with rfl | hx
      · simpa using hc
      · simpa using h3 x hx
    have hsp : (c :: s).splitOn d
        = (c :: s.takeWhile (fun x => x != d)) :: r.splitOn d := by
      have h := List.splitOnP_first (fun y => y == d) _ hall d (by simp) r
      rw [List.cons_append, ← h2] at h
      exact h
    rw [List.takeWhile_cons, List.dropWhile_cons, hc1]
    simp only [if_true, h1, List.drop_one, List.tail_cons]
    simp [tokens, hsp]

/-- What `strtok_r` returns for a one-character delimiter: the first token (none when
there is no token), leaving a text that holds the remaining tokens and is shorter. -/
theorem strtok_r_tokens (d : Nat) (s : CStr) :
    (tokens d s = [] ∧ strtok_r s [d] = (none, [])) ∨
    (∃ t rest, tokens d s = t :: tokens d rest ∧ strtok_r s [d] = (some t, rest)
        ∧ t ≠ [] ∧ rest.length + 1 ≤ s.length) := by
  induction s with
  | nil => left; exact ⟨tokens_nil d, by simp [strtok_r_single_eq]⟩
  | cons c s ih =>
    by_cases hc : c = d
    · subst hc
      have h : strtok_r (c :: s) [c] = strtok_r s [c] := by
        simp [strtok_r_single_eq]
      rw [tokens_delim_cons, h]
      rcases ih with ⟨h1, h2⟩ | ⟨t, rest, h1, h2, h3, h4⟩
      · left; exact ⟨h1, h2⟩
      · right; exact ⟨t, rest, h1, h2, h3, by simp only [List.length_cons]; omega⟩
    · right
      have hc1 : (c == d) = false := by simp [hc]
      have hc2 : (c != d) = true := by simp [hc]
      refine ⟨(c :: s).takeWhile (fun x => x != d),
        ((c :: s).dropWhile (fun x => x != d)).drop 1, tokens_cons_ne d c s hc, ?_, ?_, ?_⟩
      · rw [strtok_r_single_eq, List.dropWhile_cons, hc1]
        simp
      · rw [List.takeWhile_cons, hc2]; simp
      · have hle : ((c :: s).dropWhile (fun x => x != d)).length ≤ s.length := by
          rw [List.dropWhile_cons, hc2]
          simp only [if_true]
          exact (List.dropWhile_sublist _).length_le
        simp only [List.length_drop, List.length_cons]
        omega

theorem pattern_tokens_nil : pattern_tokens [] = [] := tokens_nil 43

theorem strtok_r_plus (s : CStr) :
    (pattern_tokens s = [] ∧ strtok_r s [43] = (none, [])) ∨
    (∃ t rest, pattern_tokens s = t :: pattern_tokens rest ∧ strtok_r s [43] = (some t, rest)
        ∧ t ≠ [] ∧ rest.length + 1 ≤ s.length) :=
  strtok_r_tokens 43 s

/-- The loop of `fsearch_get_depth` never reaches its iteration bound, given one unit
of fuel per remaining character of the path plus two. -/
theorem fsearch_get_depth_loop_total (pcfg : fsearch_cfg_t) (fuel : Nat) :
    ∀ (f : Option CStr) (sf : CStr) (l : Option CStr) (sl : CStr) (depth : Nat),
      1 ≤ fuel → (f = none ∨ sf.length + 2 ≤ fuel) →
      (fsearch_get_depth_loop pcfg fuel f sf l sl depth).isSome = true := by
  induction fuel with
  | zero => intro f sf l sl depth h; omega
  | succ n ih =>
    intro f sf l sl depth _ h
    cases f with
    | none => simp [fsearch_get_depth_loop]
    | some foundptr =>
      cases l with
      | none => simp [fsearch_get_depth_loop]
      | some lastptr =>
        have hlen : sf.length + 2 ≤ n + 1 := by
          rcases h with h | h
          · cases h
          · exact h
        rw [fsearch_get_depth_loop]
        split_ifs
        · rfl
        · rw [cstr_slash]
          rcases strtok_r_tokens 47 sf with ⟨_, h2⟩ | ⟨t, rest, _, h2, _, h4⟩
          · rw [h2]
            exact ih _ _ _ _ _ (by omega) (Or.inl rfl)
          · rw [h2]
            exact ih _ _ _ _ _ (by omega) (Or.inr (by simp only; omega))

/-- The loop of `fsearch_display_path` never reaches its iteration bound, given one
unit of fuel per remaining character of the path plus two. -/
theorem fsearch_display_path_loop_total (line_max : Nat) (pcfg : fsearch_cfg_t)
    (match_depth fuel : Nat) :
    ∀ (ptr : Option CStr) (saveptr : CStr) (tabs : Nat),
      1 ≤ fuel → (ptr = none ∨ saveptr.length + 2 ≤ fuel) →
      (fsearch_display_path_loop line_max pcfg match_depth fuel ptr saveptr tabs).isSome
        = true := by
  induction fuel with
  | zero => intro ptr saveptr tabs h; omega
  | succ n ih =>
    intro ptr saveptr tabs _ h
    cases ptr with
    | none => simp [fsearch_display_path_loop]
    | some p =>
      have hlen : saveptr.length + 2 ≤ n + 1 := by
        rcases h with h | h
        · cases h
        · exact h
      have hnext : ∀ tabs2,
          (fsearch_display_path_loop line_max pcfg match_depth n
            (strtok_r saveptr [47]).1 (strtok_r saveptr [47]).2 tabs2).isSome = true := by
        intro tabs2
        rcases strtok_r_tokens 47 saveptr with ⟨_, h2⟩ | ⟨t, rest, _, h2, _, h4⟩
        · rw [h2]
          exact ih _ _ _ (by omega) (Or.inl rfl)
        · rw [h2]
          exact ih _ _ _ (by omega) (Or.inr (by simp only; omega))
      have hmap : ∀ (o : Option (List CStr)) (g : List CStr → List CStr),
          (o.map g).isSome = o.isSome := by
        intro o g; cases o <;> rfl
      rw [fsearch_display_path_loop, cstr_slash]
      split_ifs <;> simp only [hmap] <;> exact hnext _

/-- In `fsearch_get_depth` the loop returns within the fuel it is given. -/
theorem fsearch_get_depth_total (pcfg : fsearch_cfg_t) (path : CStr) :
    (fsearch_get_depth_loop pcfg (path.length + 1) (strtok_r path (cstr "/")).1
      (strtok_r path (cstr "/")).2 (strtok_r pcfg.last_directory (cstr "/")).1
      (strtok_r pcfg.last_directory (cstr "/")).2 0).isSome = true := by
  rw [cstr_slash]
  apply fsearch_get_depth_loop_total pcfg _ _ _ _ _ _ (by omega)
  rcases strtok_r_tokens 47 path with ⟨_, h2⟩ | ⟨t, rest, _, h2, _, h4⟩
  · rw [h2]; exact Or.inl rfl
  · rw [h2]; exact Or.inr (by simp only; omega)

/-- In `fsearch_display_path` the loop returns within the fuel it is given. -/
theorem fsearch_display_path_total (line_max : Nat) (pcfg : fsearch_cfg_t)
    (match_depth : Nat) (path : CStr) :
    (fsearch_display_path_loop line_max pcfg match_depth (path.length + 1)
      (strtok_r path (cstr "/")).1 (strtok_r path (cstr "/")).2 0).isSome = true := by
  rw [cstr_slash]
  apply fsearch_display_path_loop_total line_max pcfg match_depth _ _ _ _ (by omega)
  rcases strtok_r_tokens 47 path with ⟨_, h2⟩ | ⟨t, rest, _, h2, _, h4⟩
  · rw [h2]; exact Or.inl rfl
  · rw [h2]; exact Or.inr (by simp only; omega)

/-- The loop of `fsearch_check_name` confirms the tokens in turn, given one unit of
fuel per remaining pattern character plus two. -/
theorem fsearch_check_name_loop_spec (fuel : Nat) :
    ∀ (t offset saveptr : CStr), saveptr.length + 2 ≤ fuel →
      fsearch_check_name_loop fuel (some t) offset saveptr
        = some (match_tokens (t :: pattern_tokens saveptr) offset) := by
  induction fuel with
  | zero => intro t offset saveptr h; omega
  | succ n ih =>
    intro t offset saveptr h
    rw [fsearch_check_name_loop, cstr_plus, strncmp_eq_isPrefixOf]
    by_cases hp : t.isPrefixOf offset = true
    · simp only [hp, Bool.not_true, Bool.false_eq_true, if_false, match_tokens, Bool.true_and]
      rcases strtok_r_plus saveptr with ⟨h1, h2⟩ | ⟨t2, rest, h1, h2, _, h4⟩
      · rw [h1, h2]
        obtain ⟨m, rfl⟩ : ∃ m, n = m + 1 := ⟨n - 1, by omega⟩
        simp [fsearch_check_name_loop, match_tokens]
      · rw [h1, h2]
        simp only
        rw [ih t2 _ rest (by omega)]
        rfl
    · simp [hp, match_tokens]

/-- The loop of `fsearch_check_name` never reaches its iteration bound. -/
theorem fsearch_check_name_loop_total (pcfg : fsearch_cfg_t) (t saveptr offset : CStr)
    (h : strtok_r pcfg.file_name (cstr "+") = (some t, saveptr)) :
    (fsearch_check_name_loop (pcfg.file_name.length + 1) (some t) offset saveptr).isSome
      = true := by
  rw [cstr_plus] at h
  rcases strtok_r_plus pcfg.file_name with ⟨_, h2⟩ | ⟨t2, rest, _, h2, _, h4⟩
  · rw [h2] at h; cases h
  · rw [h2] at h
    cases h
    rw [fsearch_check_name_loop_spec _ _ _ _ (by omega)]
    rfl

/-- Token mode in terms of the token list: the first token is located by `strstr`,
then all tokens are confirmed in turn from there. -/
theorem fsearch_check_name_token (pcfg : fsearch_cfg_t) (e : CStr)
    (hr : pcfg.use_regex = true) (hn : pcfg.file_name ≠ []) :
    fsearch_check_name pcfg e =
      match pattern_tokens pcfg.file_name with
      | [] => false
      | t :: ts =>
        match strstr (e.map tolower) t with
        | none => false
        | some offset => match_tokens (t :: ts) offset := by
  have hlen : pcfg.file_name.length ≠ 0 := by
    intro h; exact hn (List.length_eq_zero.1 h)
  unfold fsearch_check_name
  simp only [hlen, if_false, hr, Bool.not_true, Bool.false_eq_true, cstr_plus]
  rcases strtok_r_plus pcfg.file_name with ⟨h1, h2⟩ | ⟨t2, rest, h1, h2, _, h4⟩
  · rw [h1, h2]
  · rw [h1, h2]
    simp only
    cases hs : strstr (List.map tolower e) t2 with
    | none => rfl
    | some offset =>
      simp only
      rw [fsearch_check_name_loop_spec _ _ _ _ (by omega)]
      rfl

theorem tolower_idem (c : Nat) : tolower (tolower c) = tolower c := by
  unfold tolower
  split_ifs <;> omega

theorem map_tolower_idem (s : CStr) : (s.map tolower).map tolower = s.map tolower := by
  rw [List.map_map]
  apply List.map_congr_left
  intro c _
  exact tolower_idem c

/-- A text without `+` is not found to contain one. -/
theorem strstr_plus_none (p : CStr) (h : 43 ∉ p) : strstr p (cstr "+") = none := by
  rw [cstr_plus]
  induction p with
  | nil => simp [strstr]
  | cons c s ih =>
    have hc : c ≠ 43 := fun hc => h (by simp [hc])
    have hs : 43 ∉ s := fun hs => h (List.mem_cons_of_mem _ hs)
    have hb : ((43 : Nat) == c) = false := by
      simpa using fun hh : 43 = c => hc hh.symm
    simp only [strstr, List.isPrefixOf, hb, Bool.false_and, Bool.false_eq_true, if_false]
    exact ih hs

/-- A needle that starts the haystack is found at its start. -/
theorem strstr_at_start (t s : CStr) (h : t.isPrefixOf s = true) : strstr s t = some s := by
  cases s with
  | nil =>
    cases t with
    | nil => simp [strstr]
    | cons a as => simp [List.isPrefixOf] at h
  | cons c s => simp [strstr, h]

/-- The tokens of pieces joined by `+`: the non-empty pieces. -/
theorem pattern_tokens_intercalate (ls : List CStr) (hls : ∀ t ∈ ls, 43 ∉ t) :
    pattern_tokens ([43].intercalate ls) = ls.filter (fun t => !t.isEmpty) := by
  cases ls with
  | nil => simp [pattern_tokens, tokens, List.intercalate]
  | cons l ls =>
    unfold pattern_tokens tokens
    rw [List.splitOn_intercalate _ 43 hls (List.cons_ne_nil _ _)]

theorem join_two (t1 t2 : CStr) : t1 ++ 43 :: t2 = [43].intercalate [t1, t2] := by
  simp [List.intercalate]

/-! ## The name matcher: claims C1 to C5 -/

/-- C1: for a pattern without `+` (for which `fsearch_get_filename` computes the
flag `use_regex` as false), `fsearch_check_name` returns true iff the pattern is
empty or the lowercased entry name equals the pattern. -/
theorem fsearch_check_name_plain (pcfg : fsearch_cfg_t) (e : CStr)
    (hplus : 43 ∉ pcfg.file_name)
    (hflag : pcfg.use_regex = (strstr pcfg.file_name (cstr "+")).isSome) :
    fsearch_check_name pcfg e = true ↔
      (pcfg.file_name = [] ∨ e.map tolower = pcfg.file_name) := by
  rw [strstr_plus_none _ hplus] at hflag
  unfold fsearch_check_name
  by_cases hn : pcfg.file_name = []
  · simp [hn]
  · have hlen : pcfg.file_name.length ≠ 0 := fun h => hn (List.length_eq_zero.1 h)
    simp only [hlen, if_false, hflag, Option.isSome_none, Bool.not_false, if_true, strcmp_eq,
      hn, false_or, beq_iff_eq]
    exact eq_comm

/-- C1 at the pattern `file`: the name `FILE` is accepted. -/
theorem fsearch_check_name_plain_witness :
    43 ∉ (cfg_of_pattern "file").file_name ∧
    (cfg_of_pattern "file").use_regex
      = (strstr (cfg_of_pattern "file").file_name (cstr "+")).isSome ∧
    (fsearch_check_name (cfg_of_pattern "file") (cstr "FILE") = true ↔
      ((cfg_of_pattern "file").file_name = []
        ∨ (cstr "FILE").map tolower = (cfg_of_pattern "file").file_name)) :=
  ⟨by decide, by decide,
    fsearch_check_name_plain (cfg_of_pattern "file") (cstr "FILE") (by decide) (by decide)⟩

/-- C2: with the pattern `lost+file` (token mode) the names `lostfile`, `lostttfile`
and `lostfile.txt` are accepted and the names `lost_file`, `lostfil` and `other.txt`
are rejected. -/
theorem fsearch_check_name_lost_file :
    (cfg_of_pattern "lost+file").use_regex = true ∧
    fsearch_check_name (cfg_of_pattern "lost+file") (cstr "lostfile") = true ∧
    fsearch_check_name (cfg_of_pattern "lost+file") (cstr "lostttfile") = true ∧
    fsearch_check_name (cfg_of_pattern "lost+file") (cstr "lostfile.txt") = true ∧
    fsearch_check_name (cfg_of_pattern "lost+file") (cstr "lost_file") = false ∧
    fsearch_check_name (cfg_of_pattern "lost+file") (cstr "lostfil") = false ∧
    fsearch_check_name (cfg_of_pattern "lost+file") (cstr "other.txt") = false := by
  decide

/-- C3 fails as stated: with the tokens `a` and `a` and no extra copy, the pattern
`a+a` rejects the name `aa`, because the run of the boundary character swallows the
start of the second token. -/
theorem fsearch_check_name_repetition_counterexample :
    (cfg_of_pattern "a+a").use_regex = true ∧
    (cfg_of_pattern "a+a").file_name = cstr "a" ++ 43 :: cstr "a" ∧
    fsearch_check_name (cfg_of_pattern "a+a")
      (cstr "a" ++ List.replicate 0 97 ++ cstr "a") = false := by
  decide

/-- After a token found at the start of the text, followed by copies of its last
character `c` and a text `t2` that starts otherwise, the matcher stands at `t2`. -/
theorem after_token_run (init t2 : CStr) (c k : Nat) (hb : t2.head? ≠ some c) :
    after_token (init ++ [c] ++ List.replicate k c ++ t2) (init ++ [c]) = t2 := by
  have hdrop : (init ++ [c] ++ List.replicate k c ++ t2).drop ((init ++ [c]).length - 1)
      = c :: (List.replicate k c ++ t2) := by
    have : (init ++ [c]).length - 1 = init.length := by simp
    rw [this, List.append_assoc, List.append_assoc, List.drop_left]
    simp
  unfold after_token
  rw [hdrop]
  simp only [List.headD_cons, List.dropWhile_cons, beq_self_eq_true, if_true]
  induction k with
  | zero =>
    simp only [List.replicate_zero, List.nil_append]
    cases t2 with
    | nil => rfl
    | cons a as =>
      have : a ≠ c := by
        intro h; apply hb; simp [h]
      simp [List.dropWhile_cons, this]
  | succ n ih =>
    rw [List.replicate_succ, List.cons_append, List.dropWhile_cons]
    simpa using ih

/-- A text with a `+` is found to contain one. -/
theorem strstr_plus_some (p : CStr) (h : 43 ∈ p) : (strstr p (cstr "+")).isSome = true := by
  rw [cstr_plus]
  induction p with
  | nil => simp at h
  | cons c s ih =>
    by_cases hc : c = 43
    · simp [strstr, List.isPrefixOf, hc]
    · have hs : 43 ∈ s := by
        rcases List.mem_cons.1 h with h | h
        · exact absurd h.symm hc
        · exact h
      have hb : ((43 : Nat) == c) = false := by
        simpa using fun hh : 43 = c => hc hh.symm
      simp only [strstr, List.isPrefixOf, hb, Bool.false_and, Bool.false_eq_true, if_false]
      exact ih hs

theorem tolower_of_map_fixed (s : CStr) (h : s.map tolower = s) : ∀ c ∈ s, tolower c = c := by
  induction s with
  | nil => intro c hc; simp at hc
  | cons a as ih =>
    simp only [List.map_cons, List.cons.injEq] at h
    intro c hc
    rcases List.mem_cons.1 hc with rfl | hc
    · exact h.1
    · exact ih h.2 c hc

/-- C3 (amended): for non-empty lowercase tokens `t1` and `t2` without `+`, where `t2`
does not begin with the last character of `t1`, the pattern `t1+t2` in token mode
accepts `t1`, followed by `k` further copies of the last character of `t1`, followed
by `t2`, for every `k`. -/
theorem fsearch_check_name_repetition (pcfg : fsearch_cfg_t) (t1 t2 : CStr) (k : Nat)
    (h1 : t1 ≠ []) (h2 : t2 ≠ []) (hp1 : 43 ∉ t1) (hp2 : 43 ∉ t2)
    (hl1 : t1.map tolower = t1) (hl2 : t2.map tolower = t2)
    (hb : t2.head? ≠ some (t1.getLast h1))
    (hname : pcfg.file_name = t1 ++ 43 :: t2)
    (hflag : pcfg.use_regex = (strstr pcfg.file_name (cstr "+")).isSome) :
    fsearch_check_name pcfg (t1 ++ List.replicate k (t1.getLast h1) ++ t2) = true := by
  have hr : pcfg.use_regex = true := by
    rw [hflag]; exact strstr_plus_some _ (by rw [hname]; simp)
  have hn : pcfg.file_name ≠ [] := by rw [hname]; simp
  have hc : tolower (t1.getLast h1) = t1.getLast h1 :=
    tolower_of_map_fixed t1 hl1 _ (List.getLast_mem h1)
  have hlow : (t1 ++ List.replicate k (t1.getLast h1) ++ t2).map tolower
      = t1 ++ List.replicate k (t1.getLast h1) ++ t2 := by
    simp [hl1, hl2, hc]
  have htok : pattern_tokens pcfg.file_name = [t1, t2] := by
    rw [hname, join_two, pattern_tokens_intercalate]
    · have e1 : t1.isEmpty = false := by simpa [List.isEmpty_iff] using h1
      have e2 : t2.isEmpty = false := by simpa [List.isEmpty_iff] using h2
      simp [List.filter, e1, e2]
    · intro t ht
      simp only [List.mem_cons, List.mem_singleton, List.not_mem_nil, or_false] at ht
      rcases ht with rfl | rfl
      · exact hp1
      · exact hp2
  have hpre : t1.isPrefixOf (t1 ++ List.replicate k (t1.getLast h1) ++ t2) = true := by
    rw [List.isPrefixOf_iff_prefix, List.append_assoc]
    exact List.prefix_append _ _
  rw [fsearch_check_name_token pcfg _ hr hn, htok, hlow]
  simp only [strstr_at_start _ _ hpre, match_tokens, hpre, Bool.true_and, Bool.and_true]
  obtain ⟨init, c, rfl⟩ : ∃ init c, t1 = init ++ [c] :=
    ⟨t1.dropLast, t1.getLast h1, (List.dropLast_append_getLast h1).symm⟩
  have hlast : (init ++ [c]).getLast h1 = c := by simp
  rw [hlast] at hb ⊢
  rw [after_token_run init t2 c k hb]
  rw [List.isPrefixOf_iff_prefix]

/-- C3 (amended) at the pattern `lost+file` and the name `lostttfile`. -/
theorem fsearch_check_name_repetition_witness :
    fsearch_check_name (cfg_of_pattern "lost+file")
      (cstr "lost" ++ List.replicate 2 ((cstr "lost").getLast (by decide)) ++ cstr "file")
      = true :=
  fsearch_check_name_repetition (cfg_of_pattern "lost+file") (cstr "lost") (cstr "file") 2
    (by decide) (by decide) (by decide) (by decide) (by decide) (by decide) (by decide)
    (by decide) (by decide)

/-- C4 fails as stated: the pattern `+file` (leading `+`) accepts `file`, the pattern
`file+` (trailing `+`) accepts `file`, and the pattern `lost++file` (doubled `+`)
accepts `lostfile`, all in token mode. -/
theorem fsearch_check_name_empty_tokens_counterexample :
    (cfg_of_pattern "+file").use_regex = true ∧
    fsearch_check_name (cfg_of_pattern "+file") (cstr "file") = true ∧
    (cfg_of_pattern "file+").use_regex = true ∧
    fsearch_check_name (cfg_of_pattern "file+") (cstr "file") = true ∧
    (cfg_of_pattern "lost++file").use_regex = true ∧
    fsearch_check_name (cfg_of_pattern "lost++file") (cstr "lostfile") = true := by
  decide

/-- C4 (amended): let a token-mode pattern be the pieces `ls` joined by `+`. If every
piece is empty (the pattern consists of `+` signs only) every entry name is rejected.
Otherwise the empty pieces are skipped: the pattern accepts exactly the names that the
pattern made of its non-empty pieces accepts in token mode. -/
theorem fsearch_check_name_empty_tokens (pcfg : fsearch_cfg_t) (ls : List CStr) (e : CStr)
    (hls : ∀ t ∈ ls, 43 ∉ t) (hname : pcfg.file_name = [43].intercalate ls)
    (hr : pcfg.use_regex = true) :
    ((∀ t ∈ ls, t = []) → pcfg.file_name ≠ [] → fsearch_check_name pcfg e = false) ∧
    ((∃ t ∈ ls, t ≠ []) →
      fsearch_check_name pcfg e =
        fsearch_check_name
          { pcfg with file_name := [43].intercalate (ls.filter (fun t => !t.isEmpty)) } e) := by
  have htok : pattern_tokens pcfg.file_name = ls.filter (fun t => !t.isEmpty) := by
    rw [hname]; exact pattern_tokens_intercalate ls hls
  constructor
  · intro hall hn
    have hnil : ls.filter (fun t => !t.isEmpty) = [] := by
      rw [List.filter_eq_nil_iff]
      intro t ht
      simp [hall t ht]
    rw [fsearch_check_name_token pcfg e hr hn, htok, hnil]
  · rintro ⟨t, ht, hne⟩
    have hmem : t ∈ ls.filter (fun t => !t.isEmpty) := by
      rw [List.mem_filter]
      exact ⟨ht, by simpa [List.isEmpty_iff] using hne⟩
    have hls2 : ∀ t ∈ ls.filter (fun t => !t.isEmpty), 43 ∉ t :=
      fun t ht => hls t (List.mem_filter.1 ht).1
    have htok2 : pattern_tokens ([43].intercalate (ls.filter (fun t => !t.isEmpty)))
        = ls.filter (fun t => !t.isEmpty) := by
      rw [pattern_tokens_intercalate _ hls2, List.filter_filter]
      simp
    have hn : pcfg.file_name ≠ [] := by
      intro h
      rw [h, pattern_tokens_nil] at htok
      rw [← htok] at hmem
      simp at hmem
    have hn2 : [43].intercalate (ls.filter (fun t => !t.isEmpty)) ≠ [] := by
      intro h
      rw [h, pattern_tokens_nil] at htok2
      rw [← htok2] at hmem
      simp at hmem
    rw [fsearch_check_name_token pcfg e hr hn, htok,
      fsearch_check_name_token _ e (by exact hr) (by exact hn2)]
    simp only [htok2]

/-- C4 (amended) at the pattern `+file`, whose pieces are the empty text and `file`:
on the name `myfile` it decides as the pattern `file` does in token mode. -/
theorem fsearch_check_name_empty_tokens_witness :
    fsearch_check_name (cfg_of_pattern "+file") (cstr "myfile") =
      fsearch_check_name
        { cfg_of_pattern "+file" with
          file_name := [43].intercalate ([[], cstr "file"].filter (fun t => !t.isEmpty)) }
        (cstr "myfile") :=
  (fsearch_check_name_empty_tokens (cfg_of_pattern "+file") [[], cstr "file"] (cstr "myfile")
    (by decide) (by decide) (by decide)).2 ⟨cstr "file", by decide, by decide⟩

theorem fsearch_check_name_lower_entry (pcfg : fsearch_cfg_t) (e : CStr) :
    fsearch_check_name pcfg (e.map tolower) = fsearch_check_name pcfg e := by
  unfold fsearch_check_name
  rw [map_tolower_idem]

theorem fsearch_parse_opt_f_lower (name_max : Nat) (pcfg : fsearch_cfg_t) (a a2 : CStr)
    (h : a2.map tolower = a.map tolower) :
    fsearch_parse_opt_f name_max pcfg a2 = fsearch_parse_opt_f name_max pcfg a := by
  have hlen : a2.length = a.length := by
    have := congrArg List.length h
    simpa using this
  unfold fsearch_parse_opt_f fsearch_get_filename
  simp only [List.map_take, h, hlen]

/-- C5: the outcome of `fsearch_check_name` under the configuration that
`fsearch_get_filename` produces for the argument `a` is the outcome for the lowercased
argument and the lowercased entry name; it is the same for every argument and every
entry name that differ from `a` and `e` in letter case only. -/
theorem fsearch_check_name_case_insensitive (name_max : Nat) (pcfg : fsearch_cfg_t)
    (a e : CStr) :
    fsearch_check_name (fsearch_parse_opt_f name_max pcfg a) e
      = fsearch_check_name (fsearch_parse_opt_f name_max pcfg (a.map tolower))
          (e.map tolower) ∧
    ∀ a2 e2 : CStr, a2.map tolower = a.map tolower → e2.map tolower = e.map tolower →
      fsearch_check_name (fsearch_parse_opt_f name_max pcfg a2) e2
        = fsearch_check_name (fsearch_parse_opt_f name_max pcfg a) e := by
  constructor
  · rw [fsearch_parse_opt_f_lower name_max pcfg a (a.map tolower) (map_tolower_idem a),
      fsearch_check_name_lower_entry]
  · intro a2 e2 ha he
    rw [fsearch_parse_opt_f_lower name_max pcfg a a2 ha,
      ← fsearch_check_name_lower_entry _ e2, he, fsearch_check_name_lower_entry]

/-- C5 at the argument `Lost+File` and the entry name `LOSTTTFILE`, against
`lost+FILE` and `lostttfile`. -/
theorem fsearch_check_name_case_insensitive_witness :
    fsearch_check_name (cfg_of_pattern "lost+FILE") (cstr "lostttfile")
      = fsearch_check_name (cfg_of_pattern "Lost+File") (cstr "LOSTTTFILE") :=
  (fsearch_check_name_case_insensitive 255 (fsearch_config_init (cstr "fsearch"))
      (cstr "Lost+File") (cstr "LOSTTTFILE")).2
    (cstr "lost+FILE") (cstr "lostttfile") (by decide) (by decide)

/-! ## The attribute filters: claims C7 and C8 -/

theorem digitChar_toNat (k : Nat) (h : k < 10) : (Nat.digitChar k).toNat = 48 + k := by
  interval_cases k <;> rfl

theorem toDigitsCore_acc (fuel : Nat) : ∀ (n : Nat) (ds : List Char),
    Nat.toDigitsCore 10 fuel n ds = Nat.toDigitsCore 10 fuel n [] ++ ds := by
  induction fuel with
  | zero => intro n ds; simp [Nat.toDigitsCore]
  | succ f ih =>
    intro n ds
    simp only [Nat.toDigitsCore]
    split_ifs
    · simp
    · rw [ih (n / 10) (Nat.digitChar (n % 10) :: ds), ih (n / 10) [Nat.digitChar (n % 10)]]
      simp

theorem atol_digits_append (l r : CStr) (acc : Nat) (hl : ∀ x ∈ l, 48 ≤ x ∧ x ≤ 57) :
    atol_digits (l ++ r) acc = atol_digits r (atol_digits l acc) := by
  induction l generalizing acc with
  | nil => rfl
  | cons a as ih =>
    have ha := hl a (by simp)
    simp only [List.cons_append, atol_digits, ha, and_self, if_true]
    exact ih _ (fun x hx => hl x (by simp [hx]))

theorem atol_digits_toDigitsCore (fuel : Nat) : ∀ (n : Nat), n < fuel →
    (∀ x ∈ (Nat.toDigitsCore 10 fuel n []).map Char.toNat, 48 ≤ x ∧ x ≤ 57) ∧
    atol_digits ((Nat.toDigitsCore 10 fuel n []).map Char.toNat) 0 = n := by
  induction fuel with
  | zero => intro n h; omega
  | succ f ih =>
    intro n hn
    have hd : (Nat.digitChar (n % 10)).toNat = 48 + n % 10 :=
      digitChar_toNat _ (Nat.mod_lt _ (by decide))
    simp only [Nat.toDigitsCore]
    split_ifs with h0
    · simp only [List.map_cons, List.map_nil, List.mem_singleton, forall_eq, hd, atol_digits]
      refine ⟨by omega, ?_⟩
      rw [if_pos (by omega)]
      omega
    · obtain ⟨h1, h2⟩ := ih (n / 10) (by omega)
      rw [toDigitsCore_acc, List.map_append]
      constructor
      · intro x hx
        rcases List.mem_append.1 hx with hx | hx
        · exact h1 x hx
        · simp only [List.map_cons, List.map_nil, List.mem_singleton] at hx
          rw [hx, hd]; omega
      · rw [atol_digits_append _ _ _ h1, h2]
        simp only [List.map_cons, List.map_nil, hd, atol_digits]
        rw [if_pos (by omega)]
        omega

/-- The decimal text of a number consists of digits, whose value is the number. -/
theorem atol_digits_fmt_lu (n : Nat) :
    (∀ x ∈ fmt_lu n, 48 ≤ x ∧ x ≤ 57) ∧ atol_digits (fmt_lu n) 0 = n :=
  atol_digits_toDigitsCore (n + 1) n (by omega)

/-- The libc `atol` reads the decimal text of a number that fits a `long` as that
number. -/
theorem atol_fmt_lu (n : Nat) (h : (n : Int) ≤ LONG_MAX) : atol (fmt_lu n) = (n : Int) := by
  obtain ⟨hdig, hval⟩ := atol_digits_fmt_lu n
  generalize fmt_lu n = l at hdig hval
  cases l with
  | nil =>
    simp only [atol_digits] at hval
    subst hval
    decide
  | cons c cs =>
    have hc := hdig c (by simp)
    have hsp : isspace c = false := by
      unfold isspace
      simp only [Bool.or_eq_false_iff, beq_eq_false_iff_ne, ne_eq, Bool.and_eq_false_iff,
        decide_eq_false_iff_not]
      omega
    unfold atol
    simp only [List.dropWhile_cons, hsp, Bool.false_eq_true, if_false]
    split
    · rename_i heq
      simp only [List.cons.injEq] at heq
      omega
    · rename_i heq
      simp only [List.cons.injEq] at heq
      omega
    · rw [hval]
      exact min_eq_right h

theorem fsearch_parse_opt_b (name_max path_max : Nat) (pcfg : fsearch_cfg_t) (optarg : CStr) :
    fsearch_parse_opt name_max path_max pcfg 'b'.toNat optarg
      = some { pcfg with file_size := to_int (atol optarg), criteria := pcfg.criteria + 1 } := by
  simp [fsearch_parse_opt]

/-- C7 fails as stated: the value `2147483648` of `-b` is stored as a negative `int`,
so the size filter passes an entry of 5 bytes (and every other entry); the value
`4294967296` is stored as 0, so the filter passes an empty entry and fails an entry of
4294967296 bytes. -/
theorem fsearch_check_size_counterexample :
    0 ≤ atol (cstr "2147483648") ∧
    (fsearch_parse_opt 255 4096 (fsearch_config_init (cstr "fsearch")) 'b'.toNat
        (cstr "2147483648")).map (fun cfg => fsearch_check_size cfg 5) = some true ∧
    ((5 : Nat) : Int) ≠ atol (cstr "2147483648") ∧
    0 ≤ atol (cstr "4294967296") ∧
    (fsearch_parse_opt 255 4096 (fsearch_config_init (cstr "fsearch")) 'b'.toNat
        (cstr "4294967296")).map
      (fun cfg => (fsearch_check_size cfg 0, fsearch_check_size cfg 4294967296))
      = some (true, false) := by
  decide

/-- C7 (amended): for every argument of `-b` that `atol` reads as a byte count `n`
with `0 ≤ n < 2^31` (the non-negative values of the `int` field `file_size`; the
decimal text of `n` is such an argument by `atol_fmt_lu`), the size filter of the
resulting configuration passes an entry of size `s` iff `s = n`. -/
theorem fsearch_check_size_exact (name_max path_max : Nat) (pcfg cfg : fsearch_cfg_t)
    (optarg : CStr) (s : Nat)
    (hparse : fsearch_parse_opt name_max path_max pcfg 'b'.toNat optarg = some cfg)
    (h0 : 0 ≤ atol optarg) (h31 : atol optarg < 2147483648) :
    fsearch_check_size cfg s = true ↔ (s : Int) = atol optarg := by
  rw [fsearch_parse_opt_b] at hparse
  cases hparse
  generalize atol optarg = n at h0 h31
  have hn : to_int n = n := by unfold to_int; omega
  simp only [fsearch_check_size, hn, to_size_t]
  have h1 : ¬ n < 0 := by omega
  simp only [h1, if_false]
  constructor
  · intro h
    split_ifs at h with h2
    omega
  · intro h
    rw [if_pos (by omega)]

/-- C7 (amended) at `-b 100` and an entry of 100 bytes. -/
theorem fsearch_check_size_exact_witness :
    fsearch_check_size
      { fsearch_config_init (cstr "fsearch") with file_size := 100, criteria := 1 } 100 = true ↔
      ((100 : Nat) : Int) = atol (cstr "100") :=
  fsearch_check_size_exact 255 4096 (fsearch_config_init (cstr "fsearch")) _ (cstr "100") 100
    (by decide) (by decide) (by decide)

/-- The macro FSEARCH_CHECK_FL with a one-bit flag reads that bit of the mask (in the
two's complement form of the `int`). -/
theorem FSEARCH_CHECK_FL_bit (types : Int) (k : Nat) (hk : k < 31) :
    FSEARCH_CHECK_FL types ((2 : Int) ^ k) = (to_unsigned types).testBit k := by
  have hlt : 2 ^ k < 2 ^ 31 := Nat.pow_lt_pow_right (by decide) hk
  have hpos : 0 < 2 ^ k := Nat.pos_pow_of_pos k (by decide)
  have hpow : (2 : Int) ^ k = ((2 ^ k : Nat) : Int) := by push_cast; rfl
  rw [hpow]
  unfold FSEARCH_CHECK_FL int_and
  have hu : to_unsigned ((2 ^ k : Nat) : Int) = 2 ^ k := by
    unfold to_unsigned
    generalize 2 ^ k = m at hlt
    omega
  rw [hu, Nat.and_two_pow]
  cases hb : (to_unsigned types).testBit k
  · simp only [Bool.toNat_false, zero_mul]
    have h0 : to_int ((0 : Nat) : Int) = 0 := by decide
    rw [h0]
    generalize 2 ^ k = m at hpos
    simp only [beq_eq_false_iff_ne, ne_eq]
    omega
  · simp only [Bool.toNat_true, one_mul]
    have h1 : to_int ((2 ^ k : Nat) : Int) = ((2 ^ k : Nat) : Int) := by
      unfold to_int
      generalize 2 ^ k = m at hlt
      omega
    rw [h1]
    simp

theorem char_codes :
    'b'.toNat = 98 ∧ 'c'.toNat = 99 ∧ 'd'.toNat = 100 ∧ 'p'.toNat = 112 ∧ 'l'.toNat = 108
      ∧ 'f'.toNat = 102 ∧ 's'.toNat = 115 ∧ 'u'.toNat = 117 := by
  decide

/-- The type letter in terms of the format bits. -/
theorem fsearch_get_type_rows (mode : Nat) :
    (fsearch_get_type mode = 98 ↔ mode &&& S_IFMT = S_IFBLK) ∧
    (fsearch_get_type mode = 99 ↔ mode &&& S_IFMT = S_IFCHR) ∧
    (fsearch_get_type mode = 100 ↔ mode &&& S_IFMT = S_IFDIR) ∧
    (fsearch_get_type mode = 112 ↔ mode &&& S_IFMT = S_IFIFO) ∧
    (fsearch_get_type mode = 108 ↔ mode &&& S_IFMT = S_IFLNK) ∧
    (fsearch_get_type mode = 102 ↔ mode &&& S_IFMT = S_IFREG) ∧
    (fsearch_get_type mode = 115 ↔ mode &&& S_IFMT = S_IFSOCK) ∧
    (fsearch_get_type mode = 117 ↔
      (mode &&& S_IFMT ≠ S_IFBLK ∧ mode &&& S_IFMT ≠ S_IFCHR ∧ mode &&& S_IFMT ≠ S_IFDIR
        ∧ mode &&& S_IFMT ≠ S_IFIFO ∧ mode &&& S_IFMT ≠ S_IFLNK ∧ mode &&& S_IFMT ≠ S_IFREG
        ∧ mode &&& S_IFMT ≠ S_IFSOCK)) := by
  obtain ⟨hb, hc, hd, hp, hl, hf, hs, hu⟩ := char_codes
  unfold fsearch_get_type
  rw [hb, hc, hd, hp, hl, hf, hs, hu]
  generalize mode &&& S_IFMT = x
  simp only [S_IFBLK, S_IFCHR, S_IFDIR, S_IFIFO, S_IFLNK, S_IFREG, S_IFSOCK]
  split_ifs <;> omega

/-- The type filter in terms of the type letter and the bits of the mask. -/
theorem fsearch_check_type_rows (pcfg : fsearch_cfg_t) (mode : Nat) (h0 : pcfg.file_types ≠ 0) :
    fsearch_check_type pcfg mode =
      if fsearch_get_type mode = 98 then (to_unsigned pcfg.file_types).testBit 1
      else if fsearch_get_type mode = 99 then (to_unsigned pcfg.file_types).testBit 2
      else if fsearch_get_type mode = 100 then (to_unsigned pcfg.file_types).testBit 3
      else if fsearch_get_type mode = 112 then (to_unsigned pcfg.file_types).testBit 6
      else if fsearch_get_type mode = 108 then (to_unsigned pcfg.file_types).testBit 4
      else if fsearch_get_type mode = 102 then (to_unsigned pcfg.file_types).testBit 0
      else if fsearch_get_type mode = 115 then (to_unsigned pcfg.file_types).testBit 5
      else false := by
  obtain ⟨hb, hc, hd, hp, hl, hf, hs, _⟩ := char_codes
  have f0 : FSEARCH_CHECK_FL pcfg.file_types 1 = (to_unsigned pcfg.file_types).testBit 0 :=
    FSEARCH_CHECK_FL_bit pcfg.file_types 0 (by decide)
  have f1 : FSEARCH_CHECK_FL pcfg.file_types 2 = (to_unsigned pcfg.file_types).testBit 1 :=
    FSEARCH_CHECK_FL_bit pcfg.file_types 1 (by decide)
  have f2 : FSEARCH_CHECK_FL pcfg.file_types 4 = (to_unsigned pcfg.file_types).testBit 2 :=
    FSEARCH_CHECK_FL_bit pcfg.file_types 2 (by decide)
  have f3 : FSEARCH_CHECK_FL pcfg.file_types 8 = (to_unsigned pcfg.file_types).testBit 3 :=
    FSEARCH_CHECK_FL_bit pcfg.file_types 3 (by decide)
  have f4 : FSEARCH_CHECK_FL pcfg.file_types 16 = (to_unsigned pcfg.file_types).testBit 4 :=
    FSEARCH_CHECK_FL_bit pcfg.file_types 4 (by decide)
  have f5 : FSEARCH_CHECK_FL pcfg.file_types 32 = (to_unsigned pcfg.file_types).testBit 5 :=
    FSEARCH_CHECK_FL_bit pcfg.file_types 5 (by decide)
  have f6 : FSEARCH_CHECK_FL pcfg.file_types 64 = (to_unsigned pcfg.file_types).testBit 6 :=
    FSEARCH_CHECK_FL_bit pcfg.file_types 6 (by decide)
  unfold fsearch_check_type
  rw [hb, hc, hd, hp, hl, hf, hs]
  simp only [h0, if_false, fsearch_block_device, fsearch_char_device, fsearch_directory,
    fsearch_pipe, fsearch_symlink, fsearch_regular_file, fsearch_socket, f0, f1, f2, f3, f4,
    f5, f6]

/-- C8: for every mode, `fsearch_get_type` returns the letter of a supported kind
exactly when the format bits of the mode are those of the kind, and `u` exactly when
they are those of no supported kind (the eight letters being distinct); for every
type mask, `fsearch_check_type` passes iff the mask is 0 or the mode classifies to a
supported kind whose bit is set in the mask; a mode classified as unknown passes no
mask other than 0. -/
theorem fsearch_type_classification (pcfg : fsearch_cfg_t) (mode : Nat) :
    (∀ row ∈ type_kinds, (fsearch_get_type mode = row.2.1 ↔ mode &&& S_IFMT = row.1)) ∧
    (fsearch_get_type mode = 'u'.toNat ↔ ∀ row ∈ type_kinds, mode &&& S_IFMT ≠ row.1) ∧
    ((type_kinds.map (fun row => row.2.1)).Nodup
      ∧ 'u'.toNat ∉ type_kinds.map (fun row => row.2.1)) ∧
    (fsearch_check_type pcfg mode = true ↔
      (pcfg.file_types = 0 ∨ ∃ row ∈ type_kinds,
        fsearch_get_type mode = row.2.1
          ∧ (to_unsigned pcfg.file_types).testBit row.2.2 = true)) ∧
    (fsearch_get_type mode = 'u'.toNat → pcfg.file_types ≠ 0 →
      fsearch_check_type pcfg mode = false) := by
  obtain ⟨r1, r2, r3, r4, r5, r6, r7, r8⟩ := fsearch_get_type_rows mode
  obtain ⟨hb, hc, hd, hp, hl, hf, hs, hu⟩ := char_codes
  have hrows : ∀ row ∈ type_kinds,
      (fsearch_get_type mode = row.2.1 ↔ mode &&& S_IFMT = row.1) := by
    intro row hrow
    simp only [type_kinds, List.mem_cons, List.mem_singleton, List.not_mem_nil, or_false,
      hb, hc, hd, hp, hl, hf, hs] at hrow
    rcases hrow with rfl | rfl | rfl | rfl | rfl | rfl | rfl <;> assumption
  have hunk : fsearch_get_type mode = 'u'.toNat ↔ ∀ row ∈ type_kinds, mode &&& S_IFMT ≠ row.1 := by
    rw [hu, r8]
    simp [type_kinds]
  have hcheck : fsearch_check_type pcfg mode = true ↔
      (pcfg.file_types = 0 ∨ ∃ row ∈ type_kinds,
        fsearch_get_type mode = row.2.1
          ∧ (to_unsigned pcfg.file_types).testBit row.2.2 = true) := by
    by_cases h0 : pcfg.file_types = 0
    · simp [fsearch_check_type, h0]
    · rw [fsearch_check_type_rows pcfg mode h0]
      simp only [h0, false_or, type_kinds, List.mem_cons, List.mem_singleton,
        List.not_mem_nil, or_false, exists_eq_or_imp, exists_eq_left, hb, hc, hd, hp, hl, hf, hs]
      split_ifs with c1 c2 c3 c4 c5 c6 c7 <;> simp_all
  refine ⟨hrows, hunk, by decide, hcheck, ?_⟩
  intro htype h0
  rw [fsearch_check_type_rows pcfg mode h0, htype, hu]
  simp

/-- C8 at a mode whose format bits are those of no supported kind and the mask of
`-t d`: the mode is classified `u` and the type filter rejects it. -/
theorem fsearch_type_classification_witness :
    fsearch_get_type 0o170644 = 'u'.toNat ∧
    fsearch_get_ftypes (cstr "d") ≠ 0 ∧
    fsearch_check_type
      { fsearch_config_init (cstr "fsearch") with file_types := fsearch_get_ftypes (cstr "d") }
      0o170644 = false :=
  ⟨by decide, by decide,
    (fsearch_type_classification
      { fsearch_config_init (cstr "fsearch") with file_types := fsearch_get_ftypes (cstr "d") }
      0o170644).2.2.2.2 (by decide) (by decide)⟩

/-! ## Permissions: claims C9 and C10 -/

theorem fsearch_get_part_perm_part (r w x : Bool) (rest : CStr) :
    fsearch_get_part_perm (perm_part r w x ++ rest) = perm_digit r w x := by
  cases r <;> cases w <;> cases x <;> rfl

theorem perm_digit_range (r w x : Bool) : 0 ≤ perm_digit r w x ∧ perm_digit r w x ≤ 7 := by
  cases r <;> cases w <;> cases x <;> decide

theorem fsearch_get_chmod_bits (output : CStr) (mode : Nat) :
    fsearch_get_chmod output (FSEARCH_PERM_LEN + 1) mode =
      snprintf [] (FSEARCH_PERM_LEN + 1)
        (fmt_d (perm_digit (has_flag mode S_IRUSR) (has_flag mode S_IWUSR) (has_flag mode S_IXUSR))
          ++ fmt_d (perm_digit (has_flag mode S_IRGRP) (has_flag mode S_IWGRP)
              (has_flag mode S_IXGRP))
          ++ fmt_d (perm_digit (has_flag mode S_IROTH) (has_flag mode S_IWOTH)
              (has_flag mode S_IXOTH))) := by
  simp [fsearch_get_chmod, perm_digit, snprintf, FSEARCH_PERM_LEN]

theorem fsearch_get_chmodstr_bits (output : CStr) (mode : Nat) :
    (fsearch_get_chmodstr output (FSEARCH_PERM_LEN + 1) mode).1 =
      perm_part (has_flag mode S_IRUSR) (has_flag mode S_IWUSR) (has_flag mode S_IXUSR)
        ++ (perm_part (has_flag mode S_IRGRP) (has_flag mode S_IWGRP) (has_flag mode S_IXGRP)
        ++ (perm_part (has_flag mode S_IROTH) (has_flag mode S_IWOTH) (has_flag mode S_IXOTH)
        ++ [])) := by
  simp [fsearch_get_chmodstr, perm_part]

/-- The permission value that `fsearch_get_permissions` reads from three `rwx` groups. -/
theorem fsearch_get_permissions_parts (r1 w1 x1 r2 w2 x2 r3 w3 x3 : Bool) :
    fsearch_get_permissions
        (perm_part r1 w1 x1 ++ (perm_part r2 w2 x2 ++ (perm_part r3 w3 x3 ++ []))) =
      atoi (snprintf [] (FSEARCH_PERM_LEN + 1)
        (fmt_d (perm_digit r1 w1 x1) ++ fmt_d (perm_digit r2 w2 x2)
          ++ fmt_d (perm_digit r3 w3 x3))) := by
  have hlen : (perm_part r1 w1 x1 ++ (perm_part r2 w2 x2 ++ (perm_part r3 w3 x3 ++ []))).length
      = FSEARCH_PERM_LEN := by
    simp [perm_part, FSEARCH_PERM_LEN]
  have hd3 : (perm_part r1 w1 x1 ++ (perm_part r2 w2 x2 ++ (perm_part r3 w3 x3 ++ []))).drop 3
      = perm_part r2 w2 x2 ++ (perm_part r3 w3 x3 ++ []) := by
    simp [perm_part]
  have hd6 : (perm_part r1 w1 x1 ++ (perm_part r2 w2 x2 ++ (perm_part r3 w3 x3 ++ []))).drop 6
      = perm_part r3 w3 x3 ++ [] := by
    simp [perm_part]
  have g1 := perm_digit_range r1 w1 x1
  have g2 := perm_digit_range r2 w2 x2
  have g3 := perm_digit_range r3 w3 x3
  unfold fsearch_get_permissions
  simp only [hlen, hd3, hd6, fsearch_get_part_perm_part, ne_eq, not_true_eq_false, if_false]
  rw [if_neg (by omega)]

/-- C9: for every mode, decoding the nine-character string that `fsearch_get_chmodstr`
writes for the mode with `fsearch_get_permissions` yields the integer that `atoi` reads
from the three digits that `fsearch_get_chmod` writes for the mode (the buffers having
the ten bytes they have in the program). -/
theorem fsearch_permissions_roundtrip (mode : Nat) (out1 out2 : CStr) :
    fsearch_get_permissions (fsearch_get_chmodstr out1 (FSEARCH_PERM_LEN + 1) mode).1
      = atoi (fsearch_get_chmod out2 (FSEARCH_PERM_LEN + 1) mode) := by
  rw [fsearch_get_chmodstr_bits, fsearch_get_permissions_parts, fsearch_get_chmod_bits]

theorem atoi_perm_digits : ∀ r1 w1 x1 r2 w2 x2 r3 w3 x3 : Bool,
    atoi (snprintf [] (FSEARCH_PERM_LEN + 1)
        (fmt_d (perm_digit r1 w1 x1) ++ fmt_d (perm_digit r2 w2 x2)
          ++ fmt_d (perm_digit r3 w3 x3)))
      = 100 * perm_digit r1 w1 x1 + 10 * perm_digit r2 w2 x2 + perm_digit r3 w3 x3 := by
  decide

theorem perm_digit_inj : ∀ r w x r2 w2 x2 : Bool,
    perm_digit r w x = perm_digit r2 w2 x2 ↔ (r = r2 ∧ w = w2 ∧ x = x2) := by
  decide

theorem perm_part_inj : ∀ r w x r2 w2 x2 : Bool,
    perm_part r w x = perm_part r2 w2 x2 ↔ (r = r2 ∧ w = w2 ∧ x = x2) := by
  decide

theorem perm_char_bit (c l : Nat) (h : c = l ∨ c = 45) :
    (if (c == l) = true then l else 45) = c := by
  rcases h with rfl | rfl
  · simp
  · by_cases hl : 45 = l <;> simp [hl]

/-- A well-formed permission string is the text of three `rwx` groups. -/
theorem perm_well_formed_parts (s : CStr) (h : perm_well_formed s) :
    ∃ r1 w1 x1 r2 w2 x2 r3 w3 x3 : Bool,
      s = perm_part r1 w1 x1 ++ (perm_part r2 w2 x2 ++ (perm_part r3 w3 x3 ++ [])) := by
  obtain ⟨hlen, hch⟩ := h
  match s, hlen with
  | [c0, c1, c2, c3, c4, c5, c6, c7, c8], _ =>
    have h0 := hch 0 (by decide)
    have h1 := hch 1 (by decide)
    have h2 := hch 2 (by decide)
    have h3 := hch 3 (by decide)
    have h4 := hch 4 (by decide)
    have h5 := hch 5 (by decide)
    have h6 := hch 6 (by decide)
    have h7 := hch 7 (by decide)
    have h8 := hch 8 (by decide)
    have e : (cstr "rwxrwxrwx") = [114, 119, 120, 114, 119, 120, 114, 119, 120] := by decide
    have e2 : '-'.toNat = 45 := by decide
    rw [e, e2] at h0 h1 h2 h3 h4 h5 h6 h7 h8
    simp only [List.getD_cons_zero, List.getD_cons_succ] at h0 h1 h2 h3 h4 h5 h6 h7 h8
    refine ⟨c0 == 114, c1 == 119, c2 == 120, c3 == 114, c4 == 119, c5 == 120,
      c6 == 114, c7 == 119, c8 == 120, ?_⟩
    have e3 : 'r'.toNat = 114 ∧ 'w'.toNat = 119 ∧ 'x'.toNat = 120 := by decide
    simp only [perm_part, e3.1, e3.2.1, e3.2.2, e2, List.cons_append, List.nil_append,
      List.append_nil, perm_char_bit _ _ h0, perm_char_bit _ _ h1, perm_char_bit _ _ h2,
      perm_char_bit _ _ h3, perm_char_bit _ _ h4, perm_char_bit _ _ h5, perm_char_bit _ _ h6,
      perm_char_bit _ _ h7, perm_char_bit _ _ h8]

theorem perm_parts_inj (r1 w1 x1 r2 w2 x2 r3 w3 x3 a1 b1 c1 a2 b2 c2 a3 b3 c3 : Bool) :
    perm_part r1 w1 x1 ++ (perm_part r2 w2 x2 ++ perm_part r3 w3 x3)
        = perm_part a1 b1 c1 ++ (perm_part a2 b2 c2 ++ perm_part a3 b3 c3) ↔
      (perm_digit r1 w1 x1 = perm_digit a1 b1 c1 ∧ perm_digit r2 w2 x2 = perm_digit a2 b2 c2
        ∧ perm_digit r3 w3 x3 = perm_digit a3 b3 c3) := by
  have hl : ∀ r w x a b c : Bool, (perm_part r w x).length = (perm_part a b c).length := by
    intros; rfl
  rw [perm_digit_inj, perm_digit_inj, perm_digit_inj, ← perm_part_inj, ← perm_part_inj,
    ← perm_part_inj]
  constructor
  · intro h
    obtain ⟨h1, h'⟩ := List.append_inj h (hl _ _ _ _ _ _)
    obtain ⟨h2, h3⟩ := List.append_inj h' (hl _ _ _ _ _ _)
    exact ⟨h1, h2, h3⟩
  · rintro ⟨h1, h2, h3⟩
    rw [h1, h2, h3]

theorem fsearch_parse_opt_p (name_max path_max : Nat) (pcfg : fsearch_cfg_t) (optarg : CStr) :
    fsearch_parse_opt name_max path_max pcfg 'p'.toNat optarg
      = some { pcfg with permissions := fsearch_get_permissions optarg,
                         criteria := pcfg.criteria + 1 } := by
  simp [fsearch_parse_opt]

/-- C10 fails as stated: the well-formed string `---------` gives the permission
value 0, which the filter reads as no constraint, so the filter passes mode 0754,
whose rendering is `rwxr-xr--`. -/
theorem fsearch_check_permissions_counterexample :
    perm_well_formed (cstr "---------") ∧
    (fsearch_parse_opt 255 4096 (fsearch_config_init (cstr "fsearch")) 'p'.toNat
        (cstr "---------")).map (fun cfg => fsearch_check_permissions cfg 0o754) = some true ∧
    (fsearch_get_chmodstr [] (FSEARCH_PERM_LEN + 1) 0o754).1 = cstr "rwxr-xr--" ∧
    cstr "rwxr-xr--" ≠ cstr "---------" := by
  decide

/-- C10 (amended): for every well-formed nine-character permission string `s` other
than `---------` and every mode, the permission filter configured by `-p s` passes the
mode iff the `rwx` rendering of the nine permission bits of the mode equals `s`; the
filter configured by `-p ---------` passes every mode. -/
theorem fsearch_check_permissions_exact (name_max path_max : Nat) (pcfg cfg : fsearch_cfg_t)
    (s : CStr) (mode : Nat)
    (hparse : fsearch_parse_opt name_max path_max pcfg 'p'.toNat s = some cfg)
    (hwf : perm_well_formed s) :
    (s ≠ cstr "---------" →
      (fsearch_check_permissions cfg mode = true ↔
        (fsearch_get_chmodstr [] (FSEARCH_PERM_LEN + 1) mode).1 = s)) ∧
    (s = cstr "---------" → fsearch_check_permissions cfg mode = true) := by
  rw [fsearch_parse_opt_p] at hparse
  cases hparse
  obtain ⟨r1, w1, x1, r2, w2, x2, r3, w3, x3, rfl⟩ := perm_well_formed_parts s hwf
  have hnone : cstr "---------"
      = perm_part false false false ++ (perm_part false false false
          ++ (perm_part false false false ++ [])) := by decide
  have g1 := perm_digit_range r1 w1 x1
  have g2 := perm_digit_range r2 w2 x2
  have g3 := perm_digit_range r3 w3 x3
  have m1 := perm_digit_range (has_flag mode S_IRUSR) (has_flag mode S_IWUSR)
    (has_flag mode S_IXUSR)
  have m2 := perm_digit_range (has_flag mode S_IRGRP) (has_flag mode S_IWGRP)
    (has_flag mode S_IXGRP)
  have m3 := perm_digit_range (has_flag mode S_IROTH) (has_flag mode S_IWOTH)
    (has_flag mode S_IXOTH)
  have hz : perm_digit false false false = 0 := by decide
  simp only [fsearch_check_permissions, fsearch_get_permissions_parts, atoi_perm_digits,
    fsearch_get_chmod_bits, fsearch_get_chmodstr_bits, hnone]
  simp only [List.append_nil, ne_eq, perm_parts_inj, hz]
  generalize perm_digit r1 w1 x1 = a1 at g1 ⊢
  generalize perm_digit r2 w2 x2 = a2 at g2 ⊢
  generalize perm_digit r3 w3 x3 = a3 at g3 ⊢
  generalize perm_digit (has_flag mode S_IRUSR) (has_flag mode S_IWUSR)
    (has_flag mode S_IXUSR) = b1 at m1 ⊢
  generalize perm_digit (has_flag mode S_IRGRP) (has_flag mode S_IWGRP)
    (has_flag mode S_IXGRP) = b2 at m2 ⊢
  generalize perm_digit (has_flag mode S_IROTH) (has_flag mode S_IWOTH)
    (has_flag mode S_IXOTH) = b3 at m3 ⊢
  constructor
  · intro hne
    have hnz : ¬ (100 * a1 + 10 * a2 + a3 = 0) := by
      intro h0
      apply hne
      omega
    rw [if_neg hnz]
    constructor
    · intro h
      split_ifs at h with h2
      omega
    · intro h
      rw [if_pos (by omega)]
  · intro he
    rw [if_pos (by omega)]

/-- C10 (amended) at `-p rwxr-xr--`: the filter passes mode 0754 and fails mode 0744. -/
theorem fsearch_check_permissions_exact_witness :
    perm_well_formed (cstr "rwxr-xr--") ∧
    (fsearch_check_permissions
        { fsearch_config_init (cstr "fsearch") with permissions := 754, criteria := 1 } 0o754
        = true ↔
      (fsearch_get_chmodstr [] (FSEARCH_PERM_LEN + 1) 0o754).1 = cstr "rwxr-xr--") ∧
    (fsearch_check_permissions
        { fsearch_config_init (cstr "fsearch") with permissions := 754, criteria := 1 } 0o744
        = true ↔
      (fsearch_get_chmodstr [] (FSEARCH_PERM_LEN + 1) 0o744).1 = cstr "rwxr-xr--") ∧
    fsearch_check_permissions
        { fsearch_config_init (cstr "fsearch") with permissions := 754, criteria := 1 } 0o744
      = false :=
  ⟨by decide,
    (fsearch_check_permissions_exact 255 4096 (fsearch_config_init (cstr "fsearch")) _
      (cstr "rwxr-xr--") 0o754 (by decide) (by decide)).1 (by decide),
    (fsearch_check_permissions_exact 255 4096 (fsearch_config_init (cstr "fsearch")) _
      (cstr "rwxr-xr--") 0o744 (by decide) (by decide)).1 (by decide),
    by decide⟩

/-! ## Selection: claim C6 -/

theorem fsearch_check_size_iff (pcfg : fsearch_cfg_t) (size : Nat)
    (h : int_range pcfg.file_size) :
    fsearch_check_size pcfg size = true ↔
      (pcfg.file_size < 0 ∨ pcfg.file_size = (size : Int)) := by
  unfold int_range at h
  unfold fsearch_check_size to_size_t
  by_cases h0 : pcfg.file_size < 0
  · simp [h0]
  · simp only [h0, if_false, false_or]
    constructor
    · intro h1
      split_ifs at h1 with h2
      omega
    · intro h1
      rw [if_pos (by omega)]

theorem fsearch_check_links_iff (pcfg : fsearch_cfg_t) (links : Nat)
    (h : int_range pcfg.link_count) :
    fsearch_check_links pcfg links = true ↔
      (pcfg.link_count < 0 ∨ pcfg.link_count = (links : Int)) := by
  unfold int_range at h
  unfold fsearch_check_links to_size_t
  by_cases h0 : pcfg.link_count < 0
  · simp [h0]
  · simp only [h0, if_false, false_or]
    constructor
    · intro h1
      split_ifs at h1 with h2
      omega
    · intro h1
      rw [if_pos (by omega)]

/-- C6: for every configuration (its `int` fields `file_size` and `link_count` being
in the range of `int`) and every entry, when the name matcher accepts the name, the
size is unconstrained or equal, the link count is unconstrained or equal, the type
filter passes and the permission filter passes, the selection block displays the path,
marks the entry as found and updates the last directory; when any one of the five
predicates is false it prints nothing and leaves the configuration as it is. -/
theorem fsearch_select_conjunction (env : libc_env) (path_max line_max : Nat)
    (pcfg : fsearch_cfg_t) (pdirectory path d_name : CStr) (statbuf : stat_t)
    (hs : int_range pcfg.file_size) (hl : int_range pcfg.link_count) :
    (all_five_filters pcfg d_name statbuf →
      fsearch_search_files_select env path_max line_max pcfg pdirectory path d_name statbuf
        = ({ pcfg with
              is_found := true
              last_directory := snprintf pcfg.last_directory path_max
                (if S_ISDIR statbuf.st_mode then path else pdirectory) },
           fsearch_display_path env line_max pcfg statbuf path)) ∧
    (¬ all_five_filters pcfg d_name statbuf →
      fsearch_search_files_select env path_max line_max pcfg pdirectory path d_name statbuf
        = (pcfg, [])) := by
  have hsel : (fsearch_check_name pcfg d_name &&
      fsearch_check_size pcfg statbuf.st_size &&
      fsearch_check_type pcfg statbuf.st_mode &&
      fsearch_check_links pcfg statbuf.st_nlink &&
      fsearch_check_permissions pcfg statbuf.st_mode) = true ↔
      all_five_filters pcfg d_name statbuf := by
    unfold all_five_filters
    rw [← fsearch_check_size_iff pcfg _ hs, ← fsearch_check_links_iff pcfg _ hl]
    simp only [Bool.and_eq_true]
    tauto
  unfold fsearch_search_files_select
  constructor
  · intro h
    rw [if_pos (hsel.2 h)]
    by_cases hd : S_ISDIR statbuf.st_mode = true
    · simp [hd]
    · simp [hd]
  · intro h
    rw [if_neg (fun hh => h (hsel.1 hh))]

/-- C6 at `-f lost+file -b 100` and two entries named `lostfile.txt`: the one of 100
bytes is displayed and marked as found, the one of 99 bytes is not. -/
theorem fsearch_select_conjunction_witness :
    fsearch_search_files_select example_env 4096 2048
        { cfg_of_pattern "lost+file" with file_size := 100 }
        (cstr "/tmp") (cstr "/tmp/lostfile.txt") (cstr "lostfile.txt")
        ⟨0o100644, 1, 100, 0, 0, 0⟩
      = ({ cfg_of_pattern "lost+file" with
            file_size := 100
            is_found := true
            last_directory := cstr "/tmp" }, [cstr "/tmp/lostfile.txt"]) ∧
    fsearch_search_files_select example_env 4096 2048
        { cfg_of_pattern "lost+file" with file_size := 100 }
        (cstr "/tmp") (cstr "/tmp/lostfile.txt") (cstr "lostfile.txt")
        ⟨0o100644, 1, 99, 0, 0, 0⟩
      = ({ cfg_of_pattern "lost+file" with file_size := 100 }, []) :=
  ⟨(fsearch_select_conjunction example_env 4096 2048
      { cfg_of_pattern "lost+file" with file_size := 100 }
      (cstr "/tmp") (cstr "/tmp/lostfile.txt") (cstr "lostfile.txt")
      ⟨0o100644, 1, 100, 0, 0, 0⟩ (by decide) (by decide)).1 (by decide),
   (fsearch_select_conjunction example_env 4096 2048
      { cfg_of_pattern "lost+file" with file_size := 100 }
      (cstr "/tmp") (cstr "/tmp/lostfile.txt") (cstr "lostfile.txt")
      ⟨0o100644, 1, 99, 0, 0, 0⟩ (by decide) (by decide)).2 (by decide)⟩

/-! ## Argument parsing and the initial cursor: claim C20 -/

theorem fsearch_parse_opt_last_directory (name_max path_max : Nat) (pcfg cfg : fsearch_cfg_t)
    (opt : Nat) (optarg : CStr)
    (h : fsearch_parse_opt name_max path_max pcfg opt optarg = some cfg) :
    cfg.last_directory = pcfg.last_directory ∧ cfg.is_found = pcfg.is_found := by
  unfold fsearch_parse_opt at h
  repeat' split at h
  all_goals first
    | (simp only [Option.some.injEq] at h; subst h; exact ⟨rfl, rfl⟩)
    | exact absurd h (by simp)

theorem fsearch_parse_args_loop_last_directory (name_max path_max : Nat)
    (opts : List (Nat × CStr)) :
    ∀ pcfg : fsearch_cfg_t,
      (fsearch_parse_args_loop name_max path_max pcfg opts).1.last_directory
        = pcfg.last_directory ∧
      (fsearch_parse_args_loop name_max path_max pcfg opts).1.is_found = pcfg.is_found := by
  induction opts with
  | nil => intro pcfg; exact ⟨rfl, rfl⟩
  | cons o opts ih =>
    intro pcfg
    obtain ⟨opt, optarg⟩ := o
    rw [fsearch_parse_args_loop]
    cases h : fsearch_parse_opt name_max path_max pcfg opt optarg with
    | none => exact ⟨rfl, rfl⟩
    | some cfg =>
      obtain ⟨h1, h2⟩ := fsearch_parse_opt_last_directory _ _ _ _ _ _ h
      simp only
      rw [(ih cfg).1, (ih cfg).2, h1, h2]
      exact ⟨rfl, rfl⟩

/-- The configuration that `fsearch_parse_args` returns has the found mark clear. -/
theorem fsearch_parse_args_is_found (name_max path_max : Nat) (argv0 : CStr)
    (opts : List (Nat × CStr)) :
    (fsearch_parse_args name_max path_max argv0 opts).1.is_found = false := by
  unfold fsearch_parse_args
  rw [(fsearch_parse_args_loop_last_directory name_max path_max opts _).2]
  rfl

/-- C20 fails as stated: after parsing with no option the last directory is the
empty string while the search root is the default `./`, and after parsing `-d /tmp` it
is the empty string while the search root is `/tmp`. -/
theorem fsearch_parse_args_cursor_counterexample :
    fsearch_parse_args 255 4096 (cstr "fsearch") []
      = (fsearch_config_init (cstr "fsearch"), 1) ∧
    (fsearch_parse_args 255 4096 (cstr "fsearch") []).1.directory = cstr "./" ∧
    (fsearch_parse_args 255 4096 (cstr "fsearch") []).1.last_directory = [] ∧
    (fsearch_parse_args 255 4096 (cstr "fsearch") [('d'.toNat, cstr "/tmp")]).2 = 1 ∧
    (fsearch_parse_args 255 4096 (cstr "fsearch") [('d'.toNat, cstr "/tmp")]).1.directory
      = cstr "/tmp" ∧
    (fsearch_parse_args 255 4096 (cstr "fsearch") [('d'.toNat, cstr "/tmp")]).1.last_directory
      = [] := by
  decide

/-- C20 (amended): after argument parsing, whatever the options, the last directory
is the empty string (no directory has been shown yet) and nothing is marked as found;
`main` hands this configuration to the walk as it is. -/
theorem fsearch_parse_args_cursor (name_max path_max : Nat) (argv0 : CStr)
    (opts : List (Nat × CStr)) :
    (fsearch_parse_args name_max path_max argv0 opts).1.last_directory = [] ∧
    (fsearch_parse_args name_max path_max argv0 opts).1.is_found = false := by
  unfold fsearch_parse_args
  rw [(fsearch_parse_args_loop_last_directory name_max path_max opts _).1,
    (fsearch_parse_args_loop_last_directory name_max path_max opts _).2]
  exact ⟨rfl, rfl⟩

/-! ## The walk: loop equations -/

theorem fsearch_search_files_loop_interrupted (env : libc_env) (path_max line_max : Nat)
    (interrupted : Nat → Bool) (w : walk_state) (pdirectory d_name : CStr)
    (lstat : Except CStr stat_t) (opendir_errno : Option CStr) (entries rest : dirent_list)
    (h : interrupted w.clock = true) :
    fsearch_search_files_loop env path_max line_max interrupted w pdirectory
        (.cons d_name lstat opendir_errno entries rest)
      = { w with clock := w.clock + 1 } := by
  rw [fsearch_search_files_loop, if_pos h]

theorem fsearch_search_files_loop_dot (env : libc_env) (path_max line_max : Nat)
    (interrupted : Nat → Bool) (w : walk_state) (pdirectory d_name : CStr)
    (lstat : Except CStr stat_t) (opendir_errno : Option CStr) (entries rest : dirent_list)
    (h : interrupted w.clock = false) (hdot : is_dot d_name = true) :
    fsearch_search_files_loop env path_max line_max interrupted w pdirectory
        (.cons d_name lstat opendir_errno entries rest)
      = fsearch_search_files_loop env path_max line_max interrupted
          { w with clock := w.clock + 1 } pdirectory rest := by
  unfold is_dot at hdot
  rw [fsearch_search_files_loop]
  simp only [h, Bool.false_eq_true, if_false, hdot, if_true]

theorem fsearch_search_files_loop_lstat_error (env : libc_env) (path_max line_max : Nat)
    (interrupted : Nat → Bool) (w : walk_state) (pdirectory d_name e : CStr)
    (opendir_errno : Option CStr) (entries rest : dirent_list)
    (h : interrupted w.clock = false) (hdot : is_dot d_name = false) :
    fsearch_search_files_loop env path_max line_max interrupted w pdirectory
        (.cons d_name (.error e) opendir_errno entries rest)
      = fsearch_search_files_loop env path_max line_max interrupted
          (fsearch_log_error { w with clock := w.clock + 1, errno := e }
            (entry_path path_max pdirectory d_name)) pdirectory rest := by
  unfold is_dot at hdot
  rw [fsearch_search_files_loop]
  simp only [h, Bool.false_eq_true, if_false, hdot, entry_path]

theorem fsearch_search_files_loop_ok (env : libc_env) (path_max line_max : Nat)
    (interrupted : Nat → Bool) (w : walk_state) (pdirectory d_name : CStr)
    (statbuf : stat_t) (opendir_errno : Option CStr) (entries rest : dirent_list)
    (h : interrupted w.clock = false) (hdot : is_dot d_name = false) :
    fsearch_search_files_loop env path_max line_max interrupted w pdirectory
        (.cons d_name (.ok statbuf) opendir_errno entries rest)
      = fsearch_search_files_loop env path_max line_max interrupted
          (if (after_select env path_max line_max w pdirectory d_name statbuf).pcfg.recursive
              && S_ISDIR statbuf.st_mode then
            match opendir_errno with
            | some e =>
              fsearch_log_error
                { after_select env path_max line_max w pdirectory d_name statbuf with errno := e }
                pdirectory
            | none =>
              fsearch_search_files_loop env path_max line_max interrupted
                (after_select env path_max line_max w pdirectory d_name statbuf)
                (entry_path path_max pdirectory d_name) entries
          else after_select env path_max line_max w pdirectory d_name statbuf)
          pdirectory rest := by
  unfold is_dot at hdot
  rw [fsearch_search_files_loop]
  simp only [h, Bool.false_eq_true, if_false, hdot, entry_path, after_select]

/-! ## Interruption and symbolic links: claims C15 and C13 -/

/-- The selection block never clears the found mark. -/
theorem fsearch_search_files_select_found (env : libc_env) (path_max line_max : Nat)
    (pcfg : fsearch_cfg_t) (pdirectory path d_name : CStr) (statbuf : stat_t) :
    (fsearch_search_files_select env path_max line_max pcfg pdirectory path d_name statbuf).1
      = pcfg ∨
    (fsearch_search_files_select env path_max line_max pcfg pdirectory path d_name
      statbuf).1.is_found = true := by
  unfold fsearch_search_files_select
  split_ifs
  · right; rfl
  · right; rfl
  · left; rfl

/-- C15: when the interruption flag is set at the check made for an entry of a
directory, the loop stops there: nothing is printed, nothing is logged, no recursion
happens and the configuration (last directory and found mark) stays as it is.
In particular `fsearch_search_files` called with the flag set changes neither the
output nor the configuration, and `main` run with the flag set from the start prints at
most `No file found`, leaves the found mark false and exits with status 1. -/
theorem fsearch_search_files_interruption (env : libc_env) (name_max path_max line_max : Nat)
    (interrupted : Nat → Bool) (w : walk_state) (pdirectory d_name : CStr)
    (lstat : Except CStr stat_t) (opendir_errno : Option CStr) (entries rest : dirent_list)
    (pdir : Except CStr dirent_list) (opendir : CStr → Except CStr dirent_list)
    (argv0 : CStr) (opts : List (Nat × CStr)) :
    (interrupted w.clock = true →
      fsearch_search_files_loop env path_max line_max interrupted w pdirectory
          (.cons d_name lstat opendir_errno entries rest)
        = { w with clock := w.clock + 1 }) ∧
    (interrupted w.clock = true →
      (fsearch_search_files env path_max line_max interrupted w pdirectory pdir).1.pcfg
          = w.pcfg ∧
      (fsearch_search_files env path_max line_max interrupted w pdirectory pdir).1.out
          = w.out) ∧
    (interrupted 0 = true →
      (main env name_max path_max line_max interrupted opendir argv0 opts).1 = 1 ∧
      (main env name_max path_max line_max interrupted opendir argv0 opts).2.pcfg.is_found
        = false ∧
      ∀ line ∈ (main env name_max path_max line_max interrupted opendir argv0 opts).2.out,
        line = cstr "No file found") := by
  have hwalk : ∀ (w : walk_state) (pdirectory : CStr) (pdir : Except CStr dirent_list),
      interrupted w.clock = true →
      (fsearch_search_files env path_max line_max interrupted w pdirectory pdir).1.pcfg
          = w.pcfg ∧
      (fsearch_search_files env path_max line_max interrupted w pdirectory pdir).1.out
          = w.out := by
    intro w pdirectory pdir h
    unfold fsearch_search_files
    cases pdir with
    | error e => exact ⟨rfl, rfl⟩
    | ok t =>
      cases t with
      | nil => exact ⟨rfl, rfl⟩
      | cons d l o es r =>
        simp only
        rw [fsearch_search_files_loop_interrupted _ _ _ _ _ _ _ _ _ _ _ h]
        exact ⟨rfl, rfl⟩
  refine ⟨fun h => fsearch_search_files_loop_interrupted _ _ _ _ _ _ _ _ _ _ _ h,
    hwalk w pdirectory pdir, ?_⟩
  intro h0
  have hcur := fsearch_parse_args_is_found name_max path_max argv0 opts
  unfold main
  simp only
  split_ifs with h1 h2 h3
  · exact ⟨rfl, hcur, by simp⟩
  · refine ⟨rfl, ?_, ?_⟩
    · simp only [fsearch_log_error]
      rw [(hwalk _ _ _ h0).1]
      exact hcur
    · simp only [fsearch_log_error]
      rw [(hwalk _ _ _ h0).2]
      simp
  · refine ⟨rfl, ?_, ?_⟩
    · simp only
      rw [(hwalk _ _ _ h0).1]
      exact hcur
    · simp only
      rw [(hwalk _ _ _ h0).2]
      simp
  · exfalso
    rw [(hwalk _ _ _ h0).1] at h3
    simp [hcur] at h3

/-- C15 at a directory with one entry and the flag set: the loop returns at once. -/
theorem fsearch_search_files_interruption_witness :
    fsearch_search_files_loop example_env 4096 8192 (fun _ => true) (example_state [])
        (cstr "./") (.cons (cstr "b") (.ok example_file) none .nil .nil)
      = { example_state [] with clock := (example_state []).clock + 1 } :=
  (fsearch_search_files_interruption example_env 255 4096 8192 (fun _ => true)
    (example_state []) (cstr "./") (cstr "b") (.ok example_file) none .nil .nil (.ok .nil)
    (fun _ => .ok .nil) (cstr "fsearch") []).1 rfl

/-- C13 fails as stated: with recursion enabled and no filter, in a directory that
holds the link `l` to a directory and the directory `d`, each with a file `x` inside,
the walk prints `./l`, `./d` and `./d/x`: it enters `d` and does not enter `l`. -/
theorem fsearch_search_files_symlink_counterexample :
    fsearch_get_type example_link.st_mode = 'l'.toNat ∧
    (main example_env 255 4096 8192 (fun _ => false) (fun _ => .ok example_tree_link)
        (cstr "fsearch") [('r'.toNat, [])]).2.out
      = [cstr "./l", cstr "./d", cstr "./d/x"] := by
  decide

/-- A mode classified as a symbolic link is not the mode of a directory. -/
theorem S_ISDIR_of_link (mode : Nat) (h : fsearch_get_type mode = 'l'.toNat) :
    S_ISDIR mode = false := by
  have hl := (fsearch_get_type_rows mode).2.2.2.2.1
  have e : 'l'.toNat = 108 := by decide
  rw [e] at h
  have := hl.1 h
  unfold S_ISDIR
  rw [this]
  decide

/-- C13 (amended): with or without recursion, an entry whose metadata read without
following links classifies it as a symbolic link is not descended into, whatever
opening it would yield: after its selection block the loop goes on with the next
entry of the same directory. -/
theorem fsearch_search_files_symlink (env : libc_env) (path_max line_max : Nat)
    (interrupted : Nat → Bool) (w : walk_state) (pdirectory d_name : CStr)
    (statbuf : stat_t) (opendir_errno : Option CStr) (entries rest : dirent_list)
    (hl : fsearch_get_type statbuf.st_mode = 'l'.toNat)
    (h : interrupted w.clock = false) (hdot : is_dot d_name = false) :
    fsearch_search_files_loop env path_max line_max interrupted w pdirectory
        (.cons d_name (.ok statbuf) opendir_errno entries rest)
      = fsearch_search_files_loop env path_max line_max interrupted
          (after_select env path_max line_max w pdirectory d_name statbuf) pdirectory rest := by
  rw [fsearch_search_files_loop_ok _ _ _ _ _ _ _ _ _ _ _ h hdot, S_ISDIR_of_link _ hl]
  simp

/-- C13 (amended) at the link `l` of the example, with recursion enabled. -/
theorem fsearch_search_files_symlink_witness :
    fsearch_search_files_loop example_env 4096 8192 (fun _ => false)
        (example_state [('r'.toNat, [])]) (cstr "./")
        (.cons (cstr "l") (.ok example_link) none (file_entry "x" .nil) .nil)
      = fsearch_search_files_loop example_env 4096 8192 (fun _ => false)
          (after_select example_env 4096 8192 (example_state [('r'.toNat, [])]) (cstr "./")
            (cstr "l") example_link) (cstr "./") .nil :=
  fsearch_search_files_symlink example_env 4096 8192 (fun _ => false)
    (example_state [('r'.toNat, [])]) (cstr "./") (cstr "l") example_link none
    (file_entry "x" .nil) .nil (by decide) rfl (by decide)

/-! ## Failures during the walk: claim C12 -/

/-- What the walk prints and the configuration it ends with depend on the state it
starts from only through the configuration, the lines already printed and the reads of
the flag: the error stream and `errno` play no part, and the number of reads plays no
part when the flag stays clear. -/
theorem fsearch_search_files_loop_frame (env : libc_env) (path_max line_max : Nat)
    (interrupted : Nat → Bool) (t : dirent_list) :
    ∀ (w1 w2 : walk_state) (pdirectory : CStr),
      w1.pcfg = w2.pcfg → w1.out = w2.out →
      (w1.clock = w2.clock ∨ ∀ k, interrupted k = false) →
      (fsearch_search_files_loop env path_max line_max interrupted w1 pdirectory t).pcfg
        = (fsearch_search_files_loop env path_max line_max interrupted w2 pdirectory t).pcfg ∧
      (fsearch_search_files_loop env path_max line_max interrupted w1 pdirectory t).out
        = (fsearch_search_files_loop env path_max line_max interrupted w2 pdirectory t).out ∧
      (w1.clock = w2.clock →
        (fsearch_search_files_loop env path_max line_max interrupted w1 pdirectory t).clock
          = (fsearch_search_files_loop env path_max line_max interrupted w2 pdirectory
              t).clock) := by
  induction t with
  | nil =>
    intro w1 w2 pdirectory hp ho _
    exact ⟨hp, ho, fun h => h⟩
  | cons d_name lstat oe entries rest ih_entries ih_rest =>
    intro w1 w2 pdirectory hp ho hc
    have hflag : interrupted w1.clock = interrupted w2.clock := by
      rcases hc with hc | hc
      · rw [hc]
      · rw [hc, hc]
    have hc1 : (w1.clock + 1 = w2.clock + 1 ∨ ∀ k, interrupted k = false) := by
      rcases hc with hc | hc
      · left; rw [hc]
      · right; exact hc
    cases hi : interrupted w1.clock with
    | true =>
      rw [fsearch_search_files_loop_interrupted _ _ _ _ _ _ _ _ _ _ _ hi,
        fsearch_search_files_loop_interrupted _ _ _ _ _ _ _ _ _ _ _ (hflag ▸ hi)]
      exact ⟨hp, ho, fun h => by simp only; rw [h]⟩
    | false =>
      have hi2 : interrupted w2.clock = false := hflag ▸ hi
      cases hdot : is_dot d_name with
      | true =>
        rw [fsearch_search_files_loop_dot _ _ _ _ _ _ _ _ _ _ _ hi hdot,
          fsearch_search_files_loop_dot _ _ _ _ _ _ _ _ _ _ _ hi2 hdot]
        obtain ⟨a, b, c⟩ := ih_rest { w1 with clock := w1.clock + 1 }
          { w2 with clock := w2.clock + 1 } pdirectory hp ho hc1
        exact ⟨a, b, fun h => c (by simp only; rw [h])⟩
      | false =>
        cases lstat with
        | error e =>
          rw [fsearch_search_files_loop_lstat_error _ _ _ _ _ _ _ _ _ _ _ hi hdot,
            fsearch_search_files_loop_lstat_error _ _ _ _ _ _ _ _ _ _ _ hi2 hdot]
          obtain ⟨a, b, c⟩ := ih_rest
            (fsearch_log_error { w1 with clock := w1.clock + 1, errno := e }
              (entry_path path_max pdirectory d_name))
            (fsearch_log_error { w2 with clock := w2.clock + 1, errno := e }
              (entry_path path_max pdirectory d_name)) pdirectory hp ho hc1
          exact ⟨a, b, fun h => c (by simp only [fsearch_log_error]; rw [h])⟩
        | ok statbuf =>
          rw [fsearch_search_files_loop_ok _ _ _ _ _ _ _ _ _ _ _ hi hdot,
            fsearch_search_files_loop_ok _ _ _ _ _ _ _ _ _ _ _ hi2 hdot]
          have hs_p : (after_select env path_max line_max w1 pdirectory d_name statbuf).pcfg
              = (after_select env path_max line_max w2 pdirectory d_name statbuf).pcfg := by
            simp only [after_select, hp]
          have hs_o : (after_select env path_max line_max w1 pdirectory d_name statbuf).out
              = (after_select env path_max line_max w2 pdirectory d_name statbuf).out := by
            simp only [after_select, hp, ho]
          have hs_c : ((after_select env path_max line_max w1 pdirectory d_name statbuf).clock
              = (after_select env path_max line_max w2 pdirectory d_name statbuf).clock
              ∨ ∀ k, interrupted k = false) := hc1
          rw [hs_p]
          cases hrec : ((after_select env path_max line_max w2 pdirectory d_name
              statbuf).pcfg.recursive && S_ISDIR statbuf.st_mode) with
          | false =>
            simp only [Bool.false_eq_true, if_false]
            obtain ⟨a, b, c⟩ := ih_rest _ _ pdirectory hs_p hs_o hs_c
            exact ⟨a, b, fun h => c (by simp only [after_select]; rw [h])⟩
          | true =>
            simp only [if_true]
            cases oe with
            | some e =>
              simp only
              obtain ⟨a, b, c⟩ := ih_rest
                (fsearch_log_error
                  { after_select env path_max line_max w1 pdirectory d_name statbuf
                    with errno := e } pdirectory)
                (fsearch_log_error
                  { after_select env path_max line_max w2 pdirectory d_name statbuf
                    with errno := e } pdirectory) pdirectory hs_p hs_o hs_c
              exact ⟨a, b, fun h => c (by simp only [fsearch_log_error, after_select]; rw [h])⟩
            | none =>
              simp only
              obtain ⟨a1, b1, c1⟩ := ih_entries _ _ (entry_path path_max pdirectory d_name)
                hs_p hs_o hs_c
              have hc2 : ((fsearch_search_files_loop env path_max line_max interrupted
                    (after_select env path_max line_max w1 pdirectory d_name statbuf)
                    (entry_path path_max pdirectory d_name) entries).clock
                  = (fsearch_search_files_loop env path_max line_max interrupted
                    (after_select env path_max line_max w2 pdirectory d_name statbuf)
                    (entry_path path_max pdirectory d_name) entries).clock
                  ∨ ∀ k, interrupted k = false) := by
                rcases hc with hc | hc
                · left; exact c1 (by simp only [after_select]; rw [hc])
                · right; exact hc
              obtain ⟨a, b, c⟩ := ih_rest _ _ pdirectory a1 b1 hc2
              exact ⟨a, b, fun h => c (c1 (by simp only [after_select]; rw [h]))⟩

/-- C12 fails as stated: in tree mode, with the unopenable directory `d` before the
file `f`, the walk prints `.`, `|--d` and then `|--f` for `f`, while with `d` absent
it prints `.` and `|--f` for `f`: the later sibling is not processed as if the
failing entry had been absent. -/
theorem fsearch_search_files_failures_counterexample :
    (main example_env 255 4096 8192 (fun _ => false) (fun _ => .ok example_tree_unopenable)
        (cstr "fsearch") [('i'.toNat, cstr "2"), ('r'.toNat, [])]).2.out
      = [cstr ".", cstr "|--d", cstr "|--f"] ∧
    (main example_env 255 4096 8192 (fun _ => false) (fun _ => .ok example_tree_unopenable)
        (cstr "fsearch") [('i'.toNat, cstr "2"), ('r'.toNat, [])]).2.err
      = [cstr "fsearch: './': Permission denied"] ∧
    (main example_env 255 4096 8192 (fun _ => false) (fun _ => .ok (file_entry "f" .nil))
        (cstr "fsearch") [('i'.toNat, cstr "2"), ('r'.toNat, [])]).2.out
      = [cstr ".", cstr "|--f"] := by
  decide

/-- C12 (amended): `fsearch_search_files` returns a negative status iff the directory
it was called on cannot be opened, and 1 otherwise. A failure of `lstat` on an entry
only adds a line to the error stream: the loop goes on with the later entries, and
when the flag stays clear it prints what it prints, and ends with the configuration it
ends with, when the failing entry is absent. A failure to open a subdirectory during
recursion only adds a line to the error stream: the walk prints what it prints, and
ends with the configuration it ends with, when that subdirectory is empty (the
subdirectory entry itself goes through the selection block as any entry). -/
theorem fsearch_search_files_failures (env : libc_env) (path_max line_max : Nat)
    (interrupted : Nat → Bool) (w : walk_state) (pdirectory d_name e : CStr)
    (statbuf : stat_t) (opendir_errno : Option CStr) (entries rest : dirent_list)
    (pdir : Except CStr dirent_list) :
    ((fsearch_search_files env path_max line_max interrupted w pdirectory pdir).2 < 0 ↔
      ∃ e2, pdir = .error e2) ∧
    ((fsearch_search_files env path_max line_max interrupted w pdirectory pdir).2 < 0 ∨
      (fsearch_search_files env path_max line_max interrupted w pdirectory pdir).2 = 1) ∧
    (interrupted w.clock = false → is_dot d_name = false →
      fsearch_search_files_loop env path_max line_max interrupted w pdirectory
          (.cons d_name (.error e) opendir_errno entries rest)
        = fsearch_search_files_loop env path_max line_max interrupted
            (fsearch_log_error { w with clock := w.clock + 1, errno := e }
              (entry_path path_max pdirectory d_name)) pdirectory rest) ∧
    ((∀ k, interrupted k = false) → is_dot d_name = false →
      (fsearch_search_files_loop env path_max line_max interrupted w pdirectory
          (.cons d_name (.error e) opendir_errno entries rest)).pcfg
        = (fsearch_search_files_loop env path_max line_max interrupted w pdirectory
            rest).pcfg ∧
      (fsearch_search_files_loop env path_max line_max interrupted w pdirectory
          (.cons d_name (.error e) opendir_errno entries rest)).out
        = (fsearch_search_files_loop env path_max line_max interrupted w pdirectory
            rest).out) ∧
    ((fsearch_search_files_loop env path_max line_max interrupted w pdirectory
          (.cons d_name (.ok statbuf) (some e) entries rest)).pcfg
        = (fsearch_search_files_loop env path_max line_max interrupted w pdirectory
            (.cons d_name (.ok statbuf) none .nil rest)).pcfg ∧
      (fsearch_search_files_loop env path_max line_max interrupted w pdirectory
          (.cons d_name (.ok statbuf) (some e) entries rest)).out
        = (fsearch_search_files_loop env path_max line_max interrupted w pdirectory
            (.cons d_name (.ok statbuf) none .nil rest)).out) := by
  refine ⟨?_, ?_, ?_, ?_, ?_⟩
  · unfold fsearch_search_files
    cases pdir with
    | error e2 => simp
    | ok t => simp
  · unfold fsearch_search_files
    cases pdir with
    | error e2 => left; simp
    | ok t => right; rfl
  · intro h hdot
    exact fsearch_search_files_loop_lstat_error _ _ _ _ _ _ _ _ _ _ _ h hdot
  · intro hclear hdot
    rw [fsearch_search_files_loop_lstat_error _ _ _ _ _ _ _ _ _ _ _ (hclear _) hdot]
    obtain ⟨a, b, _⟩ := fsearch_search_files_loop_frame env path_max line_max interrupted rest
      (fsearch_log_error { w with clock := w.clock + 1, errno := e }
        (entry_path path_max pdirectory d_name)) w pdirectory rfl rfl (Or.inr hclear)
    exact ⟨a, b⟩
  · cases hi : interrupted w.clock with
    | true =>
      rw [fsearch_search_files_loop_interrupted _ _ _ _ _ _ _ _ _ _ _ hi,
        fsearch_search_files_loop_interrupted _ _ _ _ _ _ _ _ _ _ _ hi]
      exact ⟨rfl, rfl⟩
    | false =>
      cases hdot : is_dot d_name with
      | true =>
        rw [fsearch_search_files_loop_dot _ _ _ _ _ _ _ _ _ _ _ hi hdot,
          fsearch_search_files_loop_dot _ _ _ _ _ _ _ _ _ _ _ hi hdot]
        exact ⟨rfl, rfl⟩
      | false =>
        rw [fsearch_search_files_loop_ok _ _ _ _ _ _ _ _ _ _ _ hi hdot,
          fsearch_search_files_loop_ok _ _ _ _ _ _ _ _ _ _ _ hi hdot]
        cases hrec : ((after_select env path_max line_max w pdirectory d_name
            statbuf).pcfg.recursive && S_ISDIR statbuf.st_mode) with
        | false => exact ⟨rfl, rfl⟩
        | true =>
          simp only [if_true, fsearch_search_files_loop]
          obtain ⟨a, b, _⟩ := fsearch_search_files_loop_frame env path_max line_max
            interrupted rest
            (fsearch_log_error
              { after_select env path_max line_max w pdirectory d_name statbuf with errno := e }
              pdirectory)
            (after_select env path_max line_max w pdirectory d_name statbuf) pdirectory
            rfl rfl (Or.inl rfl)
          exact ⟨a, b⟩

/-- C12 (amended) at the directory of the example with its first entry failing
`lstat`: with the flag clear the walk ends with the configuration of the walk over the
later entry alone. -/
theorem fsearch_search_files_failures_witness :
    (fsearch_search_files_loop example_env 4096 8192 (fun _ => false)
        (example_state [('i'.toNat, cstr "2")]) (cstr "./")
        (.cons (cstr "d") (.error (cstr "Permission denied")) none .nil
          (file_entry "f" .nil))).pcfg
      = (fsearch_search_files_loop example_env 4096 8192 (fun _ => false)
          (example_state [('i'.toNat, cstr "2")]) (cstr "./") (file_entry "f" .nil)).pcfg :=
  ((fsearch_search_files_failures example_env 4096 8192 (fun _ => false)
    (example_state [('i'.toNat, cstr "2")]) (cstr "./") (cstr "d") (cstr "Permission denied")
    example_dir none .nil (file_entry "f" .nil) (.ok .nil)).2.2.2.1
    (fun _ => rfl) (by decide)).1

/-! ## The exit status: claim C14 -/

theorem same_criteria_refl (a : fsearch_cfg_t) : same_criteria a a := by
  cases a; rfl

theorem same_criteria_trans (a b c : fsearch_cfg_t) (h1 : same_criteria a b)
    (h2 : same_criteria b c) : same_criteria a c := by
  unfold same_criteria at *
  rw [h2, h1]

theorem same_criteria_passes (a b : fsearch_cfg_t) (h : same_criteria a b) :
    passes_filters b = passes_filters a ∧ b.recursive = a.recursive := by
  unfold same_criteria at h
  constructor
  · funext d_name statbuf
    rw [h]
    rfl
  · rw [h]

/-- The selection block marks the entry as found exactly when the filters pass, and
changes nothing but the found mark and the last directory. -/
theorem fsearch_search_files_select_spec (env : libc_env) (path_max line_max : Nat)
    (pcfg : fsearch_cfg_t) (pdirectory path d_name : CStr) (statbuf : stat_t) :
    same_criteria pcfg
      (fsearch_search_files_select env path_max line_max pcfg pdirectory path d_name statbuf).1 ∧
    (fsearch_search_files_select env path_max line_max pcfg pdirectory path d_name
      statbuf).1.is_found = (pcfg.is_found || passes_filters pcfg d_name statbuf) := by
  unfold fsearch_search_files_select
  cases hp : passes_filters pcfg d_name statbuf with
  | false =>
    unfold passes_filters at hp
    simp only [hp, Bool.false_eq_true, if_false, Bool.or_false, and_true]
    exact same_criteria_refl _
  | true =>
    unfold passes_filters at hp
    simp only [hp, if_true, Bool.or_true]
    split_ifs
    · exact ⟨rfl, rfl⟩
    · exact ⟨rfl, rfl⟩

/-- The walk changes nothing of the configuration but the found mark and the last
directory, reads the flag as `visited` counts, and ends with the found mark set
exactly when it was set before or a visited entry passes the filters. -/
theorem fsearch_search_files_loop_visited (env : libc_env) (path_max line_max : Nat)
    (interrupted : Nat → Bool) (t : dirent_list) :
    ∀ (w : walk_state) (pdirectory : CStr),
      same_criteria w.pcfg
        (fsearch_search_files_loop env path_max line_max interrupted w pdirectory t).pcfg ∧
      (fsearch_search_files_loop env path_max line_max interrupted w pdirectory t).clock
        = (visited w.pcfg.recursive interrupted w.clock t).2 ∧
      (fsearch_search_files_loop env path_max line_max interrupted w pdirectory t).pcfg.is_found
        = (w.pcfg.is_found ||
            (visited w.pcfg.recursive interrupted w.clock t).1.any
              (fun x => passes_filters w.pcfg x.1 x.2)) := by
  induction t with
  | nil =>
    intro w pdirectory
    simp only [fsearch_search_files_loop, visited, List.any_nil, Bool.or_false, and_true]
    exact same_criteria_refl _
  | cons d_name lstat oe entries rest ih_entries ih_rest =>
    intro w pdirectory
    cases hi : interrupted w.clock with
    | true =>
      rw [fsearch_search_files_loop_interrupted _ _ _ _ _ _ _ _ _ _ _ hi]
      simp only [visited, hi, if_true, List.any_nil, Bool.or_false, and_true]
      exact same_criteria_refl _
    | false =>
      cases hdot : is_dot d_name with
      | true =>
        rw [fsearch_search_files_loop_dot _ _ _ _ _ _ _ _ _ _ _ hi hdot]
        simp only [visited, hi, Bool.false_eq_true, if_false, hdot, if_true]
        exact ih_rest { w with clock := w.clock + 1 } pdirectory
      | false =>
        cases lstat with
        | error e =>
          rw [fsearch_search_files_loop_lstat_error _ _ _ _ _ _ _ _ _ _ _ hi hdot]
          simp only [visited, hi, Bool.false_eq_true, if_false, hdot]
          exact ih_rest (fsearch_log_error { w with clock := w.clock + 1, errno := e }
            (entry_path path_max pdirectory d_name)) pdirectory
        | ok statbuf =>
          rw [fsearch_search_files_loop_ok _ _ _ _ _ _ _ _ _ _ _ hi hdot]
          obtain ⟨hs1, hs2⟩ := fsearch_search_files_select_spec env path_max line_max w.pcfg
            pdirectory (entry_path path_max pdirectory d_name) d_name statbuf
          have hap : (after_select env path_max line_max w pdirectory d_name statbuf).pcfg
              = (fsearch_search_files_select env path_max line_max w.pcfg pdirectory
                  (entry_path path_max pdirectory d_name) d_name statbuf).1 := rfl
          have hac : (after_select env path_max line_max w pdirectory d_name statbuf).clock
              = w.clock + 1 := rfl
          rw [← hap] at hs1 hs2
          obtain ⟨hpass, hrec⟩ := same_criteria_passes _ _ hs1
          simp only [visited, hi, Bool.false_eq_true, if_false, hdot]
          rw [hrec]
          cases hr : (w.pcfg.recursive && S_ISDIR statbuf.st_mode) with
          | false =>
            simp only [Bool.false_and, Bool.false_eq_true, if_false]
            obtain ⟨a, b, c⟩ := ih_rest
              (after_select env path_max line_max w pdirectory d_name statbuf) pdirectory
            rw [hrec, hac] at b c
            try rw [hpass] at c
            refine ⟨same_criteria_trans _ _ _ hs1 a, b, ?_⟩
            rw [c, hs2]
            simp only [List.any_cons, List.any_append, List.any_nil, Bool.or_assoc, Bool.or_false,
              List.cons_append, List.nil_append]
          | true =>
            simp only [if_true, Bool.true_and]
            cases oe with
            | some e =>
              simp only [Option.isNone_some, Bool.false_eq_true, if_false]
              obtain ⟨a, b, c⟩ := ih_rest
                (fsearch_log_error
                  { after_select env path_max line_max w pdirectory d_name statbuf
                    with errno := e } pdirectory) pdirectory
              have e1 : (fsearch_log_error
                  { after_select env path_max line_max w pdirectory d_name statbuf
                    with errno := e } pdirectory).pcfg
                  = (after_select env path_max line_max w pdirectory d_name statbuf).pcfg := rfl
              have e2 : (fsearch_log_error
                  { after_select env path_max line_max w pdirectory d_name statbuf
                    with errno := e } pdirectory).clock = w.clock + 1 := rfl
              rw [e1] at a
              rw [e1, e2, hrec] at b c
              try rw [hpass] at c
              refine ⟨same_criteria_trans _ _ _ hs1 a, b, ?_⟩
              rw [c, hs2]
              simp only [List.any_cons, List.any_append, List.any_nil, Bool.or_assoc,
                Bool.or_false, List.cons_append, List.nil_append]
            | none =>
              simp only [Option.isNone_none, if_true]
              obtain ⟨a1, b1, c1⟩ := ih_entries
                (after_select env path_max line_max w pdirectory d_name statbuf)
                (entry_path path_max pdirectory d_name)
              rw [hrec, hac] at b1 c1
              try rw [hpass] at c1
              obtain ⟨a, b, c⟩ := ih_rest
                (fsearch_search_files_loop env path_max line_max interrupted
                  (after_select env path_max line_max w pdirectory d_name statbuf)
                  (entry_path path_max pdirectory d_name) entries) pdirectory
              have hs3 := same_criteria_trans _ _ _ hs1 a1
              obtain ⟨hpass3, hrec3⟩ := same_criteria_passes _ _ hs3
              rw [hrec3, b1] at b c
              try rw [hpass3] at c
              refine ⟨same_criteria_trans _ _ _ hs3 a, b, ?_⟩
              rw [c, c1, hs2]
              simp only [List.any_cons, List.any_append, List.any_nil, Bool.or_assoc,
                Bool.or_false, List.cons_append, List.nil_append]

/-- The result of `main` case by case. -/
theorem main_cases (env : libc_env) (name_max path_max line_max : Nat)
    (interrupted : Nat → Bool) (opendir : CStr → Except CStr dirent_list) (argv0 : CStr)
    (opts : List (Nat × CStr)) (p : fsearch_cfg_t × Int)
    (hp : fsearch_parse_args name_max path_max argv0 opts = p) :
    ((p.2 = 0 →
      (main env name_max path_max line_max interrupted opendir argv0 opts).1 = 1 ∧
      (main env name_max path_max line_max interrupted opendir argv0 opts).2.pcfg = p.1) ∧
    (∀ e, p.2 ≠ 0 → opendir p.1.directory = .error e →
      (main env name_max path_max line_max interrupted opendir argv0 opts).1 = 1 ∧
      (main env name_max path_max line_max interrupted opendir argv0 opts).2.pcfg = p.1) ∧
    (∀ t, p.2 ≠ 0 → opendir p.1.directory = .ok t →
      main env name_max path_max line_max interrupted opendir argv0 opts
        = if (fsearch_search_files_loop env path_max line_max interrupted
            { pcfg := p.1, out := [], err := [], errno := [], clock := 0 } p.1.directory
            t).pcfg.is_found = true then
            (0, fsearch_search_files_loop env path_max line_max interrupted
              { pcfg := p.1, out := [], err := [], errno := [], clock := 0 } p.1.directory t)
          else
            (1, { fsearch_search_files_loop env path_max line_max interrupted
              { pcfg := p.1, out := [], err := [], errno := [], clock := 0 } p.1.directory t
              with out := (fsearch_search_files_loop env path_max line_max interrupted
                { pcfg := p.1, out := [], err := [], errno := [], clock := 0 } p.1.directory
                t).out ++ [cstr "No file found"] }))) := by
  subst hp
  refine ⟨?_, ?_, ?_⟩
  · intro h
    unfold main
    simp only [h, if_true, and_self]
  · intro e h he
    unfold main
    have h1 : ((-1 : Int) < 0) := by decide
    simp only [h, if_false, he, fsearch_search_files, fsearch_log_error, h1, if_true,
      and_self]
  · intro t h ht
    unfold main
    simp only [h, if_false, ht, fsearch_search_files]
    have h1 : ¬ ((1 : Int) < 0) := by decide
    simp only [h1, if_false]
    cases hf : (fsearch_search_files_loop env path_max line_max interrupted
        { pcfg := (fsearch_parse_args name_max path_max argv0 opts).1, out := [], err := [],
          errno := [], clock := 0 }
        (fsearch_parse_args name_max path_max argv0 opts).1.directory t).pcfg.is_found with
    | false => simp
    | true => simp

/-- The walk of a directory that holds only `.` and `..` visits nothing and prints
nothing. -/
theorem fsearch_search_files_loop_only_dots (env : libc_env) (path_max line_max : Nat)
    (interrupted : Nat → Bool) (pdirectory : CStr) (recursive : Bool) (t : dirent_list) :
    only_dots t = true →
    ∀ (w : walk_state),
      (fsearch_search_files_loop env path_max line_max interrupted w pdirectory t).out = w.out ∧
      (visited recursive interrupted w.clock t).1 = [] := by
  induction t with
  | nil =>
    intro _ w
    exact ⟨rfl, rfl⟩
  | cons d_name lstat opendir_errno entries rest _ ih =>
    intro h w
    unfold only_dots at h
    rw [Bool.and_eq_true] at h
    cases hi : interrupted w.clock with
    | true =>
      rw [fsearch_search_files_loop_interrupted _ _ _ _ _ _ _ _ _ _ _ hi]
      unfold visited
      simp only [hi, if_true, and_self]
    | false =>
      have hd : (strcmp_eq (cstr ".") d_name || strcmp_eq (cstr "..") d_name) = true := h.1
      rw [fsearch_search_files_loop_dot _ _ _ _ _ _ _ _ _ _ _ hi hd]
      have := ih h.2 { w with clock := w.clock + 1 }
      refine ⟨this.1, ?_⟩
      unfold visited
      simp only [hi, Bool.false_eq_true, if_false, h.1, if_true]
      exact this.2

/-- Claim C14. The program exits with status 0 exactly when the arguments parse, the
root directory opens and some entry visited by the walk passes all five filters; the
found mark after the walk says whether some visited entry passed; and for a root
directory that holds only `.` and `..` the program prints `No file found`, leaves the
found mark clear and exits with status 1. -/
theorem main_exit_status (env : libc_env) (name_max path_max line_max : Nat)
    (interrupted : Nat → Bool) (opendir : CStr → Except CStr dirent_list) (argv0 : CStr)
    (opts : List (Nat × CStr)) :
    ((main env name_max path_max line_max interrupted opendir argv0 opts).1 = 0 ↔
      (fsearch_parse_args name_max path_max argv0 opts).2 ≠ 0 ∧
      ∃ t, opendir (fsearch_parse_args name_max path_max argv0 opts).1.directory = .ok t ∧
        some_visited_passes (fsearch_parse_args name_max path_max argv0 opts).1
          interrupted t = true) ∧
    ((main env name_max path_max line_max interrupted opendir argv0 opts).1 ≠ 0 →
      (main env name_max path_max line_max interrupted opendir argv0 opts).1 = 1) ∧
    (∀ t, (fsearch_parse_args name_max path_max argv0 opts).2 ≠ 0 →
      opendir (fsearch_parse_args name_max path_max argv0 opts).1.directory = .ok t →
      (main env name_max path_max line_max interrupted opendir argv0 opts).2.pcfg.is_found
        = some_visited_passes (fsearch_parse_args name_max path_max argv0 opts).1
            interrupted t) ∧
    (∀ t, (fsearch_parse_args name_max path_max argv0 opts).2 ≠ 0 →
      opendir (fsearch_parse_args name_max path_max argv0 opts).1.directory = .ok t →
      only_dots t = true →
      (main env name_max path_max line_max interrupted opendir argv0 opts).1 = 1 ∧
      (main env name_max path_max line_max interrupted opendir argv0 opts).2.pcfg.is_found
        = false ∧
      (main env name_max path_max line_max interrupted opendir argv0 opts).2.out
        = [cstr "No file found"]) := by
  have hcur := fsearch_parse_args_is_found name_max path_max argv0 opts
  obtain ⟨c0, c1, c2⟩ := main_cases env name_max path_max line_max interrupted opendir
    argv0 opts _ rfl
  have key : ∀ t, (fsearch_search_files_loop env path_max line_max interrupted
      { pcfg := (fsearch_parse_args name_max path_max argv0 opts).1, out := [], err := [],
        errno := [], clock := 0 }
      (fsearch_parse_args name_max path_max argv0 opts).1.directory t).pcfg.is_found
      = some_visited_passes (fsearch_parse_args name_max path_max argv0 opts).1
          interrupted t := by
    intro t
    have := (fsearch_search_files_loop_visited env path_max line_max interrupted t
      { pcfg := (fsearch_parse_args name_max path_max argv0 opts).1, out := [], err := [],
        errno := [], clock := 0 }
      (fsearch_parse_args name_max path_max argv0 opts).1.directory).2.2
    rw [this]
    simp only [hcur, Bool.false_or]
    rfl
  refine ⟨?_, ?_, ?_, ?_⟩
  · constructor
    · intro h
      by_cases hp : (fsearch_parse_args name_max path_max argv0 opts).2 = 0
      · rw [(c0 hp).1] at h
        exact absurd h (by decide)
      · refine ⟨hp, ?_⟩
        cases ho : opendir (fsearch_parse_args name_max path_max argv0 opts).1.directory with
        | error e =>
          rw [(c1 e hp ho).1] at h
          exact absurd h (by decide)
        | ok t =>
          refine ⟨t, rfl, ?_⟩
          rw [c2 t hp ho, key t] at h
          cases hs : some_visited_passes (fsearch_parse_args name_max path_max argv0 opts).1
              interrupted t with
          | true => rfl
          | false =>
            rw [hs] at h
            simp at h
    · rintro ⟨hp, t, ho, hs⟩
      rw [c2 t hp ho, key t, hs]
      rfl
  · intro h
    by_cases hp : (fsearch_parse_args name_max path_max argv0 opts).2 = 0
    · exact (c0 hp).1
    · cases ho : opendir (fsearch_parse_args name_max path_max argv0 opts).1.directory with
      | error e => exact (c1 e hp ho).1
      | ok t =>
        rw [c2 t hp ho] at h ⊢
        split
        · rename_i hf
          rw [if_pos hf] at h
          exact absurd rfl h
        · rfl
  · intro t hp ho
    rw [c2 t hp ho, ← key t]
    split <;> rfl
  · intro t hp ho hd
    have hv := fsearch_search_files_loop_only_dots env path_max line_max interrupted
      (fsearch_parse_args name_max path_max argv0 opts).1.directory
      (fsearch_parse_args name_max path_max argv0 opts).1.recursive t hd
      { pcfg := (fsearch_parse_args name_max path_max argv0 opts).1, out := [], err := [],
        errno := [], clock := 0 }
    have hs : some_visited_passes (fsearch_parse_args name_max path_max argv0 opts).1
        interrupted t = false := by
      unfold some_visited_passes
      rw [hv.2]
      rfl
    have hk := key t
    rw [hs] at hk
    rw [c2 t hp ho, hk]
    refine ⟨by simp, ?_, ?_⟩
    · simp only [Bool.false_eq_true, if_false]
      exact hk
    · simp only [Bool.false_eq_true, if_false]
      rw [hv.1]
      rfl

/-- C14 at the directory of the examples, with recursion and no filter: the arguments
parse, the directory opens, the entry `a` passes, and the program exits with 0. -/
theorem main_exit_status_witness :
    (main example_env 255 4096 8192 (fun _ => false) (fun _ => .ok example_tree)
      (cstr "fsearch") [('r'.toNat, [])]).1 = 0 :=
  (main_exit_status example_env 255 4096 8192 (fun _ => false) (fun _ => .ok example_tree)
    (cstr "fsearch") [('r'.toNat, [])]).1.2 ⟨by decide, example_tree, rfl, by decide⟩

/-! ## Completeness of the traversal: claim C11 -/

/-- A text shorter than the buffer is stored whole by `snprintf`. -/
theorem snprintf_of_lt (output : CStr) (size : Nat) (text : CStr) (h : text.length < size) :
    snprintf output size text = text := by
  unfold snprintf
  rw [if_neg (by omega)]
  exact List.take_of_length_le (by omega)

/-- The path joined by the loop is the joined path when it fits in PATH_MAX. -/
theorem entry_path_eq_join (path_max : Nat) (pdirectory d_name : CStr)
    (h : (join_path pdirectory d_name).length < path_max) :
    entry_path path_max pdirectory d_name = join_path pdirectory d_name := by
  have e : pdirectory ++ (if pdirectory.getLast? ≠ some '/'.toNat then cstr "/" else [])
      ++ d_name = join_path pdirectory d_name := by
    unfold join_path
    by_cases c : pdirectory.getLast? = some '/'.toNat
    · rw [if_pos c, if_neg (not_not.mpr c), List.append_nil]
    · rw [if_neg c, if_pos c]
  unfold entry_path
  rw [e]
  exact snprintf_of_lt _ _ _ h

theorem flat_no_filters_same (a b : fsearch_cfg_t) (h : same_criteria a b)
    (ha : flat_no_filters a) : flat_no_filters b := by
  unfold same_criteria at h
  unfold flat_no_filters at *
  rw [h]
  exact ha

/-- With no filter, in flat mode without details, the selection block prints the
path, cut at LINE_MAX. -/
theorem fsearch_search_files_select_flat (env : libc_env) (path_max line_max : Nat)
    (pcfg : fsearch_cfg_t) (pdirectory path d_name : CStr) (statbuf : stat_t)
    (h : flat_no_filters pcfg) :
    (fsearch_search_files_select env path_max line_max pcfg pdirectory path d_name statbuf).2
      = [fsearch_printf line_max path] := by
  obtain ⟨h1, h2, h3, h4, h5, h6, h7⟩ := h
  unfold fsearch_search_files_select
  have c1 : fsearch_check_name pcfg d_name = true := by
    unfold fsearch_check_name; simp [h1]
  have c2 : fsearch_check_size pcfg statbuf.st_size = true := by
    unfold fsearch_check_size; simp [h2]
  have c3 : fsearch_check_type pcfg statbuf.st_mode = true := by
    unfold fsearch_check_type; simp [h4]
  have c4 : fsearch_check_links pcfg statbuf.st_nlink = true := by
    unfold fsearch_check_links; simp [h3]
  have c5 : fsearch_check_permissions pcfg statbuf.st_mode = true := by
    unfold fsearch_check_permissions; simp [h5]
  simp only [c1, c2, c3, c4, c5, Bool.and_self, if_true]
  have d : fsearch_display_path env line_max pcfg statbuf path
      = [fsearch_printf line_max path] := by
    unfold fsearch_display_path fsearch_get_info
    simp [h6, h7]
  split <;> exact d

/-- The lines of a walk with no filter, in flat mode and with the flag clear. -/
theorem fsearch_search_files_loop_preorder (env : libc_env) (path_max line_max : Nat)
    (t : dirent_list) :
    ∀ (w : walk_state) (pdirectory : CStr),
      flat_no_filters w.pcfg → walkable t = true →
      (∀ p ∈ preorder w.pcfg.recursive pdirectory t,
        p.length < path_max ∧ p.length < line_max) →
      (fsearch_search_files_loop env path_max line_max (fun _ => false) w pdirectory t).out
        = w.out ++ preorder w.pcfg.recursive pdirectory t := by
  induction t with
  | nil =>
    intro w pdirectory _ _ _
    simp [fsearch_search_files_loop, preorder]
  | cons d_name lstat opendir_errno entries rest ihe ihr =>
    intro w pdirectory hf hw hfit
    unfold walkable at hw
    rw [Bool.and_eq_true] at hw
    cases hdot : is_dot d_name with
    | true =>
      rw [fsearch_search_files_loop_dot _ _ _ _ _ _ _ _ _ _ _ rfl hdot]
      have e : preorder w.pcfg.recursive pdirectory
          (.cons d_name lstat opendir_errno entries rest)
          = preorder w.pcfg.recursive pdirectory rest := by
        rw [preorder]; simp only [hdot, if_true]
      rw [e] at hfit ⊢
      exact ihr { w with clock := w.clock + 1 } pdirectory hf hw.2 hfit
    | false =>
      rw [hdot, Bool.false_or] at hw
      obtain ⟨hl, hrest⟩ := hw
      cases lstat with
      | error e => exact absurd hl (by simp)
      | ok statbuf =>
        simp only [Bool.or_eq_true, Bool.not_eq_true', Bool.and_eq_true,
          Option.isNone_iff_eq_none] at hl
        rw [fsearch_search_files_loop_ok _ _ _ _ _ _ _ _ _ _ _ rfl hdot]
        have hsel := fsearch_search_files_select_spec env path_max line_max w.pcfg pdirectory
          (entry_path path_max pdirectory d_name) d_name statbuf
        have hflat := fsearch_search_files_select_flat env path_max line_max w.pcfg pdirectory
          (entry_path path_max pdirectory d_name) d_name statbuf hf
        have hpre : preorder w.pcfg.recursive pdirectory
            (.cons d_name (.ok statbuf) opendir_errno entries rest)
            = join_path pdirectory d_name ::
              ((if w.pcfg.recursive && S_ISDIR statbuf.st_mode then
                  preorder w.pcfg.recursive (join_path pdirectory d_name) entries
                else []) ++ preorder w.pcfg.recursive pdirectory rest) := by
          rw [preorder]
          simp only [hdot, Bool.false_eq_true, if_false, is_directory]
        rw [hpre] at hfit ⊢
        have hj := hfit (join_path pdirectory d_name) (List.mem_cons_self _ _)
        have hep := entry_path_eq_join path_max pdirectory d_name hj.1
        have hpr : fsearch_printf line_max (join_path pdirectory d_name)
            = join_path pdirectory d_name := snprintf_of_lt _ _ _ hj.2
        rw [hep] at hflat hsel
        rw [hpr] at hflat
        have arec : (after_select env path_max line_max w pdirectory d_name statbuf).pcfg.recursive
            = w.pcfg.recursive := by
          unfold after_select
          rw [hep]
          exact (same_criteria_passes _ _ hsel.1).2
        have aflat : flat_no_filters
            (after_select env path_max line_max w pdirectory d_name statbuf).pcfg := by
          unfold after_select
          rw [hep]
          exact flat_no_filters_same _ _ hsel.1 hf
        have aout : (after_select env path_max line_max w pdirectory d_name statbuf).out
            = w.out ++ [join_path pdirectory d_name] := by
          unfold after_select
          rw [hep, hflat]
        rw [arec, hep]
        cases hrd : (w.pcfg.recursive && S_ISDIR statbuf.st_mode) with
        | false =>
          simp only [hrd, Bool.false_eq_true, if_false, List.nil_append] at hfit ⊢
          rw [ihr _ pdirectory aflat hrest, aout, arec]
          · simp
          · rw [arec]
            intro p hp
            exact hfit p (List.mem_cons_of_mem _ hp)
        | true =>
          simp only [hrd, if_true] at hfit ⊢
          rw [Bool.and_eq_true] at hrd
          have hopen := hl.resolve_left (by simp [hrd.2])
          rw [hopen.1]
          simp only []
          have hin := ihe (after_select env path_max line_max w pdirectory d_name statbuf)
            (join_path pdirectory d_name) aflat hopen.2 (by
              rw [arec]
              intro p hp
              exact hfit p (List.mem_cons_of_mem _ (List.mem_append_left _ hp)))
          have hvis := (fsearch_search_files_loop_visited env path_max line_max
            (fun _ => false) entries
            (after_select env path_max line_max w pdirectory d_name statbuf)
            (join_path pdirectory d_name)).1
          have irec := (same_criteria_passes _ _ hvis).2
          have iflat := flat_no_filters_same _ _ hvis aflat
          rw [ihr _ pdirectory iflat hrest, hin, aout, irec, arec]
          · simp
          · rw [irec, arec]
            intro p hp
            exact hfit p (List.mem_cons_of_mem _ (List.mem_append_right _ hp))

/-- Without recursion the pre-order is the list of the direct entries. -/
theorem preorder_direct_entries (pdirectory : CStr) (t : dirent_list) :
    preorder false pdirectory t = direct_entries pdirectory t := by
  induction t with
  | nil => rfl
  | cons d_name lstat opendir_errno entries rest _ ihr =>
    rw [preorder, direct_entries, ihr]
    simp

/-- Claim C11. Over a tree whose entries all have readable metadata and whose
directories all open, read from a directory that opened (its name is not empty), with
no filter, flat output without details, the flag clear and all joined paths within
PATH_MAX and LINE_MAX, `fsearch_search_files` returns 1 and prints exactly the joined paths of the entries other than `.` and `..`, one line each,
in depth-first pre-order of the enumeration when recursion is enabled, and exactly the
joined paths of the direct entries of the root when it is disabled. -/
theorem fsearch_search_files_complete (env : libc_env) (path_max line_max : Nat)
    (w : walk_state) (pdirectory : CStr) (t : dirent_list) (_hdir : pdirectory ≠ [])
    (hf : flat_no_filters w.pcfg) (hw : walkable t = true)
    (hfit : ∀ p ∈ preorder w.pcfg.recursive pdirectory t,
      p.length < path_max ∧ p.length < line_max) :
    (fsearch_search_files env path_max line_max (fun _ => false) w pdirectory (.ok t)).2 = 1 ∧
    (fsearch_search_files env path_max line_max (fun _ => false) w pdirectory (.ok t)).1.out
      = w.out ++ preorder w.pcfg.recursive pdirectory t ∧
    (w.pcfg.recursive = false →
      (fsearch_search_files env path_max line_max (fun _ => false) w pdirectory (.ok t)).1.out
        = w.out ++ direct_entries pdirectory t) := by
  have h := fsearch_search_files_loop_preorder env path_max line_max t w pdirectory hf hw hfit
  refine ⟨rfl, h, ?_⟩
  intro hr
  rw [hr, preorder_direct_entries] at h
  exact h

/-- C11 at the directory of the examples with recursion: the lines are `./a` and
`./a/b`. -/
theorem fsearch_search_files_complete_witness :
    flat_no_filters (example_state [('r'.toNat, [])]).pcfg ∧
    walkable example_tree = true ∧
    (fsearch_search_files example_env 4096 8192 (fun _ => false)
      (example_state [('r'.toNat, [])]) (cstr "./") (.ok example_tree)).1.out
      = [cstr "./a", cstr "./a/b"] :=
  ⟨by decide, by decide,
    (fsearch_search_files_complete example_env 4096 8192 (example_state [('r'.toNat, [])])
      (cstr "./") example_tree (by decide) (by decide) (by decide) (by decide)).2.1.trans
      (by decide)⟩

/-! ## The tree renderer: claims C16 to C19 -/

/-- The loop of `fsearch_display_path` prints the lines of `tree_lines` for the
component in hand and the tokens still in the buffer. -/
theorem fsearch_display_path_loop_spec (line_max : Nat) (pcfg : fsearch_cfg_t)
    (match_depth fuel : Nat) :
    ∀ (c saveptr : CStr) (tabs : Nat), saveptr.length + 2 ≤ fuel →
      fsearch_display_path_loop line_max pcfg match_depth fuel (some c) saveptr tabs
        = some (tree_lines line_max pcfg match_depth (c :: tokens 47 saveptr) tabs) := by
  induction fuel with
  | zero => intro c saveptr tabs h; omega
  | succ n ih =>
    intro c saveptr tabs h
    have hnext : fsearch_display_path_loop line_max pcfg match_depth n
          (strtok_r saveptr (cstr "/")).1 (strtok_r saveptr (cstr "/")).2
          (size_t_add tabs pcfg.indentation)
        = some (tree_lines line_max pcfg match_depth (tokens 47 saveptr)
            (size_t_add tabs pcfg.indentation)) ∧
        ((strtok_r saveptr (cstr "/")).1.isSome = true ↔ tokens 47 saveptr ≠ []) := by
      rw [cstr_slash]
      rcases strtok_r_tokens 47 saveptr with ⟨h1, h2⟩ | ⟨t, rest, h1, h2, _, h4⟩
      · rw [h1, h2]
        obtain ⟨m, rfl⟩ : ∃ m, n = m + 1 := ⟨n - 1, by omega⟩
        simp [fsearch_display_path_loop, tree_lines]
      · rw [h1, h2]
        simp only [Option.isSome_some, ne_eq, reduceCtorEq, not_false_eq_true, iff_true,
          and_true]
        exact ih t rest _ (by omega)
    rw [fsearch_display_path_loop, tree_lines]
    by_cases hc : (match_depth = 0 ∧ tabs ≠ 0) ∨ (match_depth ≠ 0 ∧ tabs ≥ match_depth)
    · rw [if_pos hc, if_pos hc]
      simp only [hnext.1, Option.map_some', Option.some.injEq, List.singleton_append,
        List.cons.injEq, and_true]
      unfold tree_line
      by_cases hb : pcfg.criteria = 0 ∨ (strtok_r saveptr (cstr "/")).1.isSome = true
      · rw [if_pos hb]
        have : ¬ (pcfg.criteria ≠ 0 ∧ tokens 47 saveptr = []) := by
          rintro ⟨a, b⟩
          rcases hb with hb | hb
          · exact a hb
          · exact (hnext.2.1 hb) b
        simp [this]
      · rw [if_neg hb]
        have : pcfg.criteria ≠ 0 ∧ tokens 47 saveptr = [] := by
          constructor
          · intro a; exact hb (Or.inl a)
          · by_contra b; exact hb (Or.inr (hnext.2.2 b))
        simp [this]
    · rw [if_neg hc, if_neg hc]
      simp only [hnext.1, Option.map_some']

/-- Adding a positive indentation to a depth without reaching 2^64 is plain addition. -/
theorem size_t_add_of_lt (a : Nat) (b : Int) (hb : 0 < b)
    (h : a + b.toNat < 18446744073709551616) : size_t_add a b = a + b.toNat := by
  unfold size_t_add to_size_t
  have hb2 : b < 18446744073709551616 := by omega
  rw [Int.emod_eq_of_lt (le_of_lt hb) hb2]
  exact Nat.mod_eq_of_lt h

/-- The lines of `tree_lines` by the index of the component, when the depth never
reaches 2^64. -/
theorem tree_lines_eq_indexed (line_max : Nat) (pcfg : fsearch_cfg_t) (match_depth : Nat)
    (hu : 0 < pcfg.indentation) :
    ∀ (cs : List CStr) (k : Nat),
      (k + cs.length) * pcfg.indentation.toNat < 18446744073709551616 →
      tree_lines line_max pcfg match_depth cs (k * pcfg.indentation.toNat)
        = tree_lines_indexed line_max pcfg match_depth pcfg.indentation.toNat
            (k + cs.length) (cs.enumFrom k) := by
  intro cs
  induction cs with
  | nil => intro k _; rfl
  | cons c cs ih =>
    intro k h
    have hupos : 0 < pcfg.indentation.toNat := by omega
    rw [List.length_cons] at h
    have hstep : size_t_add (k * pcfg.indentation.toNat) pcfg.indentation
        = (k + 1) * pcfg.indentation.toNat := by
      rw [size_t_add_of_lt _ _ hu]
      · ring
      · have : k * pcfg.indentation.toNat + pcfg.indentation.toNat
            ≤ (k + (cs.length + 1)) * pcfg.indentation.toNat := by
          have : (k + 1) * pcfg.indentation.toNat
              ≤ (k + (cs.length + 1)) * pcfg.indentation.toNat :=
            Nat.mul_le_mul_right _ (by omega)
          calc k * pcfg.indentation.toNat + pcfg.indentation.toNat
              = (k + 1) * pcfg.indentation.toNat := by ring
            _ ≤ _ := this
        omega
    have hih := ih (k + 1) (by
      have e : k + 1 + cs.length = k + (cs.length + 1) := by omega
      rw [e]; exact h)
    have en : k + 1 + cs.length = k + (c :: cs).length := by
      rw [List.length_cons]; omega
    rw [en] at hih
    rw [tree_lines, hstep, hih]
    unfold tree_lines_indexed
    rw [List.enumFrom_cons, List.filter_cons]
    have hk0 : k * pcfg.indentation.toNat ≠ 0 ↔ k ≠ 0 := by
      constructor
      · intro a b; rw [b] at a; simp at a
      · intro a
        exact Nat.pos_iff_ne_zero.mp (Nat.mul_pos (Nat.pos_of_ne_zero a) hupos)
    by_cases hm : match_depth = 0
    · subst hm
      by_cases hk : k = 0
      · subst hk
        simp
      · have hA : (0 = 0 ∧ k * pcfg.indentation.toNat ≠ 0) ∨
            ((0 : Nat) ≠ 0 ∧ k * pcfg.indentation.toNat ≥ 0) := Or.inl ⟨rfl, hk0.mpr hk⟩
        rw [if_pos hA]
        simp [hk]
    · by_cases hd : match_depth ≤ k * pcfg.indentation.toNat
      · have hA : (match_depth = 0 ∧ k * pcfg.indentation.toNat ≠ 0) ∨
            (match_depth ≠ 0 ∧ k * pcfg.indentation.toNat ≥ match_depth) := Or.inr ⟨hm, hd⟩
        have hk : k ≠ 0 := by
          intro e; rw [e] at hd; simp at hd; exact hm hd
        rw [if_pos hA]
        simp [hk, hd]
      · have hA : ¬ ((match_depth = 0 ∧ k * pcfg.indentation.toNat ≠ 0) ∨
            (match_depth ≠ 0 ∧ k * pcfg.indentation.toNat ≥ match_depth)) := by
          rintro (⟨a, _⟩ | ⟨_, b⟩)
          · exact hm a
          · exact hd b
        rw [if_neg hA, if_neg hm]
        simp [hd]

/-- In tree mode `fsearch_display_path` prints the lines of `tree_lines_indexed` for
the components of the path, when the depth never reaches 2^64. -/
theorem fsearch_display_path_tree (env : libc_env) (line_max : Nat) (pcfg : fsearch_cfg_t)
    (pstat : stat_t) (path : CStr) (hu : 0 < pcfg.indentation)
    (hw : (tokens 47 path).length * pcfg.indentation.toNat < 18446744073709551616) :
    fsearch_display_path env line_max pcfg pstat path
      = tree_lines_indexed line_max pcfg (fsearch_get_depth pcfg path)
          pcfg.indentation.toNat (tokens 47 path).length (tokens 47 path).enum := by
  have hne : pcfg.indentation ≠ 0 := by omega
  have h := tree_lines_eq_indexed line_max pcfg (fsearch_get_depth pcfg path) hu
    (tokens 47 path) 0 (by rw [Nat.zero_add]; exact hw)
  rw [Nat.zero_mul, Nat.zero_add] at h
  unfold fsearch_display_path
  rw [if_neg hne]
  simp only []
  rw [cstr_slash]
  rcases strtok_r_tokens 47 path with ⟨h1, h2⟩ | ⟨t, rest, h1, h2, _, h4⟩
  · rw [h2, h1]
    simp [fsearch_display_path_loop, tree_lines_indexed]
  · rw [h2]
    simp only []
    rw [fsearch_display_path_loop_spec line_max pcfg _ _ t rest 0 (by omega), ← h1,
      Option.getD_some, h]
    rfl

/-- Claim C16. In tree mode, when the match depth is positive and the depth never
reaches 2^64, `fsearch_display_path` prints no line for a component of index `k` with
`k * indentation` below the match depth, and for every other component, in path order,
one tree line: a bar, `k * indentation` dashes and the component, with the bold markup
only possibly around the last component; such a line that fits in LINE_MAX is printed
whole. -/
theorem fsearch_display_path_new_components (env : libc_env) (line_max : Nat)
    (pcfg : fsearch_cfg_t) (pstat : stat_t) (path : CStr) (hu : 0 < pcfg.indentation)
    (hw : (tokens 47 path).length * pcfg.indentation.toNat < 18446744073709551616)
    (hm : 0 < fsearch_get_depth pcfg path) :
    fsearch_display_path env line_max pcfg pstat path
      = (((tokens 47 path).enum.filter
          (fun x => decide (fsearch_get_depth pcfg path ≤ x.1 * pcfg.indentation.toNat))).map
          (fun x => tree_line line_max (x.1 * pcfg.indentation.toNat)
            (decide (pcfg.criteria ≠ 0 ∧ x.1 + 1 = (tokens 47 path).length)) x.2)) ∧
    (∀ (tabs : Nat) (c : CStr), 1 + tabs + c.length < line_max →
      tree_line line_max tabs false c = cstr "|" ++ List.replicate tabs '-'.toNat ++ c) := by
  constructor
  · rw [fsearch_display_path_tree env line_max pcfg pstat path hu hw]
    unfold tree_lines_indexed
    apply List.map_congr_left
    intro x hx
    have hx2 := (List.mem_filter.mp hx).2
    simp only [decide_eq_true_eq] at hx2
    have hk : x.1 ≠ 0 := by
      intro e
      rw [e, Nat.zero_mul] at hx2
      omega
    rw [if_neg hk]
  · intro tabs c h
    unfold tree_line
    simp only [Bool.false_eq_true, if_false]
    apply snprintf_of_lt
    simp only [List.length_append, List.length_replicate]
    have : (cstr "|").length = 1 := by decide
    omega

/-- C16 for the path `./a/b` after the directory `./a` with the unit 2: the match
depth is 4 and the only line is that of `b`, with four dashes. -/
theorem fsearch_display_path_new_components_witness :
    0 < fsearch_get_depth (example_cfg [('i'.toNat, cstr "2")] "./a") (cstr "./a/b") ∧
    fsearch_display_path example_env 8192 (example_cfg [('i'.toNat, cstr "2")] "./a")
      example_file (cstr "./a/b") = [cstr "|----b"] :=
  ⟨by decide,
    (fsearch_display_path_new_components example_env 8192
      (example_cfg [('i'.toNat, cstr "2")] "./a") example_file (cstr "./a/b")
      (by decide) (by decide) (by decide)).1.trans (by decide)⟩

/-- C17 fails as stated: with the unit 2 and no last directory the match depth for
`./a` is zero, and the first component `.` is printed on a line of its own before the
tree line of `a`. -/
theorem fsearch_display_path_first_component_counterexample :
    fsearch_get_depth (example_cfg [('i'.toNat, cstr "2")] "") (cstr "./a") = 0 ∧
    fsearch_display_path example_env 8192 (example_cfg [('i'.toNat, cstr "2")] "")
      example_dir (cstr "./a") = [cstr ".", cstr "|--a"] := by
  decide

/-- Claim C17, amended. In tree mode, when the match depth is zero and the depth never
reaches 2^64, `fsearch_display_path` prints one line for every component of the path,
in path order: the first component alone on its line, without bar, dashes or markup,
and every later component of index `k` on a tree line with `k * indentation` dashes. -/
theorem fsearch_display_path_first_component (env : libc_env) (line_max : Nat)
    (pcfg : fsearch_cfg_t) (pstat : stat_t) (path : CStr) (hu : 0 < pcfg.indentation)
    (hw : (tokens 47 path).length * pcfg.indentation.toNat < 18446744073709551616)
    (hm : fsearch_get_depth pcfg path = 0) :
    fsearch_display_path env line_max pcfg pstat path
      = (tokens 47 path).enum.map (fun x =>
          if x.1 = 0 then fsearch_printf line_max x.2
          else tree_line line_max (x.1 * pcfg.indentation.toNat)
            (decide (pcfg.criteria ≠ 0 ∧ x.1 + 1 = (tokens 47 path).length)) x.2) := by
  rw [fsearch_display_path_tree env line_max pcfg pstat path hu hw, hm]
  unfold tree_lines_indexed
  simp

/-- C17 amended, for the path `./a/b` with the unit 2 and no last directory: three
lines, the first of them the component `.` alone. -/
theorem fsearch_display_path_first_component_witness :
    fsearch_display_path example_env 8192 (example_cfg [('i'.toNat, cstr "2")] "")
      example_file (cstr "./a/b") = [cstr ".", cstr "|--a", cstr "|----b"] :=
  (fsearch_display_path_first_component example_env 8192
    (example_cfg [('i'.toNat, cstr "2")] "") example_file (cstr "./a/b")
    (by decide) (by decide) (by decide)).trans (by decide)

/-- C19 fails as stated: with `-i 2 -d /` one criterion is counted, and the entry `etc`
of the root, whose path `/etc` has a single component, is printed without markup. -/
theorem fsearch_display_path_emphasis_counterexample :
    (fsearch_parse_args 255 4096 (cstr "fsearch")
      [('i'.toNat, cstr "2"), ('d'.toNat, cstr "/")]).1.criteria = 1 ∧
    (main example_env 255 4096 8192 (fun _ => false) (fun _ => .ok example_tree_root)
      (cstr "fsearch") [('i'.toNat, cstr "2"), ('d'.toNat, cstr "/")]).2.out
      = [cstr "etc"] := by
  decide

/-- Claim C19, amended. In tree mode, when the criteria count is not negative and the
depth never reaches 2^64, the line of a component is wrapped in the bold and reset
markup exactly when a criterion is configured, the component is the last one of the
path and it is not the first one; every other printed line carries no markup. The
first component, when printed, stands alone on its line; every other one follows a
bar and its dashes. -/
theorem fsearch_display_path_emphasis (env : libc_env) (line_max : Nat)
    (pcfg : fsearch_cfg_t) (pstat : stat_t) (path : CStr) (hu : 0 < pcfg.indentation)
    (hw : (tokens 47 path).length * pcfg.indentation.toNat < 18446744073709551616)
    (hc : 0 ≤ pcfg.criteria) :
    fsearch_display_path env line_max pcfg pstat path
      = (((tokens 47 path).enum.filter
          (fun x => decide (fsearch_get_depth pcfg path ≤ x.1 * pcfg.indentation.toNat))).map
          (fun x => fsearch_printf line_max
            ((if x.1 = 0 then []
              else cstr "|" ++ List.replicate (x.1 * pcfg.indentation.toNat) '-'.toNat) ++
            emphasis
              (decide (0 < pcfg.criteria ∧ x.1 + 1 = (tokens 47 path).length ∧ x.1 ≠ 0))
              x.2))) := by
  rw [fsearch_display_path_tree env line_max pcfg pstat path hu hw]
  unfold tree_lines_indexed
  apply List.map_congr_left
  intro x _
  by_cases hk : x.1 = 0
  · rw [if_pos hk, if_pos hk]
    have : ¬ (0 < pcfg.criteria ∧ x.1 + 1 = (tokens 47 path).length ∧ x.1 ≠ 0) := by
      rintro ⟨_, _, a⟩
      exact a hk
    simp [emphasis, this]
  · rw [if_neg hk, if_neg hk]
    unfold tree_line emphasis
    by_cases hb : pcfg.criteria ≠ 0 ∧ x.1 + 1 = (tokens 47 path).length
    · have : 0 < pcfg.criteria ∧ x.1 + 1 = (tokens 47 path).length ∧ x.1 ≠ 0 :=
        ⟨by omega, hb.2, hk⟩
      simp only [hb, this, and_self, decide_True, if_true, List.append_assoc, ne_eq,
        not_false_eq_true]
    · have : ¬ (0 < pcfg.criteria ∧ x.1 + 1 = (tokens 47 path).length ∧ x.1 ≠ 0) := by
        rintro ⟨a, b, _⟩
        exact hb ⟨by omega, b⟩
      simp only [hb, this, decide_False, Bool.false_eq_true, if_false]

/-- C19 amended, with the criterion of `-d .` and the unit 2, for the path `./a/b`
after the directory `./a`: the line of the last component `b` is in bold. -/
theorem fsearch_display_path_emphasis_witness :
    0 ≤ (example_cfg [('i'.toNat, cstr "2"), ('d'.toNat, cstr ".")] "./a").criteria ∧
    fsearch_display_path example_env 8192
      (example_cfg [('i'.toNat, cstr "2"), ('d'.toNat, cstr ".")] "./a") example_file
      (cstr "./a/b")
      = [cstr "|----" ++ FSEARCH_STR_BOLD ++ cstr "b" ++ FSEARCH_STR_RESET] :=
  ⟨by decide,
    (fsearch_display_path_emphasis example_env 8192
      (example_cfg [('i'.toNat, cstr "2"), ('d'.toNat, cstr ".")] "./a") example_file
      (cstr "./a/b") (by decide) (by decide) (by decide)).trans (by decide)⟩

/-- C18 fails as stated: in the walk of the example the line of the entry `a/b` is
`|----b`, with four dashes (two components before it, the unit being 2), and not
`|--b`. -/
theorem main_tree_example_counterexample :
    (main example_env 255 4096 8192 (fun _ => false) (fun _ => .ok example_tree)
      (cstr "fsearch") [('i'.toNat, cstr "2"), ('r'.toNat, [])]).2.out.getLast?
      = some (cstr "|----b") ∧
    cstr "|----b" ≠ cstr "|--b" := by
  decide

/-- Claim C18, amended. For the walk of the root `./` with the unit 2, recursion and
no filter, over the directory `a` that holds the regular file `b`: no criterion is
counted, the program exits with 0 and prints three lines without markup, the root
label `.`, then `|--a` for the entry `a`, then `|----b` for the entry `a/b`. -/
theorem main_tree_example :
    (fsearch_parse_args 255 4096 (cstr "fsearch")
      [('i'.toNat, cstr "2"), ('r'.toNat, [])]).1.criteria = 0 ∧
    (fsearch_parse_args 255 4096 (cstr "fsearch")
      [('i'.toNat, cstr "2"), ('r'.toNat, [])]).1.directory = cstr "./" ∧
    (main example_env 255 4096 8192 (fun _ => false) (fun _ => .ok example_tree)
      (cstr "fsearch") [('i'.toNat, cstr "2"), ('r'.toNat, [])]).1 = 0 ∧
    (main example_env 255 4096 8192 (fun _ => false) (fun _ => .ok example_tree)
      (cstr "fsearch") [('i'.toNat, cstr "2"), ('r'.toNat, [])]).2.out
      = [cstr ".", cstr "|--a", cstr "|----b"] ∧
    (main example_env 255 4096 8192 (fun _ => false) (fun _ => .ok example_tree)
      (cstr "fsearch") [('i'.toNat, cstr "2"), ('r'.toNat, [])]).2.err = [] := by
  decide

/-! ## The criteria counter: claim C23 -/

/-- One pass of the option loop adds one to the criteria counter for a counted option
and leaves it as it is for any other option. -/
theorem fsearch_parse_opt_criteria (name_max path_max : Nat) (pcfg cfg : fsearch_cfg_t)
    (opt : Nat) (optarg : CStr)
    (h : fsearch_parse_opt name_max path_max pcfg opt optarg = some cfg) :
    cfg.criteria = pcfg.criteria + (if counted_option opt then 1 else 0) := by
  unfold fsearch_parse_opt at h
  repeat' split at h
  all_goals first
    | (simp only [Option.some.injEq] at h
       subst h
       simp_all [counted_option, fsearch_parse_opt_f, fsearch_get_filename])
    | exact absurd h (by simp)

/-- After a successful option loop the criteria counter has grown by the number of
counted options. -/
theorem fsearch_parse_args_loop_criteria (name_max path_max : Nat)
    (opts : List (Nat × CStr)) :
    ∀ pcfg : fsearch_cfg_t,
      (fsearch_parse_args_loop name_max path_max pcfg opts).2 ≠ 0 →
      (fsearch_parse_args_loop name_max path_max pcfg opts).1.criteria
        = pcfg.criteria + (opts.countP (fun o => counted_option o.1) : Nat) := by
  induction opts with
  | nil => intro pcfg _; simp [fsearch_parse_args_loop]
  | cons o opts ih =>
    intro pcfg hs
    obtain ⟨opt, optarg⟩ := o
    rw [fsearch_parse_args_loop] at hs ⊢
    cases h : fsearch_parse_opt name_max path_max pcfg opt optarg with
    | none =>
      rw [h] at hs
      exact absurd rfl hs
    | some cfg =>
      rw [h] at hs
      simp only at hs ⊢
      rw [ih cfg hs, fsearch_parse_opt_criteria _ _ _ _ _ _ h, List.countP_cons]
      by_cases c : counted_option opt = true
      · simp [c]; ring
      · simp [c]

/-- C23 fails as stated: after the successful parsing of `-d /tmp` alone, no filter
option was supplied and the criteria counter is 1. -/
theorem fsearch_parse_args_criteria_counterexample :
    (fsearch_parse_args 255 4096 (cstr "fsearch") [('d'.toNat, cstr "/tmp")]).2 = 1 ∧
    (fsearch_parse_args 255 4096 (cstr "fsearch") [('d'.toNat, cstr "/tmp")]).1.criteria
      = 1 ∧
    [('d'.toNat, cstr "/tmp")].any (fun o => filter_option o.1) = false := by
  decide

/-- Claim C23, amended. After `fsearch_parse_args` succeeds, the criteria counter is
the number of options supplied among the five filter options and `-d`, each counted
as often as it was supplied; it is greater than 0 exactly when at least one of these
six options was supplied, and the options `-i`, `-o`, `-r` and `-v` do not contribute
to it. -/
theorem fsearch_parse_args_criteria (name_max path_max : Nat) (argv0 : CStr)
    (opts : List (Nat × CStr))
    (h : (fsearch_parse_args name_max path_max argv0 opts).2 ≠ 0) :
    (fsearch_parse_args name_max path_max argv0 opts).1.criteria
      = (opts.countP (fun o => counted_option o.1) : Nat) ∧
    (0 < (fsearch_parse_args name_max path_max argv0 opts).1.criteria ↔
      ∃ o ∈ opts, counted_option o.1 = true) ∧
    (∀ opt, counted_option opt = true ↔ (filter_option opt = true ∨ opt = 'd'.toNat)) ∧
    counted_option 'i'.toNat = false ∧ counted_option 'o'.toNat = false ∧
    counted_option 'r'.toNat = false ∧ counted_option 'v'.toNat = false := by
  have hc : (fsearch_parse_args name_max path_max argv0 opts).1.criteria
      = (opts.countP (fun o => counted_option o.1) : Nat) := by
    unfold fsearch_parse_args at h ⊢
    rw [fsearch_parse_args_loop_criteria name_max path_max opts _ h]
    simp [fsearch_config_init]
  refine ⟨hc, ?_, ?_, by decide, by decide, by decide, by decide⟩
  · rw [hc]
    simp only [Nat.cast_pos, List.countP_pos_iff]
  · intro opt
    simp [counted_option, filter_option]

/-- C23 amended, for `-d /tmp -i 2 -f a -r`: parsing succeeds and the counter is 2. -/
theorem fsearch_parse_args_criteria_witness :
    (fsearch_parse_args 255 4096 (cstr "fsearch")
      [('d'.toNat, cstr "/tmp"), ('i'.toNat, cstr "2"), ('f'.toNat, cstr "a"),
        ('r'.toNat, [])]).2 ≠ 0 ∧
    (fsearch_parse_args 255 4096 (cstr "fsearch")
      [('d'.toNat, cstr "/tmp"), ('i'.toNat, cstr "2"), ('f'.toNat, cstr "a"),
        ('r'.toNat, [])]).1.criteria = 2 :=
  ⟨by decide,
    (fsearch_parse_args_criteria 255 4096 (cstr "fsearch")
      [('d'.toNat, cstr "/tmp"), ('i'.toNat, cstr "2"), ('f'.toNat, cstr "a"),
        ('r'.toNat, [])] (by decide)).1.trans (by decide)⟩

/-! ## The match depth: claim C22 -/

/-- A text has at most as many tokens as characters. -/
theorem tokens_length_le (d : Nat) : ∀ (n : Nat) (s : CStr), s.length ≤ n →
    (tokens d s).length ≤ s.length := by
  intro n
  induction n with
  | zero =>
    intro s h
    have : s = [] := List.length_eq_zero.mp (by omega)
    rw [this, tokens_nil]
    exact Nat.le_refl _
  | succ n ih =>
    intro s h
    rcases strtok_r_tokens d s with ⟨h1, _⟩ | ⟨t, rest, h1, _, _, h4⟩
    · rw [h1]; exact Nat.zero_le _
    · rw [h1, List.length_cons]
      have := ih rest (by omega)
      omega

theorem common_prefix_length_le (a : List CStr) :
    ∀ b : List CStr, common_prefix_length a b ≤ a.length := by
  induction a with
  | nil => intro b; simp [common_prefix_length]
  | cons x a ih =>
    intro b
    cases b with
    | nil => simp [common_prefix_length]
    | cons y b =>
      rw [common_prefix_length]
      split
      · have := ih b
        simp only [List.length_cons]
        omega
      · exact Nat.zero_le _

/-- The loop of `fsearch_get_depth` adds the indentation once per position of the
common prefix of the components in hand and still in the buffers. -/
theorem fsearch_get_depth_loop_spec (pcfg : fsearch_cfg_t) (fuel : Nat) :
    ∀ (f sf l sl : CStr) (depth : Nat), sf.length + 2 ≤ fuel →
      fsearch_get_depth_loop pcfg fuel (some f) sf (some l) sl depth
        = some ((fun d => size_t_add d pcfg.indentation)^[common_prefix_length
            (f :: tokens 47 sf) (l :: tokens 47 sl)] depth) := by
  induction fuel with
  | zero => intro f sf l sl depth h; omega
  | succ n ih =>
    intro f sf l sl depth h
    rw [fsearch_get_depth_loop, common_prefix_length]
    by_cases hfl : f = l
    · subst hfl
      have hs : strcmp_eq f f = true := by simp [strcmp_eq]
      simp only [hs, Bool.not_true, Bool.false_eq_true, if_false, if_true,
        Function.iterate_succ, Function.comp_apply]
      rw [cstr_slash]
      obtain ⟨m, rfl⟩ : ∃ m, n = m + 1 := ⟨n - 1, by omega⟩
      rcases strtok_r_tokens 47 sf with ⟨h1, h2⟩ | ⟨t, rest, h1, h2, _, h4⟩
      · rw [h1, h2]
        simp [fsearch_get_depth_loop, common_prefix_length]
      · rw [h1, h2]
        rcases strtok_r_tokens 47 sl with ⟨g1, g2⟩ | ⟨t2, rest2, g1, g2, _, _⟩
        · rw [g1, g2]
          simp [fsearch_get_depth_loop, common_prefix_length]
        · rw [g1, g2]
          exact ih t rest t2 rest2 _ (by omega)
    · have hs : strcmp_eq f l = false := by simp [strcmp_eq, hfl]
      simp [hs, hfl]

/-- Adding the indentation `k` times, in `size_t`. -/
theorem size_t_add_iterate (b : Int) (k : Nat) :
    (fun d => size_t_add d b)^[k] 0 = (k * to_size_t b) % 18446744073709551616 := by
  induction k with
  | zero => simp
  | succ k ih =>
    rw [Function.iterate_succ_apply', ih]
    unfold size_t_add
    rw [Nat.succ_mul, Nat.mod_add_mod]

/-- The value of `fsearch_get_depth` in `size_t` arithmetic, for any indentation. -/
theorem fsearch_get_depth_mod (pcfg : fsearch_cfg_t) (path : CStr) :
    fsearch_get_depth pcfg path
      = (common_prefix_length (tokens 47 path) (tokens 47 pcfg.last_directory)
          * to_size_t pcfg.indentation) % 18446744073709551616 := by
  unfold fsearch_get_depth
  simp only []
  rw [cstr_slash]
  rcases strtok_r_tokens 47 path with ⟨h1, h2⟩ | ⟨t, rest, h1, h2, _, h4⟩
  · rw [h1, h2]
    simp [fsearch_get_depth_loop, common_prefix_length]
  · rw [h2]
    rcases strtok_r_tokens 47 pcfg.last_directory with ⟨g1, g2⟩ | ⟨t2, rest2, g1, g2, _, _⟩
    · rw [g1, g2]
      simp [fsearch_get_depth_loop, common_prefix_length]
    · rw [g2, h1, g1]
      simp only []
      rw [fsearch_get_depth_loop_spec pcfg _ t rest t2 rest2 0 (by omega), Option.getD_some,
        size_t_add_iterate]

/-- Claim C22. For an indentation that is not negative (an `int`) and a path of fewer
than 2^32 characters, `fsearch_get_depth` returns the indentation multiplied by the
length of the longest common prefix of the component lists of the path and of the last
directory, the components of a path being its non-empty pieces between slashes. -/
theorem fsearch_get_depth_shared_components (pcfg : fsearch_cfg_t) (path : CStr)
    (h0 : 0 ≤ pcfg.indentation) (hi : pcfg.indentation ≤ 2147483647)
    (hp : path.length < 4294967296) :
    fsearch_get_depth pcfg path
      = pcfg.indentation.toNat
          * common_prefix_length (tokens 47 path) (tokens 47 pcfg.last_directory) := by
  rw [fsearch_get_depth_mod]
  have hk : common_prefix_length (tokens 47 path) (tokens 47 pcfg.last_directory)
      < 4294967296 :=
    lt_of_le_of_lt
      (le_trans (common_prefix_length_le _ _) (tokens_length_le 47 _ path (Nat.le_refl _))) hp
  have hb : to_size_t pcfg.indentation = pcfg.indentation.toNat := by
    unfold to_size_t
    rw [Int.emod_eq_of_lt h0 (by omega)]
  have hu : pcfg.indentation.toNat ≤ 2147483647 := by omega
  rw [hb, Nat.mul_comm]
  apply Nat.mod_eq_of_lt
  calc pcfg.indentation.toNat
        * common_prefix_length (tokens 47 path) (tokens 47 pcfg.last_directory)
      ≤ 2147483647 * 4294967296 := Nat.mul_le_mul hu (le_of_lt hk)
    _ < 18446744073709551616 := by norm_num

/-- C22 for the path `./a/b` after the directory `./a` with the unit 2: two components
are shared and the depth is 4. -/
theorem fsearch_get_depth_shared_components_witness :
    common_prefix_length (tokens 47 (cstr "./a/b")) (tokens 47 (cstr "./a")) = 2 ∧
    fsearch_get_depth (example_cfg [('i'.toNat, cstr "2")] "./a") (cstr "./a/b") = 4 :=
  ⟨by decide,
    (fsearch_get_depth_shared_components (example_cfg [('i'.toNat, cstr "2")] "./a")
      (cstr "./a/b") (by decide) (by decide) (by decide)).trans (by decide)⟩

/-! ## The shape of the names accepted in token mode: claim C21 -/

/-- No token is empty. -/
theorem tokens_ne_nil (d : Nat) (s t : CStr) (h : t ∈ tokens d s) : t ≠ [] := by
  unfold tokens at h
  have := (List.mem_filter.mp h).2
  intro e
  rw [e] at this
  simp at this

/-- A text splits into a run of copies of `c` and a text that starts otherwise. -/
theorem run_split (c : Nat) (w : CStr) :
    ∃ (k : Nat) (rest : CStr), w = List.replicate k c ++ rest ∧ rest.head? ≠ some c := by
  induction w with
  | nil => exact ⟨0, [], rfl, by simp⟩
  | cons a w ih =>
    by_cases h : a = c
    · obtain ⟨k, rest, h1, h2⟩ := ih
      refine ⟨k + 1, rest, ?_, h2⟩
      rw [h, h1, List.replicate_succ, List.cons_append]
    · exact ⟨0, a :: w, rfl, by simpa using h⟩

/-- A text that starts with a non-empty token starts with the first character of
the token. -/
theorem head_of_starts (t s : CStr) (ht : t ≠ []) (h : t <+: s) : s.head? = t.head? := by
  obtain ⟨v, rfl⟩ := h
  cases t with
  | nil => exact absurd rfl ht
  | cons a t => rfl

/-- A chain starts with its first token. -/
theorem token_chain_starts (t : CStr) (ts : List CStr) (s : CStr)
    (h : token_chain (t :: ts) s) : t <+: s := by
  cases ts with
  | nil =>
    obtain ⟨v, rfl⟩ := h
    exact List.prefix_append _ _
  | cons t2 ts =>
    obtain ⟨k, rest, rfl, _, _⟩ := h
    rw [List.append_assoc]
    exact List.prefix_append _ _

/-- The tokens are confirmed in turn from `offset` exactly when `offset` is a chain of
the tokens. -/
theorem match_tokens_iff_chain (ts : List CStr) :
    ∀ (t offset : CStr), t ≠ [] → (∀ x ∈ ts, x ≠ []) →
      (match_tokens (t :: ts) offset = true ↔ token_chain (t :: ts) offset) := by
  induction ts with
  | nil =>
    intro t offset _ _
    simp only [match_tokens, Bool.and_true, List.isPrefixOf_iff_prefix, token_chain]
    constructor
    · rintro ⟨v, rfl⟩; exact ⟨v, rfl⟩
    · rintro ⟨v, rfl⟩; exact ⟨v, rfl⟩
  | cons t2 ts ih =>
    intro t offset ht hts
    have ht2 : t2 ≠ [] := hts t2 (List.mem_cons_self _ _)
    have hts2 : ∀ x ∈ ts, x ≠ [] := fun x hx => hts x (List.mem_cons_of_mem _ hx)
    obtain ⟨init, c, rfl⟩ : ∃ (init : CStr) (c : Nat), t = init ++ [c] :=
      ⟨t.dropLast, t.getLast ht, (List.dropLast_append_getLast ht).symm⟩
    have hD : (init ++ [c]).getLastD 0 = c := by simp
    have hQ : (init ++ [c]).getLast? = some c := by simp
    rw [match_tokens, Bool.and_eq_true, List.isPrefixOf_iff_prefix, token_chain]
    constructor
    · rintro ⟨⟨w, rfl⟩, hm⟩
      obtain ⟨k, rest, hw, hrest⟩ := run_split c w
      have hat : after_token (init ++ [c] ++ w) (init ++ [c]) = rest := by
        rw [hw, ← List.append_assoc]
        exact after_token_run _ _ _ _ hrest
      rw [hat] at hm
      have hc := (ih t2 rest ht2 hts2).mp hm
      refine ⟨k, rest, ?_, ?_, hc⟩
      · rw [hD, hw]
        simp only [List.append_assoc]
      · rw [hQ, ← head_of_starts t2 rest ht2 (token_chain_starts t2 ts rest hc)]
        exact hrest
    · rintro ⟨k, rest, rfl, hne, hc⟩
      have hrest : rest.head? ≠ some c := by
        rw [head_of_starts t2 rest ht2 (token_chain_starts t2 ts rest hc), ← hQ]
        exact hne
      have hat : after_token (init ++ [c] ++ List.replicate k ((init ++ [c]).getLastD 0)
          ++ rest) (init ++ [c]) = rest := by
        rw [hD]
        exact after_token_run _ _ _ _ hrest
      refine ⟨?_, ?_⟩
      · rw [List.append_assoc]
        exact List.prefix_append _ _
      · rw [hat]
        exact (ih t2 rest ht2 hts2).mpr hc

/-- The result of `strstr` for a non-empty needle is the tail at its first
occurrence. -/
theorem strstr_first_occurrence (t : CStr) (ht : t ≠ []) (s : CStr) :
    ∀ o : CStr, strstr s t = some o ↔ ∃ u, first_occurrence t s u o := by
  have hemp : t.isEmpty = false := by
    cases t with
    | nil => exact absurd rfl ht
    | cons a t => rfl
  induction s with
  | nil =>
    intro o
    simp only [strstr, hemp, Bool.false_eq_true, if_false, reduceCtorEq, false_iff]
    rintro ⟨u, h1, h2, _⟩
    have ho : o = [] := (List.append_eq_nil.mp h1.symm).2
    rw [ho] at h2
    exact ht (List.prefix_nil.mp h2)
  | cons h s ih =>
    intro o
    rw [strstr]
    by_cases hp : t.isPrefixOf (h :: s) = true
    · rw [if_pos hp]
      have hp2 : t <+: h :: s := List.isPrefixOf_iff_prefix.mp hp
      constructor
      · intro e
        simp only [Option.some.injEq] at e
        subst e
        exact ⟨[], rfl, hp2, fun i hi => absurd hi (Nat.not_lt_zero i)⟩
      · rintro ⟨u, h1, _, h3⟩
        cases u with
        | nil => rw [h1]; rfl
        | cons a u =>
          exact absurd hp2 (h3 0 (by simp))
    · rw [if_neg hp, ih o]
      have hp2 : ¬ t <+: h :: s := fun c => hp (List.isPrefixOf_iff_prefix.mpr c)
      constructor
      · rintro ⟨u, h1, h2, h3⟩
        refine ⟨h :: u, by rw [h1]; rfl, h2, ?_⟩
        intro i hi
        cases i with
        | zero => exact hp2
        | succ j =>
          rw [List.drop_succ_cons]
          exact h3 j (by simpa using hi)
      · rintro ⟨u, h1, h2, h3⟩
        cases u with
        | nil =>
          rw [List.nil_append] at h1
          rw [← h1] at h2
          exact absurd h2 hp2
        | cons a u =>
          rw [List.cons_append, List.cons.injEq] at h1
          refine ⟨u, h1.2, h2, ?_⟩
          intro j hj
          have := h3 (j + 1) (by simpa using hj)
          rw [List.drop_succ_cons] at this
          exact this

/-- Claim C21. In token mode, for a pattern whose non-empty tokens are `t1 .. tn`
(`n` at least 1), `fsearch_check_name` accepts an entry name exactly when its lowercase
form is `u t1 r1 t2 r2 ... tn v`, where the `t1` shown is the first occurrence of `t1`,
every `r_i` is a run, possibly empty, of copies of the last character of `t_i`, and
`t_(i+1)` does not begin with that character. -/
theorem fsearch_check_name_token_shape (pcfg : fsearch_cfg_t) (e t1 : CStr)
    (ts : List CStr) (hr : pcfg.use_regex = true)
    (hp : pattern_tokens pcfg.file_name = t1 :: ts) :
    fsearch_check_name pcfg e = true ↔
      ∃ u o, first_occurrence t1 (e.map tolower) u o ∧ token_chain (t1 :: ts) o := by
  have hn : pcfg.file_name ≠ [] := by
    intro c
    rw [c] at hp
    simp [pattern_tokens, tokens_nil] at hp
  have hall : ∀ x ∈ t1 :: ts, x ≠ [] := by
    intro x hx
    rw [← hp] at hx
    exact tokens_ne_nil 43 _ x hx
  have ht1 : t1 ≠ [] := hall t1 (List.mem_cons_self _ _)
  have hts : ∀ x ∈ ts, x ≠ [] := fun x hx => hall x (List.mem_cons_of_mem _ hx)
  rw [fsearch_check_name_token pcfg e hr hn, hp]
  simp only []
  constructor
  · intro h
    cases hs : strstr (e.map tolower) t1 with
    | none => rw [hs] at h; exact absurd h (by simp)
    | some o =>
      rw [hs] at h
      obtain ⟨u, hu⟩ := (strstr_first_occurrence t1 ht1 _ o).mp hs
      exact ⟨u, o, hu, (match_tokens_iff_chain ts t1 o ht1 hts).mp h⟩
  · rintro ⟨u, o, hu, hc⟩
    rw [(strstr_first_occurrence t1 ht1 _ o).mpr ⟨u, hu⟩]
    exact (match_tokens_iff_chain ts t1 o ht1 hts).mpr hc

/-- C21 for the pattern `lost+file` and the name `a-LostttFile.txt`: the lowercase
form is `a-` then `lost`, two more `t`, `file` and `.txt`, and the name is accepted. -/
theorem fsearch_check_name_token_shape_witness :
    (cfg_of_pattern "lost+file").use_regex = true ∧
    pattern_tokens (cfg_of_pattern "lost+file").file_name = [cstr "lost", cstr "file"] ∧
    fsearch_check_name (cfg_of_pattern "lost+file") (cstr "a-LostttFile.txt") = true :=
  ⟨by decide, by decide,
    (fsearch_check_name_token_shape (cfg_of_pattern "lost+file") (cstr "a-LostttFile.txt")
      (cstr "lost") [cstr "file"] (by decide) (by decide)).mpr
      ⟨cstr "a-", cstr "lostttfile.txt", ⟨by decide, by decide, by decide⟩,
        ⟨2, cstr "file.txt", by decide, by decide, ⟨cstr ".txt", by decide⟩⟩⟩⟩

end FSearch
